import Mathlib

/-!
# Aither: block decomposition, load balancing and gather-back ordering

A shallow embedding of `src/src/parallel.cpp` (class `decomposition`, declared in
`src/include/boundaryConditions.hpp`, the two decomposition strategies and the
non-root branch of `GetProcBlocks`), of the classes `interblock`, `boundarySurface` and
`boundaryConditions` of `src/include/boundaryConditions.hpp`, of class `input`
(`src/include/input.hpp`, `src/src/input.cpp`) and of the function `trim` of the first
parser (`src/input.cpp`).  The member functions of
`boundaryConditions` whose bodies are not among the sources (`Split`, `Join`, `BlockDim`,
`PackBC`, `UnpackBC`) are modelled from the design specification and marked as such.

Conventions of the embedding.

* `std::vector<T>` is a `List T`; a block index is a `Nat`, a stored `int` is an `Int`.
  Signed overflow is undefined behaviour in the source and is not modelled.
* An out-of-range subscript is undefined behaviour in the source.  Reads are modelled by
  `List.getD` and writes by `List.set` (which leaves the list alone when the index is out of
  range); the theorems state the index bounds they rely on.
* A `double` is modelled by the rational number it holds.  In `LoadRatio` and in the
  comparisons of `SendWholeOrSplit`, where the rounding of a quotient or of a difference can
  decide a strict comparison, every operation is rounded to the 53 significant bits of a
  `double` (`roundDouble`).  Elsewhere (the loads, which are integers, `IdealLoad` and the
  loop guard of `CubicDecomposition`) the exact values are used; the one division whose IEEE
  result for a zero divisor is observable there (the loop guard) is modelled with the
  zero-divisor case spelled out.
* In `trim`, whose locals are declared `unsigned int` and `int` while the string searches
  return a `size_t`, the conversions are modelled as the values modulo `2 ^ 32` and
  `2 ^ w`, with `w` the number of bits of `size_t` as a parameter.
* Console output is not modelled, except for the warning of `CubicDecomposition`, which is
  returned as a flag.
* A member function of `input` that can end the run with `exit(EXIT_FAILURE)`, or whose
  behaviour can be undefined, returns an `Option`: `none` stands for the run ending or for
  the undefined behaviour, as the comment of the function says.
-/

namespace Aither

/-! ## Geometry adapter -/

/-- Modelled from the spec: the macro `ROOTP` of `macros.hpp` (not among the sources), the
rank of the coordinating process.  The constructor comment in `parallel.cpp` reads "default
configuration is all blocks on rank 0" and `ManualDecomposition` sends "from ROOT". -/
def ROOTP : Int := 0

/-- Modelled from the spec: the geometry container `plot3dBlock` of `plot3d.hpp` (not among
the sources), reduced to the query surface used by the decomposition: the number of nodes
along each axis.  `PrintDiagnostics` prints `NumI() - 1` as the number of cells along `i`. -/
structure plot3dBlock where
  /-- Nodes along `i`. -/
  numi : Int
  /-- Nodes along `j`. -/
  numj : Int
  /-- Nodes along `k`. -/
  numk : Int
  deriving DecidableEq

instance : Inhabited plot3dBlock := ⟨⟨0, 0, 0⟩⟩

/-- Number of nodes along `i`. -/
def plot3dBlock.NumI (b : plot3dBlock) : Int := b.numi

/-- Number of nodes along `j`. -/
def plot3dBlock.NumJ (b : plot3dBlock) : Int := b.numj

/-- Number of nodes along `k`. -/
def plot3dBlock.NumK (b : plot3dBlock) : Int := b.numk

/-- Modelled from the spec: `plot3dBlock::NumCells` (not among the sources), the total cell
count, the product of the cell counts along the three axes. -/
def plot3dBlock.NumCells (b : plot3dBlock) : Int :=
  (b.numi - 1) * (b.numj - 1) * (b.numk - 1)

/-- Modelled from the spec: `plot3dBlock::Split` (not among the sources), "give me the
sub-block below/above index i along axis d": the lower block keeps `ind` cells along `dir`
(`ind + 1` nodes) and the upper block the remaining cells (it starts at node `ind`).  A
direction other than `i`, `j`, `k` is never passed by `CubicDecomposition`; the blocks are
then returned unsplit. -/
def plot3dBlock.Split (b : plot3dBlock) (dir : String) (ind : Int) :
    plot3dBlock × plot3dBlock :=
  if dir = "i" then ({ b with numi := ind + 1 }, { b with numi := b.numi - ind })
  else if dir = "j" then ({ b with numj := ind + 1 }, { b with numj := b.numj - ind })
  else if dir = "k" then ({ b with numk := ind + 1 }, { b with numk := b.numk - ind })
  else (b, b)

/-! ## The decomposition class -/

/-- The data members of class `decomposition` (`boundaryConditions.hpp`, 360-376). -/
structure decomposition where
  /-- Rank of each block. -/
  rank_ : List Int
  /-- Parent block of each block. -/
  parBlock_ : List Int
  /-- Local position of each block on its rank. -/
  localPos_ : List Int
  /-- Lower block of each split. -/
  splitHistBlkLow_ : List Int
  /-- Upper block of each split. -/
  splitHistBlkUp_ : List Int
  /-- Index of each split. -/
  splitHistIndex_ : List Int
  /-- Direction of each split. -/
  splitHistDir_ : List String
  /-- Number of processors. -/
  numProcs_ : Int
  deriving DecidableEq

/-- The constructor `decomposition::decomposition(num, nProcs)` (`parallel.cpp`, 497-522):
all blocks on rank 0, block `ii` its own parent and in local slot `ii`, no splits. -/
def decomposition.construct (num : Nat) (nProcs : Int) : decomposition where
  rank_ := List.replicate num 0
  parBlock_ := (List.range num).map Int.ofNat
  localPos_ := (List.range num).map Int.ofNat
  splitHistBlkLow_ := []
  splitHistBlkUp_ := []
  splitHistIndex_ := []
  splitHistDir_ := []
  numProcs_ := nProcs

/-- Accessor `Rank(a)`, that is `rank_[a]`. -/
def decomposition.Rank (d : decomposition) (a : Nat) : Int := d.rank_.getD a 0

/-- Accessor `ParentBlock(a)`, that is `parBlock_[a]`. -/
def decomposition.ParentBlock (d : decomposition) (a : Nat) : Int := d.parBlock_.getD a 0

/-- Accessor `LocalPosition(a)`, that is `localPos_[a]`. -/
def decomposition.LocalPosition (d : decomposition) (a : Nat) : Int := d.localPos_.getD a 0

/-- Accessor `NumProcs()`. -/
def decomposition.NumProcs (d : decomposition) : Int := d.numProcs_

/-- Accessor `Size()`, the length of `rank_`. -/
def decomposition.Size (d : decomposition) : Nat := d.rank_.length

/-- Accessor `NumSplits()`, the length of `splitHistDir_`. -/
def decomposition.NumSplits (d : decomposition) : Nat := d.splitHistDir_.length

/-- Member `NumBlocksOnProc(a)` (`parallel.cpp`, 601-611): the number of entries of `rank_`
equal to `a`. -/
def decomposition.NumBlocksOnProc (d : decomposition) (a : Int) : Nat := d.rank_.count a

/-- The closing loop of `SendToProc` (`parallel.cpp`, 641-648), started at block `ii`: every
block whose rank is `fromProc` and whose local position is above `oldPos` moves down by
one. -/
def moveDown (rank : List Int) (fromProc oldPos : Int) : Nat → List Int → List Int
  | _, [] => []
  | ii, p :: ps =>
    (if rank.getD ii 0 = fromProc ∧ p > oldPos then p - 1 else p) ::
      moveDown rank fromProc oldPos (ii + 1) ps

/-- Member `SendToProc(blk, fromProc, toProc)` (`parallel.cpp`, 623-649). -/
def decomposition.SendToProc (d : decomposition) (blk : Nat) (fromProc toProc : Int) :
    decomposition :=
  let oldPos := d.localPos_.getD blk 0
  let localPos1 := d.localPos_.set blk (d.NumBlocksOnProc toProc)
  let rank1 := d.rank_.set blk toProc
  { d with rank_ := rank1, localPos_ := moveDown rank1 fromProc oldPos 0 localPos1 }

/-- Member `Split(low, ind, dir)` (`parallel.cpp`, 652-672).  The local position of the new
block is computed after `rank_` has grown, as in the source. -/
def decomposition.Split (d : decomposition) (low : Nat) (ind : Int) (dir : String) :
    decomposition :=
  let rank1 := d.rank_ ++ [d.rank_.getD low 0]
  { rank_ := rank1
    parBlock_ := d.parBlock_ ++ [d.parBlock_.getD low 0]
    localPos_ := d.localPos_ ++ [(rank1.count (rank1.getD low 0) : Int) - 1]
    splitHistBlkLow_ := d.splitHistBlkLow_ ++ [(low : Int)]
    splitHistBlkUp_ := d.splitHistBlkUp_ ++ [(d.rank_.length : Int)]
    splitHistIndex_ := d.splitHistIndex_ ++ [ind]
    splitHistDir_ := d.splitHistDir_ ++ [dir]
    numProcs_ := d.numProcs_ }

/-- The decompositions obtained from `decomposition(num, nProcs)` by `SendToProc` calls whose
`fromProc` is the current rank of a valid block `blk` and `Split` calls on a valid block. -/
inductive Reachable (num : Nat) (nProcs : Int) : decomposition → Prop
  | init : Reachable num nProcs (decomposition.construct num nProcs)
  | send {d : decomposition} (blk : Nat) (fromProc toProc : Int) :
      Reachable num nProcs d → blk < d.Size → d.Rank blk = fromProc →
      Reachable num nProcs (d.SendToProc blk fromProc toProc)
  | split {d : decomposition} (low : Nat) (ind : Int) (dir : String) :
      Reachable num nProcs d → low < d.Size →
      Reachable num nProcs (d.Split low ind dir)

/-- The local positions of the blocks resident on rank `r`, in block order. -/
def decomposition.slotsOn (d : decomposition) (r : Int) : List Int :=
  ((List.range d.Size).filter (fun b => d.Rank b = r)).map d.LocalPosition


/-- The pointwise form of local-slot density: the three per-block vectors agree in length,
every block's local position lies in `[0, number of blocks on its rank)`, and two blocks of
one rank never share a local position. -/
structure SlotsDense (d : decomposition) : Prop where
  len : d.localPos_.length = d.rank_.length
  bound : ∀ i, i < d.rank_.length →
    0 ≤ d.localPos_.getD i 0 ∧ d.localPos_.getD i 0 < (d.rank_.count (d.rank_.getD i 0) : Int)
  inj : ∀ i j, i < d.rank_.length → j < d.rank_.length →
    d.rank_.getD i 0 = d.rank_.getD j 0 → d.localPos_.getD i 0 = d.localPos_.getD j 0 → i = j

/-! ## Double precision -/

/-- The number of binary digits of `m`, by repeated halving.  The first argument bounds the
number of halvings; it is never exhausted when it is at least `m`. -/
def bitLengthAux : Nat → Nat → Nat
  | 0, _ => 0
  | fuel + 1, m => if m = 0 then 0 else bitLengthAux fuel (m / 2) + 1

/-- The number of binary digits of `n`: for positive `n`,
`2 ^ (bitLength n - 1) ≤ n < 2 ^ bitLength n`. -/
def bitLength (n : Nat) : Nat := bitLengthAux n n

/-- The positive rational `n / d` (`n`, `d` positive) rounded to 53 significant bits, to
nearest, ties to even.  With `sh` the shift for which `n * 2 ^ sh / d` lies in
`[2 ^ 52, 2 ^ 53)`, the result is that quotient rounded to an integer, times `2 ^ (-sh)`. -/
def roundPos (n d : Nat) : ℚ :=
  let sh0 : Int := 52 - ((bitLength n : Int) - (bitLength d : Int))
  let num0 : Nat := n * 2 ^ sh0.toNat
  let den0 : Nat := d * 2 ^ (-sh0).toNat
  let sh : Int := if num0 / den0 < 2 ^ 52 then sh0 + 1 else sh0
  let num : Nat := n * 2 ^ sh.toNat
  let den : Nat := d * 2 ^ (-sh).toNat
  let q : Nat := num / den
  let r : Nat := num % den
  let m : Nat := if 2 * r < den then q else if den < 2 * r then q + 1
    else if q % 2 = 0 then q else q + 1
  ((m * 2 ^ (-sh).toNat : Nat) : ℚ) / ((2 ^ sh.toNat : Nat) : ℚ)

/-- The value of a real number as a `double`: rounding to nearest, ties to even, to the 53
significant bits of IEEE binary64.  The exponent is not bounded: the numbers the source
computes from 32-bit integers stay far from overflow and from the subnormal range. -/
def roundDouble (x : ℚ) : ℚ :=
  if x.num = 0 then 0
  else if x.num < 0 then -roundPos x.num.natAbs x.den
  else roundPos x.num.natAbs x.den

/-- The double `fabs(1.0 - load / ideal)` of `LoadRatio` and of the two loops of
`SendWholeOrSplit`, for doubles `load` and `ideal`: the quotient and the difference are each
rounded, and `fabs` is exact.  A zero divisor is the one place where the value differs from
the source and the comparisons do not.  In the source a zero `ideal` (no cells) makes every
quotient an infinity or a NaN and so every ratio, and an infinite or NaN `ideal`
(`numProcs_ = 0`) makes every ratio 1 or NaN; either way every comparison
`newRatio < ratio` is false.  Here such an `ideal` is 0, every quotient is 0 and every ratio
is 1, so that every such comparison is false as well. -/
def ratioDouble (load ideal : ℚ) : ℚ := |roundDouble (1 - roundDouble (load / ideal))|

/-! ## Processor loads -/

/-- The statement `load[r] += c` on the per-rank load vector. -/
def addLoad (load : List Int) (r c : Int) : List Int :=
  if 0 ≤ r then load.set r.toNat (load.getD r.toNat 0 + c) else load

/-- The accumulation loop `for ii < grid.size(): load[rank_[ii]] += grid[ii].NumCells()`
shared by `MaxLoad`, `MinLoad`, `MostOverloadedProc` and `MostUnderloadedProc`, started at
block `ii`. -/
def accumLoads (rank : List Int) : Nat → List plot3dBlock → List Int → List Int
  | _, [], load => load
  | ii, g :: gs, load => accumLoads rank (ii + 1) gs (addLoad load (rank.getD ii 0) g.NumCells)

/-- The local vector `load` of `MaxLoad` and its siblings: `numProcs_` zeros, then the
accumulation loop. -/
def decomposition.loadVector (d : decomposition) (grid : List plot3dBlock) : List Int :=
  accumLoads d.rank_ 0 grid (List.replicate d.numProcs_.toNat 0)

/-- The scan of `std::max_element` after its first element: `best` is the position of the
largest element so far, and a later element replaces it only when strictly larger. -/
def maxElementFrom (best : Nat) (bestVal : Int) : Nat → List Int → Nat
  | _, [] => best
  | i, x :: xs =>
    if bestVal < x then maxElementFrom i x (i + 1) xs
    else maxElementFrom best bestVal (i + 1) xs

/-- Position of the first largest element, `std::max_element` (position 0 on an empty
range, where the source would dereference the end iterator). -/
def max_element : List Int → Nat
  | [] => 0
  | x :: xs => maxElementFrom 0 x 1 xs

/-- The scan of `std::min_element` after its first element. -/
def minElementFrom (best : Nat) (bestVal : Int) : Nat → List Int → Nat
  | _, [] => best
  | i, x :: xs =>
    if x < bestVal then minElementFrom i x (i + 1) xs
    else minElementFrom best bestVal (i + 1) xs

/-- Position of the first smallest element, `std::min_element`. -/
def min_element : List Int → Nat
  | [] => 0
  | x :: xs => minElementFrom 0 x 1 xs

/-- The integer `totalCells` of `IdealLoad`. -/
def totalCells (grid : List plot3dBlock) : Int := (grid.map plot3dBlock.NumCells).sum

/-- Member `IdealLoad(grid)` (`parallel.cpp`, 526-536): total cells over `numProcs_`, as an
exact quotient.  The double the function returns is `IdealLoadDouble`. -/
def decomposition.IdealLoad (d : decomposition) (grid : List plot3dBlock) : ℚ :=
  (totalCells grid : ℚ) / (d.numProcs_ : ℚ)

/-- The double returned by `IdealLoad(grid)` (`parallel.cpp`, 534-535): the quotient of the
two integers converted to `double`, rounded once.  For `numProcs_ = 0` the source gets an
infinity or a NaN and here the value is 0; see `ratioDouble`. -/
def decomposition.IdealLoadDouble (d : decomposition) (grid : List plot3dBlock) : ℚ :=
  roundDouble (d.IdealLoad grid)

/-- Member `MaxLoad(grid)` (`parallel.cpp`, 540-550). -/
def decomposition.MaxLoad (d : decomposition) (grid : List plot3dBlock) : ℚ :=
  (((d.loadVector grid).getD (max_element (d.loadVector grid)) 0 : Int) : ℚ)

/-- Member `MinLoad(grid)` (`parallel.cpp`, 554-564). -/
def decomposition.MinLoad (d : decomposition) (grid : List plot3dBlock) : ℚ :=
  (((d.loadVector grid).getD (min_element (d.loadVector grid)) 0 : Int) : ℚ)

/-- Member `MostOverloadedProc(grid, overload)` (`parallel.cpp`, 568-581): the returned rank
and the value written to `overload`. -/
def decomposition.MostOverloadedProc (d : decomposition) (grid : List plot3dBlock) :
    Int × ℚ :=
  ((max_element (d.loadVector grid) : Int), d.MaxLoad grid - d.IdealLoad grid)

/-- Member `MostUnderloadedProc(grid, underload)` (`parallel.cpp`, 585-598): the returned
rank and the value written to `underload`. -/
def decomposition.MostUnderloadedProc (d : decomposition) (grid : List plot3dBlock) :
    Int × ℚ :=
  ((min_element (d.loadVector grid) : Int), d.IdealLoad grid - d.MinLoad grid)

/-- The loop of `ProcLoad`, started at block `ii`. -/
def procLoadFrom (rank : List Int) (proc : Int) : Nat → List plot3dBlock → Int
  | _, [] => 0
  | ii, g :: gs =>
    (if rank.getD ii 0 = proc then g.NumCells else 0) + procLoadFrom rank proc (ii + 1) gs

/-- Member `ProcLoad(grid, proc)` (`parallel.cpp`, 695-707). -/
def decomposition.ProcLoad (d : decomposition) (grid : List plot3dBlock) (proc : Int) : ℚ :=
  (procLoadFrom d.rank_ proc 0 grid : ℚ)

/-- Member `LoadRatio(grid, proc)` (`parallel.cpp`, 709-717): `fabs(1.0 - load / ideal)`,
computed in doubles. -/
def decomposition.LoadRatio (d : decomposition) (grid : List plot3dBlock) (proc : Int) : ℚ :=
  ratioDouble (d.ProcLoad grid proc) (d.IdealLoadDouble grid)

/-! ## Whole block or split -/

/-- The first loop of `SendWholeOrSplit` (`parallel.cpp`, 744-756), started at block `ii`:
the first block of rank `send` whose move improves both ratios, if any.  The two new ratios
are computed in doubles, as in the source. -/
def wholeBlockScan (rank : List Int) (send : Int)
    (sendLoad recvLoad ideal sendRatio recvRatio : ℚ) : Nat → List plot3dBlock → Option Nat
  | _, [] => none
  | ii, g :: gs =>
    if rank.getD ii 0 = send ∧
        ratioDouble (roundDouble (sendLoad - (g.NumCells : ℚ))) ideal < sendRatio ∧
        ratioDouble (roundDouble (recvLoad + (g.NumCells : ℚ))) ideal < recvRatio then some ii
    else wholeBlockScan rank send sendLoad recvLoad ideal sendRatio recvRatio (ii + 1) gs

/-- The second loop of `SendWholeOrSplit` (`parallel.cpp`, 759-767), started at block `ii`
with the current `blk` and `bSize`: the first largest block of rank `send`. -/
def largestBlockScan (rank : List Int) (send : Int) :
    Nat → List plot3dBlock → Nat → Int → Nat
  | _, [], blk, _ => blk
  | ii, g :: gs, blk, bSize =>
    if rank.getD ii 0 = send ∧ g.NumCells > bSize then
      largestBlockScan rank send (ii + 1) gs ii g.NumCells
    else largestBlockScan rank send (ii + 1) gs blk bSize

/-- The last loop of `SendWholeOrSplit` (`parallel.cpp`, 794-805) over the remaining
candidate indices, with the current `sendRatio`, `recvRatio` and `ind`.  The two new ratios
are computed in doubles, as in the source. -/
def splitIndexScan (sendLoad recvLoad ideal : ℚ) (planeSize : Int) :
    List Int → ℚ → ℚ → Int → Int
  | [], _, _, ind => ind
  | ii :: rest, sendRatio, recvRatio, ind =>
    if ratioDouble (roundDouble (sendLoad - ((planeSize * ii : Int) : ℚ))) ideal < sendRatio ∧
        ratioDouble (roundDouble (recvLoad + ((planeSize * ii : Int) : ℚ))) ideal < recvRatio
    then
      splitIndexScan sendLoad recvLoad ideal planeSize rest
        (ratioDouble (roundDouble (sendLoad - ((planeSize * ii : Int) : ℚ))) ideal)
        (ratioDouble (roundDouble (recvLoad + ((planeSize * ii : Int) : ℚ))) ideal) ii
    else splitIndexScan sendLoad recvLoad ideal planeSize rest sendRatio recvRatio ind

/-- The values of `ii` visited by `for (ii = 2; ii < splitLen - 2; ii++)`. -/
def splitCandidates (splitLen : Int) : List Int :=
  (List.range (splitLen - 4).toNat).map (fun k => (k : Int) + 2)

/-- What `SendWholeOrSplit` hands back: the returned index and the final values of the
reference parameters `blk` and `dir`. -/
structure sendChoice where
  /-- Returned split index, `-1` for a whole-block move. -/
  ind : Int
  /-- Block to send or split. -/
  blk : Nat
  /-- Split direction. -/
  dir : String
  deriving DecidableEq

/-- Member `SendWholeOrSplit(grid, send, recv, blk, dir)` (`parallel.cpp`, 724-808); `blk0`
is the value of `blk` on entry. -/
def decomposition.SendWholeOrSplit (d : decomposition) (grid : List plot3dBlock)
    (send recv : Int) (blk0 : Nat) : sendChoice :=
  let sendRatio := d.LoadRatio grid send
  let recvRatio := d.LoadRatio grid recv
  let ideal := d.IdealLoadDouble grid
  let sendLoad := d.ProcLoad grid send
  let recvLoad := d.ProcLoad grid recv
  match wholeBlockScan d.rank_ send sendLoad recvLoad ideal sendRatio recvRatio 0 grid with
  | some ii => { ind := -1, blk := ii, dir := "none" }
  | none =>
    let blk := largestBlockScan d.rank_ send 0 grid blk0 0
    let g := grid.getD blk default
    if g.NumK ≥ g.NumJ ∧ g.NumK ≥ g.NumI then
      { ind := splitIndexScan sendLoad recvLoad ideal ((g.NumJ - 1) * (g.NumI - 1))
          (splitCandidates g.NumK) sendRatio recvRatio (-1)
        blk := blk, dir := "k" }
    else if g.NumJ ≥ g.NumI then
      { ind := splitIndexScan sendLoad recvLoad ideal ((g.NumK - 1) * (g.NumI - 1))
          (splitCandidates g.NumJ) sendRatio recvRatio (-1)
        blk := blk, dir := "j" }
    else
      { ind := splitIndexScan sendLoad recvLoad ideal ((g.NumJ - 1) * (g.NumK - 1))
          (splitCandidates g.NumI) sendRatio recvRatio (-1)
        blk := blk, dir := "i" }

/-! ## Decomposition strategies -/

/-- The loop of `ManualDecomposition` (`parallel.cpp`, 67-69) after its first `m` passes,
for a grid of `n` blocks: `decomp(n, nProcs)`, then `SendToProc(ii, ROOTP, ii)` for
`ii = 1, ..., m`. -/
def manualSends (n : Nat) (nProcs : Int) (m : Nat) : decomposition :=
  (List.range' 1 m).foldl (fun decomp ii => decomp.SendToProc ii ROOTP (ii : Int))
    (decomposition.construct n nProcs)

/-- Function `ManualDecomposition(grid, bcs, numProc)` (`parallel.cpp`, 44-90).  `none` is
the fatal exit of lines 52-60.  The argument `bcs` is not used by the source function and
is left out. -/
def ManualDecomposition (grid : List plot3dBlock) (numProc : Int) : Option decomposition :=
  if (grid.length : Int) ≠ numProc then none
  else some (manualSends grid.length numProc (grid.length - 1))

/-- The variables of `CubicDecomposition` that its loop reads and writes. -/
structure cubicState where
  /-- The grid, split in place. -/
  grid : List plot3dBlock
  /-- The decomposition being built. -/
  decomp : decomposition
  /-- The iteration counter `count`. -/
  count : Int
  deriving DecidableEq

/-- The state of `CubicDecomposition` on entry to its loop. -/
def cubicInit (grid : List plot3dBlock) (numProc : Int) : cubicState :=
  { grid := grid, decomp := decomposition.construct grid.length numProc, count := 0 }

/-- The loop guard `decomp.MaxLoad(grid) / idealLoad > 1.1` of `CubicDecomposition`.  For a
zero divisor the IEEE quotient is `+inf` for a positive dividend (guard true) and `NaN` or
`-inf` otherwise (guard false). -/
def overThreshold (maxLoad idealLoad : ℚ) : Bool :=
  if idealLoad = 0 then decide (0 < maxLoad) else decide (maxLoad / idealLoad > 11 / 10)

/-- The rank `ol` chosen at the top of the loop body (`parallel.cpp`, 115). -/
def cubicState.ol (s : cubicState) : Int := (s.decomp.MostOverloadedProc s.grid).1

/-- The rank `ul` chosen at the top of the loop body (`parallel.cpp`, 116). -/
def cubicState.ul (s : cubicState) : Int := (s.decomp.MostUnderloadedProc s.grid).1

/-- The outcome of the call `decomp.SendWholeOrSplit(grid, ol, ul, blk, dir)` with `blk = 0`
on entry (`parallel.cpp`, 118-120). -/
def cubicState.choice (s : cubicState) : sendChoice :=
  s.decomp.SendWholeOrSplit s.grid s.ol s.ul 0

/-- One pass through the loop body of `CubicDecomposition` (`parallel.cpp`, 114-146).  The
boundary-condition updates of lines 131-138 act on `bcs` only (their code is not among the
sources) and are left out; they feed nothing back into `grid` or `decomp`.  In the split
branch the upper block is appended to `grid`, the lower block replaces `grid[blk]`, and the
decomposition records the split and then sends `blk`. -/
def cubicStep (s : cubicState) : cubicState :=
  if s.choice.ind < 0 then
    { grid := s.grid, decomp := s.decomp.SendToProc s.choice.blk s.ol s.ul,
      count := s.count + 1 }
  else
    { grid := (s.grid ++ [((s.grid.getD s.choice.blk default).Split s.choice.dir
          s.choice.ind).2]).set s.choice.blk
          ((s.grid.getD s.choice.blk default).Split s.choice.dir s.choice.ind).1
      decomp := (s.decomp.Split s.choice.blk s.choice.ind s.choice.dir).SendToProc
        s.choice.blk s.ol s.ul
      count := s.count + 1 }

/-- The `while` loop of `CubicDecomposition` (`parallel.cpp`, 113-147); the first argument
is `maxSplits - count`, the number of iterations the bound still allows. -/
def cubicLoop (idealLoad : ℚ) : Nat → cubicState → cubicState
  | 0, s => s
  | n + 1, s =>
    if overThreshold (s.decomp.MaxLoad s.grid) idealLoad then
      cubicLoop idealLoad n (cubicStep s)
    else s

/-- What `CubicDecomposition` leaves behind: the returned decomposition, the grid it split
in place, the final value of `count`, and whether the warning of lines 149-152 was
printed. -/
structure cubicResult where
  /-- Returned decomposition. -/
  decomp : decomposition
  /-- Grid after the splits. -/
  grid : List plot3dBlock
  /-- Number of loop iterations performed. -/
  count : Int
  /-- Whether the "Maximum number of splits" warning was printed. -/
  warned : Bool
  deriving DecidableEq

/-- Function `CubicDecomposition(grid, bcs, numProc)` (`parallel.cpp`, 95-173). -/
def CubicDecomposition (grid : List plot3dBlock) (numProc : Int) : cubicResult :=
  let idealLoad := (decomposition.construct grid.length numProc).IdealLoad grid
  let maxSplits := numProc * 10
  let s := cubicLoop idealLoad maxSplits.toNat (cubicInit grid numProc)
  { decomp := s.decomp, grid := s.grid, count := s.count,
    warned := decide (s.count = maxSplits - 1) }

/-! ## Gather-back -/

/-- Modelled from the spec: the class `procBlock` of `procBlock.hpp` (not among the sources),
reduced to the two fields `GetProcBlocks` reads: the global block id and the local slot. -/
structure procBlock where
  /-- Global position, `GlobalPos()`. -/
  globalPos : Int
  /-- Local position, `LocalPosition()`. -/
  localPos : Int
  deriving DecidableEq

instance : Inhabited procBlock := ⟨⟨0, 0⟩⟩

/-- Accessor `GlobalPos()`. -/
def procBlock.GlobalPos (b : procBlock) : Int := b.globalPos

/-- Accessor `LocalPosition()`. -/
def procBlock.LocalPosition (b : procBlock) : Int := b.localPos

/-- The inner loop of the non-root branch of `GetProcBlocks` (`parallel.cpp`, 456-462),
started at position `jj` of `localPos` with the current `minGlobal`; `rest` is the part of
`localPos` from `jj` on.  The left operand looks `jj` up through `localPos`, the right
operand indexes `localBlocks` with `minGlobal` directly, as in the source. -/
def minGlobalScan (localBlocks : List procBlock) : Nat → List Int → Nat → Nat
  | _, [], minGlobal => minGlobal
  | jj, p :: rest, minGlobal =>
    if (localBlocks.getD p.toNat default).GlobalPos <
        (localBlocks.getD minGlobal default).GlobalPos then
      minGlobalScan localBlocks (jj + 1) rest jj
    else minGlobalScan localBlocks (jj + 1) rest minGlobal

/-- The outer loop of the non-root branch of `GetProcBlocks` (`parallel.cpp`, 453-469) with
`n` iterations left: the blocks handed to `PackSendSolMPI`, in order. -/
def sendLoop (localBlocks : List procBlock) : Nat → List Int → List procBlock
  | 0, _ => []
  | n + 1, localPos =>
    let minGlobal := minGlobalScan localBlocks 0 localPos 0
    localBlocks.getD (localPos.getD minGlobal 0).toNat default ::
      sendLoop localBlocks n (localPos.eraseIdx minGlobal)

/-- The non-root branch of `GetProcBlocks` (`parallel.cpp`, 446-470): the sequence of blocks
passed to `PackSendSolMPI`. -/
def GetProcBlocks (localBlocks : List procBlock) : List procBlock :=
  sendLoop localBlocks localBlocks.length (localBlocks.map procBlock.LocalPosition)

/-- A small reachable decomposition: three blocks on two processes, block 1 sent to rank 1,
block 0 sent to the rank it is already on, then block 0 split. -/
def slotExample : decomposition :=
  (((decomposition.construct 3 2).SendToProc 1 0 1).SendToProc 0 0 0).Split 0 4 "k"

/-- The load of rank `r` is within 10% of `target`. -/
def withinTenPercent (d : decomposition) (grid : List plot3dBlock) (target : ℚ) (r : Int) :
    Prop :=
  |d.ProcLoad grid r - target| ≤ target / 10

instance (d : decomposition) (grid : List plot3dBlock) (target : ℚ) (r : Int) :
    Decidable (withinTenPercent d grid target r) := by
  unfold withinTenPercent
  infer_instance

/-! ## Vocabulary for the statements about `SendWholeOrSplit` -/

/-- Moving `moved` cells from the sender to the receiver makes both load ratios
`fabs(1.0 - load / ideal)`, as the source computes them in doubles, strictly smaller than
`sendRatio` and `recvRatio`: the test of `parallel.cpp` 746-751 and 795-800. -/
def moveImproves (sendLoad recvLoad ideal sendRatio recvRatio moved : ℚ) : Prop :=
  ratioDouble (roundDouble (sendLoad - moved)) ideal < sendRatio ∧
    ratioDouble (roundDouble (recvLoad + moved)) ideal < recvRatio

instance (sendLoad recvLoad ideal sendRatio recvRatio moved : ℚ) :
    Decidable (moveImproves sendLoad recvLoad ideal sendRatio recvRatio moved) := by
  unfold moveImproves
  infer_instance

/-- Block `ii` is a block of rank `send` whose whole move to `recv` improves both current
load ratios. -/
def decomposition.wholeMoveImproves (d : decomposition) (grid : List plot3dBlock)
    (send recv : Int) (ii : Nat) : Prop :=
  ii < grid.length ∧ d.Rank ii = send ∧
    moveImproves (d.ProcLoad grid send) (d.ProcLoad grid recv) (d.IdealLoadDouble grid)
      (d.LoadRatio grid send) (d.LoadRatio grid recv) ((grid.getD ii default).NumCells : ℚ)

instance (d : decomposition) (grid : List plot3dBlock) (send recv : Int) (ii : Nat) :
    Decidable (d.wholeMoveImproves grid send recv ii) := by
  unfold decomposition.wholeMoveImproves
  infer_instance

/-- The axis `SendWholeOrSplit` cuts a block along (`parallel.cpp`, 772-786): `k` if
`NumK` is at least `NumJ` and `NumI`, else `j` if `NumJ` is at least `NumI`, else `i`. -/
def plot3dBlock.longestAxis (g : plot3dBlock) : String :=
  if g.NumK ≥ g.NumJ ∧ g.NumK ≥ g.NumI then "k" else if g.NumJ ≥ g.NumI then "j" else "i"

/-- The value of `splitLen` for a cut along `dir` (`parallel.cpp`, 777, 781, 785): the
number of nodes along `dir`. -/
def plot3dBlock.splitLen (g : plot3dBlock) (dir : String) : Int :=
  if dir = "k" then g.NumK else if dir = "j" then g.NumJ else g.NumI

/-- The value of `planeSize` for a cut along `dir` (`parallel.cpp`, 776, 780, 784): the
number of cells in one plane normal to `dir`. -/
def plot3dBlock.planeSize (g : plot3dBlock) (dir : String) : Int :=
  if dir = "k" then (g.NumJ - 1) * (g.NumI - 1)
  else if dir = "j" then (g.NumK - 1) * (g.NumI - 1)
  else (g.NumJ - 1) * (g.NumK - 1)

/-- Sending the first `j` planes of block `blk` along `dir` from `send` to `recv` makes both
load ratios strictly smaller than `sendRatio` and `recvRatio`. -/
def decomposition.splitImproves (d : decomposition) (grid : List plot3dBlock)
    (send recv : Int) (blk : Nat) (dir : String) (sendRatio recvRatio : ℚ) (j : Int) : Prop :=
  moveImproves (d.ProcLoad grid send) (d.ProcLoad grid recv) (d.IdealLoadDouble grid)
    sendRatio recvRatio ((((grid.getD blk default).planeSize dir * j : Int)) : ℚ)

instance (d : decomposition) (grid : List plot3dBlock) (send recv : Int) (blk : Nat)
    (dir : String) (sendRatio recvRatio : ℚ) (j : Int) :
    Decidable (d.splitImproves grid send recv blk dir sendRatio recvRatio j) := by
  unfold decomposition.splitImproves
  infer_instance

/-- The load ratio of rank `proc` after `moved` cells have been added to its load, computed
in doubles as in the source. -/
def decomposition.ratioAfter (d : decomposition) (grid : List plot3dBlock) (proc : Int)
    (moved : ℚ) : ℚ :=
  ratioDouble (roundDouble (d.ProcLoad grid proc + moved)) (d.IdealLoadDouble grid)

/-- The outcome of `SendWholeOrSplit` for one block of 10x10x10 cells held by rank 0 of four
processes, with sender 0 and receiver 1. -/
def cubeChoice : sendChoice :=
  (decomposition.construct 1 4).SendWholeOrSplit [⟨11, 11, 11⟩] 0 1 0

/-- The state of `CubicDecomposition` on entry to its loop for one block of 2x2x2 cells on
two processes. -/
def smallCubeInit : cubicState := cubicInit [⟨3, 3, 3⟩] 2

/-! ## The load ratio without rounding -/

/-- The load ratio as the design specification writes it, `|1 - load / ideal|`, over the
rationals and with no rounding; `ratioDouble` is the value the source computes. -/
def ratioExact (load ideal : ℚ) : ℚ := |1 - load / ideal|

/-- Moving `moved` cells from the sender to the receiver makes both unrounded ratios
`|1 - load / ideal|` strictly smaller than their unrounded current values. -/
def moveImprovesExact (sendLoad recvLoad ideal moved : ℚ) : Prop :=
  ratioExact (sendLoad - moved) ideal < ratioExact sendLoad ideal ∧
    ratioExact (recvLoad + moved) ideal < ratioExact recvLoad ideal

instance (sendLoad recvLoad ideal moved : ℚ) :
    Decidable (moveImprovesExact sendLoad recvLoad ideal moved) := by
  unfold moveImprovesExact
  infer_instance

/-- Block `ii` is a block of rank `send` whose whole move to `recv` makes both unrounded
ratios strictly smaller, with the unrounded ideal load `totalCells / numProcs`. -/
def decomposition.wholeMoveImprovesExact (d : decomposition) (grid : List plot3dBlock)
    (send recv : Int) (ii : Nat) : Prop :=
  ii < grid.length ∧ d.Rank ii = send ∧
    moveImprovesExact (d.ProcLoad grid send) (d.ProcLoad grid recv) (d.IdealLoad grid)
      ((grid.getD ii default).NumCells : ℚ)

instance (d : decomposition) (grid : List plot3dBlock) (send recv : Int) (ii : Nat) :
    Decidable (d.wholeMoveImprovesExact grid send recv ii) := by
  unfold decomposition.wholeMoveImprovesExact
  infer_instance

/-- Sending the first `j` planes of block `blk` along `dir` from `send` to `recv` makes both
unrounded ratios strictly smaller than their unrounded current values. -/
def decomposition.splitImprovesExact (d : decomposition) (grid : List plot3dBlock)
    (send recv : Int) (blk : Nat) (dir : String) (j : Int) : Prop :=
  moveImprovesExact (d.ProcLoad grid send) (d.ProcLoad grid recv) (d.IdealLoad grid)
    ((((grid.getD blk default).planeSize dir * j : Int)) : ℚ)

instance (d : decomposition) (grid : List plot3dBlock) (send recv : Int) (blk : Nat)
    (dir : String) (j : Int) : Decidable (d.splitImprovesExact grid send recv blk dir j) := by
  unfold decomposition.splitImprovesExact
  infer_instance

/-- Four blocks on three processes, block 0 on rank 1, block 1 on rank 2, blocks 2 and 3 on
rank 0: `decomposition(4, 3)`, then `SendToProc(0, 0, 1)` and `SendToProc(1, 0, 2)`. -/
def tieDecomp : decomposition :=
  ((decomposition.construct 4 3).SendToProc 0 0 1).SendToProc 1 0 2

/-- Blocks of 6, 64, 60 and 20 cells.  Under `tieDecomp` the loads of ranks 0, 1, 2 are 80,
6 and 64 and the ideal load is 50. -/
def tieGridWhole : List plot3dBlock := [⟨2, 2, 7⟩, ⟨5, 5, 5⟩, ⟨4, 5, 6⟩, ⟨2, 5, 6⟩]

/-- Blocks of 6, 8, 8 and 8 cells.  Under `tieDecomp` the loads of ranks 0, 1, 2 are 16, 6
and 8 and the ideal load is 10. -/
def tieGridEqual : List plot3dBlock := [⟨2, 2, 7⟩, ⟨3, 3, 3⟩, ⟨3, 3, 3⟩, ⟨3, 3, 3⟩]

/-- Three blocks on three processes, block `ii` on rank `ii`: `decomposition(3, 3)`, then
`SendToProc(1, 0, 1)` and `SendToProc(2, 0, 2)`. -/
def tieSplitDecomp : decomposition :=
  ((decomposition.construct 3 3).SendToProc 1 0 1).SendToProc 2 0 2

/-- Blocks of 16, 6 and 8 cells; block 0 has 2x2x4 cells.  Under `tieSplitDecomp` the loads
of ranks 0, 1, 2 are 16, 6 and 8 and the ideal load is 10. -/
def tieSplitGrid : List plot3dBlock := [⟨3, 3, 5⟩, ⟨2, 2, 7⟩, ⟨3, 3, 3⟩]

/-! ## Split history accessors -/

/-- Accessor `SplitHistBlkLower(a)`, that is `splitHistBlkLow_[a]`. -/
def decomposition.SplitHistBlkLower (d : decomposition) (a : Nat) : Int :=
  d.splitHistBlkLow_.getD a 0

/-- Accessor `SplitHistBlkUpper(a)`, that is `splitHistBlkUp_[a]`. -/
def decomposition.SplitHistBlkUpper (d : decomposition) (a : Nat) : Int :=
  d.splitHistBlkUp_.getD a 0

/-- Accessor `SplitHistIndex(a)`, that is `splitHistIndex_[a]`. -/
def decomposition.SplitHistIndex (d : decomposition) (a : Nat) : Int :=
  d.splitHistIndex_.getD a 0

/-- Accessor `SplitHistDir(a)`, that is `splitHistDir_[a]`. -/
def decomposition.SplitHistDir (d : decomposition) (a : Nat) : String :=
  d.splitHistDir_.getD a ""

/-- The size relations stated in the comments of the class (`boundaryConditions.hpp`,
361-375): the three per-block vectors have one entry per block and the four history vectors
one entry per split. -/
structure decomposition.WellSized (d : decomposition) : Prop where
  parBlock : d.parBlock_.length = d.rank_.length
  localPos : d.localPos_.length = d.rank_.length
  histLow : d.splitHistBlkLow_.length = d.splitHistDir_.length
  histUp : d.splitHistBlkUp_.length = d.splitHistDir_.length
  histIndex : d.splitHistIndex_.length = d.splitHistDir_.length

/-! ## Interblock -/

/-- The data members of class `interblock` (`boundaryConditions.hpp`, 243-257); each
two-element array is a pair (first side, second side) and `patchBorder_` a list. -/
structure interblock where
  /-- Processor location of the boundaries. -/
  rank_ : Int × Int
  /-- Global block numbers. -/
  block_ : Int × Int
  /-- Local block numbers. -/
  localBlock_ : Int × Int
  /-- Boundary numbers. -/
  boundary_ : Int × Int
  /-- First direction start numbers. -/
  d1Start_ : Int × Int
  /-- First direction end numbers. -/
  d1End_ : Int × Int
  /-- Second direction start numbers. -/
  d2Start_ : Int × Int
  /-- Second direction end numbers. -/
  d2End_ : Int × Int
  /-- Index of direction 3. -/
  constSurf_ : Int × Int
  /-- Borders another patch on the sides of the patch. -/
  patchBorder_ : List Bool
  /-- Orientation code. -/
  orientation_ : Int
  deriving DecidableEq

/-- Accessor `BoundaryFirst()`. -/
def interblock.BoundaryFirst (ib : interblock) : Int := ib.boundary_.1

/-- Accessor `BoundarySecond()`. -/
def interblock.BoundarySecond (ib : interblock) : Int := ib.boundary_.2

/-- Member `IsLowerLowerOrUpperUpper()` (`boundaryConditions.hpp`, 352-354):
`(boundary_[0] + boundary_[1]) % 2 == 0`, with the truncating remainder of C++. -/
def interblock.IsLowerLowerOrUpperUpper (ib : interblock) : Bool :=
  decide ((ib.boundary_.1 + ib.boundary_.2).tmod 2 = 0)

/-- Modelled from the spec: boundary ids run from 1 to 6 and an odd id names the minimum
face of its axis (1, 3, 5 for `i`, `j`, `k`). -/
def isMinimumFace (b : Int) : Prop := b = 1 ∨ b = 3 ∨ b = 5

/-- Modelled from the spec: an even boundary id names the maximum face of its axis (2, 4, 6
for `i`, `j`, `k`). -/
def isMaximumFace (b : Int) : Prop := b = 2 ∨ b = 4 ∨ b = 6

/-- An interblock joining the minimum `i` face of block 0 (boundary 1) to the minimum `j`
face of block 1 (boundary 3). -/
def lowerLowerExample : interblock where
  rank_ := (0, 0)
  block_ := (0, 1)
  localBlock_ := (0, 1)
  boundary_ := (1, 3)
  d1Start_ := (0, 0)
  d1End_ := (4, 4)
  d2Start_ := (0, 0)
  d2End_ := (4, 4)
  constSurf_ := (0, 0)
  patchBorder_ := [false, false, false, false, false, false, false, false]
  orientation_ := 1

/-! ## Boundary conditions: data model, split and join -/

/-- The data members of class `boundarySurface` (`boundaryConditions.hpp`, 44-47): the
boundary condition name and the seven integers of `data_`. -/
structure boundarySurface where
  /-- Boundary condition name, `BCType()`. -/
  bcType_ : String
  /-- `IMin()`. -/
  imin : Int
  /-- `IMax()`. -/
  imax : Int
  /-- `JMin()`. -/
  jmin : Int
  /-- `JMax()`. -/
  jmax : Int
  /-- `KMin()`. -/
  kmin : Int
  /-- `KMax()`. -/
  kmax : Int
  /-- `Tag()`. -/
  tag : Int
  deriving DecidableEq

/-- The data members of class `boundaryConditions` (`boundaryConditions.hpp`, 171-177): the
surfaces, `i` surfaces first, then `j`, then `k`, and the three counts. -/
structure boundaryConditions where
  /-- Surfaces defining the block. -/
  surfs_ : List boundarySurface
  /-- Number of `i` surfaces. -/
  numSurfI_ : Nat
  /-- Number of `j` surfaces. -/
  numSurfJ_ : Nat
  /-- Number of `k` surfaces. -/
  numSurfK_ : Nat
  deriving DecidableEq

/-- The default constructor `boundarySurface()` (`boundaryConditions.hpp`, 56): the name
"undefined" and seven zeros. -/
def boundarySurface.construct : boundarySurface := ⟨"undefined", 0, 0, 0, 0, 0, 0, 0⟩

/-- Modelled from the spec: the constructor `boundaryConditions(i, j, k)` (declared at
`boundaryConditions.hpp`, 181; its body is not among the sources).  It stores the three
surface counts and sizes `surfs_` to their sum, each surface default-constructed, which is
what the members' comments ("number of i-surfaces to define boundary on block") and
`NumSurfaces()` ask of it. -/
def boundaryConditions.construct (i j k : Nat) : boundaryConditions where
  surfs_ := List.replicate (i + j + k) boundarySurface.construct
  numSurfI_ := i
  numSurfJ_ := j
  numSurfK_ := k

/-- Accessor `NumSurfaces()`. -/
def boundaryConditions.NumSurfaces (bc : boundaryConditions) : Nat :=
  bc.numSurfI_ + bc.numSurfJ_ + bc.numSurfK_

/-- The `i` surfaces: entries `0 .. numSurfI_ - 1` of `surfs_`. -/
def boundaryConditions.surfsI (bc : boundaryConditions) : List boundarySurface :=
  bc.surfs_.take bc.numSurfI_

/-- The `j` surfaces: the next `numSurfJ_` entries of `surfs_`. -/
def boundaryConditions.surfsJ (bc : boundaryConditions) : List boundarySurface :=
  (bc.surfs_.drop bc.numSurfI_).take bc.numSurfJ_

/-- The `k` surfaces: the next `numSurfK_` entries of `surfs_`. -/
def boundaryConditions.surfsK (bc : boundaryConditions) : List boundarySurface :=
  (bc.surfs_.drop (bc.numSurfI_ + bc.numSurfJ_)).take bc.numSurfK_

/-- The boundary conditions made of the given `i`, `j` and `k` surfaces. -/
def boundaryConditions.ofFamilies (is js ks : List boundarySurface) : boundaryConditions where
  surfs_ := is ++ js ++ ks
  numSurfI_ := is.length
  numSurfJ_ := js.length
  numSurfK_ := ks.length

/-- Lower end of the index range of a surface along `dir` (`RangeI/J/K`). -/
def boundarySurface.minAlong (s : boundarySurface) (dir : String) : Int :=
  if dir = "i" then s.imin else if dir = "j" then s.jmin else s.kmin

/-- Upper end of the index range of a surface along `dir` (`RangeI/J/K`). -/
def boundarySurface.maxAlong (s : boundarySurface) (dir : String) : Int :=
  if dir = "i" then s.imax else if dir = "j" then s.jmax else s.kmax

/-- The surface with its index range along `dir` replaced by `[lo, hi]`; type, tag and the
ranges along the other two axes are kept. -/
def boundarySurface.withRange (s : boundarySurface) (dir : String) (lo hi : Int) :
    boundarySurface :=
  if dir = "i" then { s with imin := lo, imax := hi }
  else if dir = "j" then { s with jmin := lo, jmax := hi }
  else { s with kmin := lo, kmax := hi }

/-- Modelled from the spec: `boundaryConditions::BlockDimI/J/K` (declared in the header,
bodies not among the sources), the extent of the block along `dir`: the largest upper range
end of its surfaces. -/
def boundaryConditions.BlockDim (bc : boundaryConditions) (dir : String) : Int :=
  (bc.surfs_.map (fun s => s.maxAlong dir)).foldr max 0

/-- Modelled from the spec: the part of a surface that stays with the lower block when the
block is cut along `dir` at `ind` ("entirely on the low side: keep their ranges"; "spanning
index: one copy clipped to the low side"; nothing for a surface entirely on the high
side).  Part of `boundaryConditions::Split`, whose body is not among the sources. -/
def boundarySurface.lowerPart (s : boundarySurface) (dir : String) (ind : Int) :
    Option boundarySurface :=
  if s.maxAlong dir ≤ ind then some s
  else if ind ≤ s.minAlong dir then none
  else some (s.withRange dir (s.minAlong dir) ind)

/-- Modelled from the spec: the part of a surface that goes to the upper block when the
block is cut along `dir` at `ind` ("entirely on the high side: re-indexed ranges (shifted by
index)"; "spanning index: one copy clipped to the high side"; nothing for a surface
entirely on the low side).  Part of `boundaryConditions::Split`. -/
def boundarySurface.upperPart (s : boundarySurface) (dir : String) (ind : Int) :
    Option boundarySurface :=
  if s.maxAlong dir ≤ ind then none
  else if ind ≤ s.minAlong dir then
    some (s.withRange dir (s.minAlong dir - ind) (s.maxAlong dir - ind))
  else some (s.withRange dir 0 (s.maxAlong dir - ind))

/-- Modelled from the spec: the synthetic surface of type "interblock" on the internal face
created by a cut normal to `dir`: it lies at index `pos` along `dir`, covers the whole cross
section of the block and carries the freshly allocated `tag`.  Part of
`boundaryConditions::Split`. -/
def boundaryConditions.internalFace (bc : boundaryConditions) (dir : String) (pos tag : Int) :
    boundarySurface :=
  boundarySurface.withRange
    { bcType_ := "interblock", imin := 0, imax := bc.BlockDim "i", jmin := 0,
      jmax := bc.BlockDim "j", kmin := 0, kmax := bc.BlockDim "k", tag := tag }
    dir pos pos

/-- Modelled from the spec: the surfaces of one face family of the lower block after a cut
along `dir` at `ind`; `onAxis` says whether this is the family of the faces normal to
`dir`, which receives the synthetic surface on the new internal face (at index `ind`). -/
def boundaryConditions.lowerFamily (bc : boundaryConditions) (dir : String) (ind tag : Int)
    (onAxis : Bool) (fam : List boundarySurface) : List boundarySurface :=
  fam.filterMap (fun s => s.lowerPart dir ind) ++
    (if onAxis then [bc.internalFace dir ind tag] else [])

/-- Modelled from the spec: the surfaces of one face family of the upper block after a cut
along `dir` at `ind`; the family of the faces normal to `dir` receives the synthetic
surface on the new internal face (at index 0 of the upper block). -/
def boundaryConditions.upperFamily (bc : boundaryConditions) (dir : String) (ind tag : Int)
    (onAxis : Bool) (fam : List boundarySurface) : List boundarySurface :=
  (if onAxis then [bc.internalFace dir 0 tag] else []) ++
    fam.filterMap (fun s => s.upperPart dir ind)

/-- Modelled from the spec: `boundaryConditions::Split(axis, index, lowerBlockId,
upperBlockId, altSurf)` (declared at `boundaryConditions.hpp` 233-234, body not among the
sources), section 4.1 of the spec: the lower and the upper boundary conditions.  Surfaces
carry no block id in the data model, so the two block ids play no part; `tag` is the
freshly allocated tag of the synthetic pair; the output `altSurf` is not modelled. -/
def boundaryConditions.Split (bc : boundaryConditions) (dir : String) (ind tag : Int) :
    boundaryConditions × boundaryConditions :=
  (boundaryConditions.ofFamilies
      (bc.lowerFamily dir ind tag (decide (dir = "i")) bc.surfsI)
      (bc.lowerFamily dir ind tag (decide (dir = "j")) bc.surfsJ)
      (bc.lowerFamily dir ind tag (decide (dir = "k")) bc.surfsK),
    boundaryConditions.ofFamilies
      (bc.upperFamily dir ind tag (decide (dir = "i")) bc.surfsI)
      (bc.upperFamily dir ind tag (decide (dir = "j")) bc.surfsJ)
      (bc.upperFamily dir ind tag (decide (dir = "k")) bc.surfsK))

/-- Modelled from the spec: the test by which `boundaryConditions::Join` (body not among the
sources) recognises the synthetic surfaces a split introduced: a surface of type
"interblock" lying in the plane `pos` normal to `dir`. -/
def boundarySurface.isInternalFace (s : boundarySurface) (dir : String) (pos : Int) : Bool :=
  decide (s.bcType_ = "interblock" ∧ s.minAlong dir = pos ∧ s.maxAlong dir = pos)

/-- Modelled from the spec: the test by which `boundaryConditions::Join` (body not among the
sources) pairs the two clipped halves of a surface: `u` continues `l` across the plane `ind`
normal to `dir` when `l` ends at the plane, `u` starts there, and they agree in type, tag
and the ranges along the other two axes. -/
def boundarySurface.continuedBy (l : boundarySurface) (dir : String) (ind : Int)
    (u : boundarySurface) : Bool :=
  decide (l.minAlong dir < ind ∧ l.maxAlong dir = ind ∧ u.minAlong dir = ind ∧
    ind < u.maxAlong dir ∧ u.withRange dir (l.minAlong dir) (l.maxAlong dir) = l)

/-- Modelled from the spec: a lower surface after the join: merged with the upper surface
that continues it across the cut plane into one surface spanning the full range, or
unchanged when no upper surface continues it. -/
def boundarySurface.mergedWith (l : boundarySurface) (dir : String) (ind : Int)
    (ups : List boundarySurface) : boundarySurface :=
  match ups.find? (fun u => l.continuedBy dir ind u) with
  | some u => l.withRange dir (l.minAlong dir) (u.maxAlong dir)
  | none => l

/-- Modelled from the spec: the join of one face family: the synthetic surfaces on the
internal face are removed (only in the family normal to `dir`), the upper surfaces are
shifted back by `ind`, clipped halves are re-merged, and the upper surfaces that continue
no lower surface follow.  Part of `boundaryConditions::Join`. -/
def joinFamily (dir : String) (ind : Int) (onAxis : Bool) (lows ups : List boundarySurface) :
    List boundarySurface :=
  let lows1 := if onAxis then lows.filter (fun s => !s.isInternalFace dir ind) else lows
  let ups1 := ((if onAxis then ups.filter (fun s => !s.isInternalFace dir 0) else ups).map
    (fun s => s.withRange dir (s.minAlong dir + ind) (s.maxAlong dir + ind)))
  lows1.map (fun l => l.mergedWith dir ind ups1) ++
    ups1.filter (fun u => !lows1.any (fun l => l.continuedBy dir ind u))

/-- Modelled from the spec: `boundaryConditions::Join(other, axis, newSurfs)` (declared at
`boundaryConditions.hpp` 238, body not among the sources), section 4.1 of the spec: the
calling object is the lower block, `other` the upper block; the cut index is the extent of
the lower block along `dir`.  The output `newSurfs` is not modelled. -/
def boundaryConditions.Join (lower upper : boundaryConditions) (dir : String) :
    boundaryConditions :=
  boundaryConditions.ofFamilies
    (joinFamily dir (lower.BlockDim dir) (decide (dir = "i")) lower.surfsI upper.surfsI)
    (joinFamily dir (lower.BlockDim dir) (decide (dir = "j")) lower.surfsJ upper.surfsJ)
    (joinFamily dir (lower.BlockDim dir) (decide (dir = "k")) lower.surfsK upper.surfsK)

/-- Boundary conditions of a block of 8x4x4 cells, all of type "slipWall" with tag 0, whose
`j`-minimum face is covered by one surface. -/
def wallsOnePatch : boundaryConditions where
  surfs_ := [⟨"slipWall", 0, 0, 0, 4, 0, 4, 0⟩, ⟨"slipWall", 8, 8, 0, 4, 0, 4, 0⟩,
    ⟨"slipWall", 0, 8, 0, 0, 0, 4, 0⟩, ⟨"slipWall", 0, 8, 4, 4, 0, 4, 0⟩,
    ⟨"slipWall", 0, 8, 0, 4, 0, 0, 0⟩, ⟨"slipWall", 0, 8, 0, 4, 4, 4, 0⟩]
  numSurfI_ := 2
  numSurfJ_ := 2
  numSurfK_ := 2

/-- The same block with its `j`-minimum face covered by two surfaces that meet at `i = 4`. -/
def wallsTwoPatches : boundaryConditions where
  surfs_ := [⟨"slipWall", 0, 0, 0, 4, 0, 4, 0⟩, ⟨"slipWall", 8, 8, 0, 4, 0, 4, 0⟩,
    ⟨"slipWall", 0, 4, 0, 0, 0, 4, 0⟩, ⟨"slipWall", 4, 8, 0, 0, 0, 4, 0⟩,
    ⟨"slipWall", 0, 8, 4, 4, 0, 4, 0⟩,
    ⟨"slipWall", 0, 8, 0, 4, 0, 0, 0⟩, ⟨"slipWall", 0, 8, 0, 4, 4, 4, 0⟩]
  numSurfI_ := 2
  numSurfJ_ := 3
  numSurfK_ := 2

/-- The upper part of a surface expressed in the indices of the undivided block: the upper
part shifted back by `ind`. -/
def boundarySurface.upperRest (s : boundarySurface) (dir : String) (ind : Int) :
    Option boundarySurface :=
  if s.maxAlong dir ≤ ind then none
  else if ind ≤ s.minAlong dir then some s
  else some (s.withRange dir ind (s.maxAlong dir))

/-- No two different surfaces of the list look alike across the plane `ind` normal to
`dir`: if `s` reaches the plane from below, `t` extends above it, and the two agree in type,
tag and the ranges along the other two axes, then `s` and `t` are the same surface (one
surface crossing the plane). -/
def noLookalikes (dir : String) (ind : Int) (fam : List boundarySurface) : Prop :=
  ∀ s ∈ fam, ∀ t ∈ fam, s.minAlong dir < ind → ind ≤ s.maxAlong dir →
    t.minAlong dir ≤ ind → ind < t.maxAlong dir →
    t.withRange dir (s.minAlong dir) (s.maxAlong dir) = s → s = t

instance (dir : String) (ind : Int) (fam : List boundarySurface) :
    Decidable (noLookalikes dir ind fam) := by
  unfold noLookalikes
  infer_instance

/-- The surfaces of the face family normal to `dir`. -/
def boundaryConditions.familyOf (bc : boundaryConditions) (dir : String) :
    List boundarySurface :=
  if dir = "i" then bc.surfsI else if dir = "j" then bc.surfsJ else bc.surfsK

/-! ## The input class -/

/-- Modelled from the spec: class `icState` of `inputStates.hpp` (not among the sources),
reduced to what `ICStateForBlock` reads, the tag of the state, and the remaining data of the
state as a list of numbers. -/
structure icState where
  /-- Tag of the state, `Tag()`: the parent block it is for, `-1` for a default state. -/
  tag_ : Int
  /-- The flow state itself. -/
  state_ : List ℚ
  deriving DecidableEq

instance : Inhabited icState := ⟨⟨0, []⟩⟩

/-- Accessor `Tag()`. -/
def icState.Tag (ic : icState) : Int := ic.tag_

/-- The data members of class `input` (`input.hpp`, 40-87).  A `std::set<string>` is the list
of its elements in ascending order.  The member `bcStates_`, a vector of pointers to the
class `inputState` that is not among the sources, is left out. -/
structure input where
  /-- Simulation name. -/
  simName_ : String
  /-- Restart file name. -/
  restartName_ : String
  /-- Grid file name. -/
  gName_ : String
  /-- Time step. -/
  dt_ : ℚ
  /-- Number of iterations. -/
  iterations_ : Int
  /-- Keywords recognised by the parser. -/
  vars_ : List String
  /-- Reference pressure. -/
  pRef_ : ℚ
  /-- Reference density. -/
  rRef_ : ℚ
  /-- Reference length. -/
  lRef_ : ℚ
  /-- Reference velocity. -/
  vRef_ : ℚ × ℚ × ℚ
  /-- Ratio of specific heats. -/
  gamma_ : ℚ
  /-- Gas constant. -/
  gasConst_ : ℚ
  /-- Boundary conditions of each block. -/
  bc_ : List boundaryConditions
  /-- Time integration method. -/
  timeIntegration_ : String
  /-- CFL number. -/
  cfl_ : ℚ
  /-- Face reconstruction method. -/
  faceReconstruction_ : String
  /-- Face reconstruction for the viscous flux. -/
  viscousFaceReconstruction_ : String
  /-- Parameter of the MUSCL reconstruction. -/
  kappa_ : ℚ
  /-- Limiter. -/
  limiter_ : String
  /-- How often to write results. -/
  outputFrequency_ : Int
  /-- Equation set. -/
  equationSet_ : String
  /-- Reference temperature. -/
  tRef_ : ℚ
  /-- Matrix solver. -/
  matrixSolver_ : String
  /-- Sweeps of the matrix solver. -/
  matrixSweeps_ : Int
  /-- Relaxation parameter of the matrix solver. -/
  matrixRelaxation_ : ℚ
  /-- Beam and Warming parameter theta. -/
  timeIntTheta_ : ℚ
  /-- Beam and Warming parameter zeta. -/
  timeIntZeta_ : ℚ
  /-- Nonlinear iterations. -/
  nonlinearIterations_ : Int
  /-- Largest CFL number. -/
  cflMax_ : ℚ
  /-- Step of the CFL ramp. -/
  cflStep_ : ℚ
  /-- First CFL number. -/
  cflStart_ : ℚ
  /-- Inviscid flux jacobian. -/
  invFluxJac_ : String
  /-- CFL number for dual time stepping. -/
  dualTimeCFL_ : ℚ
  /-- Inviscid flux scheme. -/
  inviscidFlux_ : String
  /-- Decomposition method. -/
  decompMethod_ : String
  /-- Turbulence model. -/
  turbModel_ : String
  /-- How often to write restart data. -/
  restartFrequency_ : Int
  /-- First iteration number. -/
  iterationStart_ : Int
  /-- Variables to write out. -/
  outputVariables_ : List String
  /-- Initial conditions. -/
  ics_ : List icState
  deriving DecidableEq

/-- The constructor `input::input(name, resName)` (`input.cpp`, 47-128).  The statement
`bc_ = vector<boundaryConditions>(1)` holds one default-constructed element, which the header
defines as `boundaryConditions(2, 2, 2)`. -/
def input.construct (name resName : String) : input where
  simName_ := name
  restartName_ := resName
  gName_ := ""
  dt_ := -1
  iterations_ := 1
  pRef_ := -1
  rRef_ := -1
  lRef_ := 1
  vRef_ := (1, 0, 0)
  gamma_ := 14 / 10
  gasConst_ := 287058 / 1000
  bc_ := [boundaryConditions.construct 2 2 2]
  timeIntegration_ := "explicitEuler"
  cfl_ := -1
  faceReconstruction_ := "constant"
  viscousFaceReconstruction_ := "central"
  kappa_ := -2
  limiter_ := "none"
  outputFrequency_ := 1
  equationSet_ := "euler"
  tRef_ := -1
  matrixSolver_ := "lusgs"
  matrixSweeps_ := 1
  matrixRelaxation_ := 1
  timeIntTheta_ := 1
  timeIntZeta_ := 0
  nonlinearIterations_ := 1
  cflMax_ := 1
  cflStep_ := 0
  cflStart_ := 1
  invFluxJac_ := "rusanov"
  dualTimeCFL_ := -1
  inviscidFlux_ := "roe"
  decompMethod_ := "cubic"
  turbModel_ := "none"
  restartFrequency_ := 0
  iterationStart_ := 0
  outputVariables_ := ["density", "pressure", "vel_x", "vel_y", "vel_z"]
  vars_ := ["boundaryConditions", "boundaryStates", "cflMax", "cflStart", "cflStep",
    "decompositionMethod", "densityRef", "dualTimeCFL", "equationSet", "faceReconstruction",
    "gamma", "gasConstant", "gridName", "initialConditions", "inviscidFlux",
    "inviscidFluxJacobian", "iterations", "lengthRef", "limiter", "matrixRelaxation",
    "matrixSolver", "matrixSweeps", "nonlinearIterations", "outputFrequency",
    "outputVariables", "pressureRef", "restartFrequency", "temperatureRef",
    "timeIntegration", "timeStep", "turbulenceModel", "velocityRef",
    "viscousFaceReconstruction"]
  ics_ := []

/-- Accessor `Kappa()`. -/
def input.Kappa (inp : input) : ℚ := inp.kappa_

/-- Accessor `FaceReconstruction()`. -/
def input.FaceReconstruction (inp : input) : String := inp.faceReconstruction_

/-- Accessor `EquationSet()`. -/
def input.EquationSet (inp : input) : String := inp.equationSet_

/-- Accessor `TurbulenceModel()`. -/
def input.TurbulenceModel (inp : input) : String := inp.turbModel_

/-- Accessor `RestartFrequency()`. -/
def input.RestartFrequency (inp : input) : Int := inp.restartFrequency_

/-- Accessor `OutputVariables()`. -/
def input.OutputVariables (inp : input) : List String := inp.outputVariables_

/-- Member `UsingConstantReconstruction()` (`input.hpp`, 137-139). -/
def input.UsingConstantReconstruction (inp : input) : Bool :=
  inp.faceReconstruction_ = "constant"

/-- Member `UsingMUSCLReconstruction()` (`input.cpp`, 582-590). -/
def input.UsingMUSCLReconstruction (inp : input) : Bool :=
  inp.faceReconstruction_ = "upwind" || inp.faceReconstruction_ = "fromm" ||
    inp.faceReconstruction_ = "quick" || inp.faceReconstruction_ = "central" ||
    inp.faceReconstruction_ = "thirdOrder"

/-- Member `UsingHigherOrderReconstruction()` (`input.hpp`, 141-143). -/
def input.UsingHigherOrderReconstruction (inp : input) : Bool :=
  inp.faceReconstruction_ = "weno" || inp.faceReconstruction_ = "wenoZ"

/-- Member `IsViscous()` (`input.cpp`, 546-553). -/
def input.IsViscous (inp : input) : Bool :=
  inp.equationSet_ = "navierStokes" || inp.equationSet_ = "rans"

/-- Member `IsTurbulent()` (`input.cpp`, 556-562). -/
def input.IsTurbulent (inp : input) : Bool := inp.equationSet_ = "rans"

/-- Member `NumberGhostLayers()` (`input.cpp`, 691-703); `none` is the fatal branch. -/
def input.NumberGhostLayers (inp : input) : Option Int :=
  if inp.UsingConstantReconstruction then some 1
  else if inp.UsingMUSCLReconstruction then some 2
  else if inp.UsingHigherOrderReconstruction then some 3
  else none

/-- Member `ViscousCFLCoefficient()` (`input.cpp`, 674-682). -/
def input.ViscousCFLCoefficient (inp : input) : ℚ :=
  if inp.Kappa = 1 then 4
  else if inp.Kappa = -2 then 2
  else 1

/-- The remainder `a % b` of two `int`s: undefined for a zero divisor (`none`), truncated
towards zero otherwise. -/
def intRem (a b : Int) : Option Int := if b = 0 then none else some (a.tmod b)

/-- Member `WriteOutput(nn)` (`input.hpp`, 151); `none` when the remainder is undefined. -/
def input.WriteOutput (inp : input) (nn : Int) : Option Bool :=
  (intRem (nn + 1) inp.outputFrequency_).map (fun r => decide (r = 0))

/-- Member `WriteRestart(nn)` (`input.hpp`, 152-154): the conditional operator evaluates
the remainder only when `restartFrequency_` is not zero; `none` when the remainder is
undefined. -/
def input.WriteRestart (inp : input) (nn : Int) : Option Bool :=
  if inp.restartFrequency_ = 0 then some false
  else (intRem (nn + 1) inp.restartFrequency_).map (fun r => decide (r = 0))

/-- Member `CheckNonlinearIterations()` (`input.cpp`, 616-630). -/
def input.CheckNonlinearIterations (inp : input) : input :=
  let a := if inp.timeIntegration_ = "rk4" ∧ inp.nonlinearIterations_ ≠ 4
    then { inp with nonlinearIterations_ := 4 } else inp
  if a.timeIntegration_ = "euler" ∧ a.nonlinearIterations_ ≠ 1
    then { a with nonlinearIterations_ := 1 } else a

/-- The test `s.find(pat) != string::npos`: `pat` occurs in `s` as a run of consecutive
characters. -/
def containsStr (s pat : String) : Bool := decide (pat.data <:+: s.data)

/-- The first test of the loop body of `CheckOutputVariables` (`input.cpp`, 636-639): the
variable is only available for turbulent simulations. -/
def isTurbulenceVariable (var : String) : Bool :=
  var = "tke" || var = "sdr" || var = "viscosityRatio" || containsStr var "tkeGrad_" ||
    containsStr var "sdrGrad_" || var = "resid_tke" || var = "resid_sdr"

/-- The second test of the loop body of `CheckOutputVariables` (`input.cpp`, 646-647): the
variable is only available for viscous simulations. -/
def isViscousVariable (var : String) : Bool :=
  containsStr var "velGrad_" || containsStr var "tempGrad_"

/-- Whether the loop body of `CheckOutputVariables` (`input.cpp`, 635-653) calls
`outputVariables_.erase(var)` for the variable `var`. -/
def input.erasesVariable (inp : input) (var : String) : Bool :=
  !inp.IsTurbulent && (isTurbulenceVariable var || (!inp.IsViscous && isViscousVariable var))

/-- The loop of `CheckOutputVariables` (`input.cpp`, 634-654), a range-based `for` over
`outputVariables_` itself, started at the element `var` with `rest` the elements after it.
When the body erases `var` from the set, the iterator of the loop, which points at `var`, is
invalidated, and the increment that follows is undefined behaviour: `none`.  Otherwise the
set is as it was and the loop goes on with the next element. -/
def input.checkOutputLoop (inp : input) : List String → Option input
  | [] => some inp
  | var :: rest => if inp.erasesVariable var then none else input.checkOutputLoop inp rest

/-- Member `CheckOutputVariables()` (`input.cpp`, 633-655); `none` when the behaviour is
undefined. -/
def input.CheckOutputVariables (inp : input) : Option input :=
  inp.checkOutputLoop inp.outputVariables_

/-- Member `CheckTurbulenceModel()` (`input.cpp`, 658-669); `none` is `exit(EXIT_FAILURE)`,
otherwise the object after the call. -/
def input.CheckTurbulenceModel (inp : input) : Option input :=
  if inp.equationSet_ = "rans" ∧ inp.turbModel_ = "none" then none
  else if inp.equationSet_ ≠ "rans" ∧ inp.turbModel_ ≠ "none" then none
  else some inp

/-- The loop of `ICStateForBlock` (`input.cpp`, 712-720) with its three local variables
`blockIC`, `foundExactMatch` and `foundDefaultMatch`. -/
def icStateScan (block : Int) : List icState → icState → Bool → Bool → icState × Bool × Bool
  | [], blockIC, foundExactMatch, foundDefaultMatch =>
    (blockIC, foundExactMatch, foundDefaultMatch)
  | ic :: rest, blockIC, foundExactMatch, foundDefaultMatch =>
    if ic.Tag = -1 ∧ foundExactMatch = false then icStateScan block rest ic foundExactMatch true
    else if ic.Tag = block then icStateScan block rest ic true foundDefaultMatch
    else icStateScan block rest blockIC foundExactMatch foundDefaultMatch

/-- Member `ICStateForBlock(block)` (`input.cpp`, 706-730); `none` is `exit(EXIT_FAILURE)`. -/
def input.ICStateForBlock (inp : input) (block : Int) : Option icState :=
  match icStateScan block inp.ics_ default false false with
  | (blockIC, foundExactMatch, foundDefaultMatch) =>
    if foundDefaultMatch = false ∧ foundExactMatch = false then none else some blockIC

/-- The branch of `ReadInput` for the key `faceReconstruction` (`input.cpp`, 247-275) with
the value `tok`; `none` is `exit(EXIT_FAILURE)`. -/
def input.readFaceReconstruction (inp : input) (tok : String) : Option input :=
  if tok = "upwind" then some { inp with faceReconstruction_ := tok, kappa_ := -1 }
  else if tok = "fromm" then some { inp with faceReconstruction_ := tok, kappa_ := 0 }
  else if tok = "quick" then some { inp with faceReconstruction_ := tok, kappa_ := 1 / 2 }
  else if tok = "central" then some { inp with faceReconstruction_ := tok, kappa_ := 1 }
  else if tok = "thirdOrder" then some { inp with faceReconstruction_ := tok, kappa_ := 1 / 3 }
  else if tok = "constant" ∨ tok = "weno" ∨ tok = "wenoZ" then
    some { inp with faceReconstruction_ := tok }
  else none

/-- The function `ReadInput` (`input.cpp`, 140-501) on an input file whose only line with data is
`faceReconstruction: tok`: the branch for that key, taken when the key is one of the
keywords `vars_`, then the three sanity checks of lines 490-492. -/
def input.ReadFaceReconstructionLine (inp : input) (tok : String) : Option input :=
  (if "faceReconstruction" ∈ inp.vars_ then inp.readFaceReconstruction tok else some inp).bind
    fun a => a.CheckNonlinearIterations.CheckOutputVariables.bind
      fun b => b.CheckTurbulenceModel

/-- The face reconstructions that `ReadInput` accepts (`input.cpp`, 248-264). -/
def acceptedReconstructions : List String :=
  ["upwind", "fromm", "quick", "central", "thirdOrder", "constant", "weno", "wenoZ"]

/-! ## Packing boundary conditions into a buffer -/

/-- Modelled from the spec: the flat encoding of a string in the buffer (the bodies of
`boundaryConditions::PackBC` and `UnpackBC` are not among the sources): the number of
characters, then the characters.  A buffer is the list of the items written to it, one
`Int` for each integer and for each character. -/
def packString (s : String) : List Int :=
  (s.length : Int) :: s.data.map (fun c => (c.toNat : Int))

/-- Modelled from the spec: the reading of a string written by `packString`; the result is
the string and the buffer after it, `none` when the buffer is too short. -/
def unpackString : List Int → Option (String × List Int)
  | [] => none
  | n :: rest =>
    if n < 0 ∨ rest.length < n.toNat then none
    else some (String.mk ((rest.take n.toNat).map (fun v => Char.ofNat v.toNat)),
      rest.drop n.toNat)

/-- Modelled from the spec: the flat encoding of one surface, "each surface's type string
and its 7 integers (6 indices + tag)". -/
def boundarySurface.pack (s : boundarySurface) : List Int :=
  packString s.bcType_ ++ [s.imin, s.imax, s.jmin, s.jmax, s.kmin, s.kmax, s.tag]

/-- Modelled from the spec: the reading of one surface, in the order of
`boundarySurface.pack`. -/
def boundarySurface.unpack (buf : List Int) : Option (boundarySurface × List Int) :=
  match unpackString buf with
  | some (name, a :: b :: c :: d :: e :: f :: g :: rest) =>
    some (⟨name, a, b, c, d, e, f, g⟩, rest)
  | _ => none

/-- Modelled from the spec: the reading of `n` surfaces one after the other. -/
def unpackSurfaces : Nat → List Int → Option (List boundarySurface × List Int)
  | 0, buf => some ([], buf)
  | n + 1, buf =>
    match boundarySurface.unpack buf with
    | none => none
    | some (s, rest) =>
      match unpackSurfaces n rest with
      | none => none
      | some (ss, rest2) => some (s :: ss, rest2)

/-- Modelled from the spec: `boundaryConditions::PackBC` (declared in
`boundaryConditions.hpp`, 242; its body is not among the sources): the items written to the
buffer are "`surfaceCount, numI, numJ, numK` followed by a flat encoding of each surface's
type string and its 7 integers".  The surface count is the number of surfaces written. -/
def boundaryConditions.PackBC (bc : boundaryConditions) : List Int :=
  [(bc.surfs_.length : Int), (bc.numSurfI_ : Int), (bc.numSurfJ_ : Int), (bc.numSurfK_ : Int)]
    ++ bc.surfs_.flatMap boundarySurface.pack

/-- Modelled from the spec: `boundaryConditions::UnpackBC` (declared in
`boundaryConditions.hpp`, 243; its body is not among the sources): the buffer is read "in the
same order".  The result is the boundary conditions read and the buffer after them, `none`
when the buffer does not hold what the counts announce. -/
def boundaryConditions.UnpackBC : List Int → Option (boundaryConditions × List Int)
  | n :: i :: j :: k :: rest =>
    if n < 0 ∨ i < 0 ∨ j < 0 ∨ k < 0 then none
    else
      match unpackSurfaces n.toNat rest with
      | none => none
      | some (ss, rest2) => some (⟨ss, i.toNat, j.toNat, k.toNat⟩, rest2)
  | _ => none

/-! ## Inputs of the evaluations -/

/-- One block of 4 x 4 x 6 cells (5 x 5 x 7 nodes). -/
def thinSplitGrid : List plot3dBlock := [⟨5, 5, 7⟩]

/-- The input after `ReadInput` has read the line `faceReconstruction: weno`. -/
def wenoInput : Option input :=
  (input.construct "a.inp" "none").ReadFaceReconstructionLine "weno"

/-- The input of an inviscid run (constructor defaults) that asks for the output variables
`density` and `tke`. -/
def eulerWithTke : input :=
  { input.construct "a.inp" "none" with outputVariables_ := ["density", "tke"] }

/-! ## String searches and the simulation name -/

/-- The search `s.find(c)` for a pattern of one character `c`: the position of the first
`c`, `none` for `string::npos`. -/
def findChar (c : Char) : List Char → Option Nat
  | [] => none
  | x :: xs => if x = c then some 0 else (findChar c xs).map (fun i => i + 1)

/-- The call `s.substr(0, n)` with `n` the result of a search: the first `n` characters, the
whole string for `string::npos`.  Position 0 never exceeds the size, so nothing is thrown. -/
def substrTo (s : List Char) (n : Option Nat) : List Char :=
  match n with
  | none => s
  | some k => s.take k

/-- Member `SimNameRoot()` (`input.cpp`, 611-613): `simName_.substr(0, simName_.find("."))`. -/
def input.SimNameRoot (inp : input) : String :=
  String.mk (substrTo inp.simName_.data (findChar '.' inp.simName_.data))

/-! ## The line trimming of the first parser -/

/-- The search `s.find_first_not_of(whitespace)`: the position of the first character that
is not in `whitespace`, `none` for `string::npos`. -/
def findFirstNotOf (whitespace : List Char) : List Char → Option Nat
  | [] => none
  | x :: xs =>
    if x ∈ whitespace then (findFirstNotOf whitespace xs).map (fun i => i + 1) else some 0

/-- The search `s.find_last_not_of(whitespace)`: the position of the last character that is
not in `whitespace`, `none` for `string::npos`. -/
def findLastNotOf (whitespace : List Char) (s : List Char) : Option Nat :=
  (findFirstNotOf whitespace s.reverse).map (fun i => s.length - 1 - i)

/-- The value of a search result as a `size_t` of `w` bits: `string::npos` is `2 ^ w - 1`. -/
def asSizeT (w : Nat) (r : Option Nat) : Nat := r.getD (2 ^ w - 1)

/-- Conversion of an integer value to `unsigned int` (32 bits): the value modulo `2 ^ 32`. -/
def toUnsignedInt (n : Int) : Nat := (n % 2 ^ 32).toNat

/-- Conversion of an integer value to `int` (32 bits, two's complement). -/
def toSignedInt (n : Int) : Int :=
  if n % 2 ^ 32 < 2 ^ 31 then n % 2 ^ 32 else n % 2 ^ 32 - 2 ^ 32

/-- Conversion of an `int` to a `size_t` of `w` bits: the value modulo `2 ^ w`. -/
def intToSizeT (w : Nat) (n : Int) : Nat := (n % 2 ^ w).toNat

/-- The call `s.substr(pos, n)`: `none` when `pos > s.size()`, where the source throws
`std::out_of_range`; otherwise at most `n` characters from position `pos` on. -/
def substr (s : List Char) (pos n : Nat) : Option (List Char) :=
  if pos > s.length then none else some ((s.drop pos).take n)

/-- Function `trim(s, whitespace)` of the first parser (`src/input.cpp`, 70-87) on a
platform whose `size_t` has `w` bits (`w = 64` or `w = 32`), with the declared types of its
locals: `sBegin` is an `unsigned int`, compared with `string::npos` as a `size_t`; `sEnd`,
`sRange`, `tempComment` and `tempRange` are `int`s, and `sEnd - sBegin + 1` is computed in
`unsigned int`.  The result is `none` when `substr` throws. -/
def trim (w : Nat) (s whitespace : String) : Option String :=
  let sBegin : Nat := toUnsignedInt (asSizeT w (findFirstNotOf whitespace.data s.data))
  if sBegin = 2 ^ w - 1 then some ""
  else
    let sEnd : Int := toSignedInt (asSizeT w (findLastNotOf whitespace.data s.data))
    let sRange : Int := toSignedInt (toUnsignedInt (sEnd - sBegin + 1))
    match substr s.data sBegin (intToSizeT w sRange) with
    | none => none
    | some temp =>
      let tempComment : Int := toSignedInt (asSizeT w (findChar '#' temp))
      let tempRange : Int := tempComment - 0
      (substr temp 0 (intToSizeT w tempRange)).map String.mk

/-! ## Gather-back with checked subscripts -/

/-- The inner loop of the non-root branch of `GetProcBlocks` (`parallel.cpp`, 456-462) as
`minGlobalScan`, with the two subscripts of `localBlocks` checked: `none` as soon as
`localPos[jj]` or `minGlobal` is not a position of `localBlocks`. -/
def minGlobalScanChecked (localBlocks : List procBlock) : Nat → List Int → Nat → Option Nat
  | _, [], minGlobal => some minGlobal
  | jj, p :: rest, minGlobal =>
    if 0 ≤ p ∧ p.toNat < localBlocks.length ∧ minGlobal < localBlocks.length then
      if (localBlocks.getD p.toNat default).GlobalPos <
          (localBlocks.getD minGlobal default).GlobalPos then
        minGlobalScanChecked localBlocks (jj + 1) rest jj
      else minGlobalScanChecked localBlocks (jj + 1) rest minGlobal
    else none

/-- The outer loop of the non-root branch of `GetProcBlocks` (`parallel.cpp`, 453-469) as
`sendLoop`, with every subscript checked: `none` as soon as `minGlobal` is not a position of
`localPos` or `localPos[minGlobal]` is not a position of `localBlocks`. -/
def sendLoopChecked (localBlocks : List procBlock) : Nat → List Int → Option (List procBlock)
  | 0, _ => some []
  | n + 1, localPos =>
    match minGlobalScanChecked localBlocks 0 localPos 0 with
    | none => none
    | some minGlobal =>
      if minGlobal < localPos.length ∧ 0 ≤ localPos.getD minGlobal 0 ∧
          (localPos.getD minGlobal 0).toNat < localBlocks.length then
        (sendLoopChecked localBlocks n (localPos.eraseIdx minGlobal)).map
          (fun sent => localBlocks.getD (localPos.getD minGlobal 0).toNat default :: sent)
      else none

/-- The non-root branch of `GetProcBlocks` with every subscript checked. -/
def GetProcBlocksChecked (localBlocks : List procBlock) : Option (List procBlock) :=
  sendLoopChecked localBlocks localBlocks.length (localBlocks.map procBlock.LocalPosition)

/-! ## Rank range -/

/-- Every block of the decomposition is on a rank in `[0, numProc)`. -/
def decomposition.RanksIn (d : decomposition) (numProc : Int) : Prop :=
  ∀ i, i < d.Size → 0 ≤ d.Rank i ∧ d.Rank i < numProc

/-- What the loop of `CubicDecomposition` keeps for `numProc` processes: the decomposition
has one entry per grid block, it was built for `numProc` processes, and every block is on a
rank in `[0, numProc)`. -/
structure cubicState.RankSafe (s : cubicState) (numProc : Int) : Prop where
  size : s.decomp.Size = s.grid.length
  procs : s.decomp.NumProcs = numProc
  ranks : s.decomp.RanksIn numProc

/-! ## History invariant -/

/-- The size, history and parent relations kept by the constructor, `SendToProc` and `Split`
for a decomposition that started with `num` blocks. -/
structure HistoryInv (num : Nat) (d : decomposition) : Prop where
  parLen : d.parBlock_.length = d.rank_.length
  posLen : d.localPos_.length = d.rank_.length
  size : d.rank_.length = num + d.splitHistDir_.length
  lowLen : d.splitHistBlkLow_.length = d.splitHistDir_.length
  upLen : d.splitHistBlkUp_.length = d.splitHistDir_.length
  indLen : d.splitHistIndex_.length = d.splitHistDir_.length
  upper : ∀ s, s < d.splitHistDir_.length → d.splitHistBlkUp_.getD s 0 = ((num + s : Nat) : Int)
  lower : ∀ s, s < d.splitHistDir_.length →
    0 ≤ d.splitHistBlkLow_.getD s 0 ∧ d.splitHistBlkLow_.getD s 0 < ((num + s : Nat) : Int)
  parRange : ∀ b, b < d.rank_.length →
    0 ≤ d.parBlock_.getD b 0 ∧ d.parBlock_.getD b 0 < (num : Int)
  parOrig : ∀ b, b < num → d.parBlock_.getD b 0 = (b : Int)
  parSplit : ∀ s, s < d.splitHistDir_.length →
    d.parBlock_.getD (d.splitHistBlkUp_.getD s 0).toNat 0 =
      d.parBlock_.getD (d.splitHistBlkLow_.getD s 0).toNat 0

/-! # Theorems -/

/-! ## Double precision -/

/-- Values of `roundDouble`: the doubles nearest to `1/10`, `1/3` and `8/5`, the two ties
`2 ^ 53 + 1` and `2 ^ 53 + 3`, which go to the even neighbour, and numbers that are doubles
already. -/
theorem roundDouble_values :
    roundDouble (1 / 10) = 3602879701896397 / 2 ^ 55 ∧
      roundDouble (-(1 / 10)) = -(3602879701896397 / 2 ^ 55) ∧
      roundDouble (1 / 3) = 6004799503160661 / 2 ^ 54 ∧
      roundDouble (8 / 5) = 3602879701896397 / 2 ^ 51 ∧
      roundDouble (2 ^ 53 + 1) = 2 ^ 53 ∧
      roundDouble (2 ^ 53 + 3) = 2 ^ 53 + 4 ∧
      roundDouble 0 = 0 ∧
      roundDouble 504 = 504 ∧
      roundDouble (2 ^ 53 - 1) = 2 ^ 53 - 1 ∧
      roundDouble (3 / 8) = 3 / 8 :=
  ⟨by decide!, by decide!, by decide!, by decide!, by decide!, by decide!, by decide!,
    by decide!, by decide!, by decide!⟩

/-! ## Local-slot density -/

theorem moveDown_length (rank : List Int) (f o : Int) :
    ∀ (k : Nat) (ps : List Int), (moveDown rank f o k ps).length = ps.length
  | _, [] => rfl
  | k, p :: ps => by simp [moveDown, moveDown_length rank f o (k + 1) ps]

theorem moveDown_getD (rank : List Int) (f o : Int) :
    ∀ (k : Nat) (ps : List Int) (i : Nat), i < ps.length →
      (moveDown rank f o k ps).getD i 0 =
        if rank.getD (k + i) 0 = f ∧ ps.getD i 0 > o then ps.getD i 0 - 1 else ps.getD i 0
  | _, [], i, h => by simp at h
  | k, p :: ps, 0, _ => by simp [moveDown]
  | k, p :: ps, i + 1, h => by
    have ih := moveDown_getD rank f o (k + 1) ps i (by simpa using h)
    have e : k + 1 + i = k + (i + 1) := by omega
    rw [e] at ih
    simpa [moveDown] using ih

theorem getD_set_int (l : List Int) (blk : Nat) (v : Int) (hb : blk < l.length) (i : Nat) :
    (l.set blk v).getD i 0 = if i = blk then v else l.getD i 0 := by
  simp only [List.getD_eq_getElem?_getD, List.getElem?_set]
  by_cases h : blk = i
  · subst h; simp [hb]
  · have h2 : ¬ i = blk := fun e => h e.symm
    simp [h, h2]

theorem count_set_int (l : List Int) (blk : Nat) (v b : Int) (hb : blk < l.length) :
    (l.set blk v).count b =
      l.count b - (if l.getD blk 0 = b then 1 else 0) + (if v = b then 1 else 0) := by
  rw [List.count_set v b l blk hb]
  simp [List.getD_eq_getElem?_getD, List.getElem?_eq_getElem hb]

theorem count_getD_pos (l : List Int) (i : Nat) (hi : i < l.length) :
    0 < l.count (l.getD i 0) := by
  rw [List.count_pos_iff, List.getD_eq_getElem l 0 hi]
  exact List.getElem_mem hi


theorem slot_bound_self (cnt : Int → Nat) (t rb lb : Int)
    (hb : 0 ≤ lb ∧ lb < (cnt rb : Int)) :
    0 ≤ (if t = rb ∧ (cnt t : Int) > lb then (cnt t : Int) - 1 else (cnt t : Int)) ∧
      (if t = rb ∧ (cnt t : Int) > lb then (cnt t : Int) - 1 else (cnt t : Int)) <
        ((cnt t - (if rb = t then 1 else 0) + 1 : Nat) : Int) := by
  by_cases e : t = rb
  · subst e
    generalize cnt t = c at *
    split_ifs <;> omega
  · have e2 : ¬ rb = t := fun h => e h.symm
    generalize cnt t = c at *
    simp only [e, e2, false_and, if_false]
    omega

theorem slot_bound_other (cnt : Int → Nat) (t ri rb li lb : Int)
    (hi : 0 ≤ li ∧ li < (cnt ri : Int)) (hb : 0 ≤ lb ∧ lb < (cnt rb : Int))
    (hne : ri = rb → li ≠ lb) :
    0 ≤ (if ri = rb ∧ li > lb then li - 1 else li) ∧
      (if ri = rb ∧ li > lb then li - 1 else li) <
        ((cnt ri - (if rb = ri then 1 else 0) + (if t = ri then 1 else 0) : Nat) : Int) := by
  by_cases e : ri = rb
  · subst e
    have := hne rfl
    generalize cnt ri = c at *
    split_ifs <;> omega
  · have e2 : ¬ rb = ri := fun h => e h.symm
    generalize cnt ri = c at *
    simp only [e, e2, false_and, if_false]
    split_ifs <;> omega

theorem slot_inj_self_other (cnt : Int → Nat) (t rj rb lj lb : Int)
    (hj : 0 ≤ lj ∧ lj < (cnt rj : Int)) (hb : 0 ≤ lb ∧ lb < (cnt rb : Int))
    (hne : rj = rb → lj ≠ lb) (e1 : t = rj)
    (e2 : (if t = rb ∧ (cnt t : Int) > lb then (cnt t : Int) - 1 else (cnt t : Int)) =
      (if rj = rb ∧ lj > lb then lj - 1 else lj)) : False := by
  subst e1
  by_cases e : t = rb
  · subst e
    have := hne rfl
    generalize cnt t = c at *
    split_ifs at e2 <;> omega
  · generalize cnt t = c at *
    simp only [e, false_and, if_false] at e2
    omega

theorem slot_inj_other_other (ri rj rb li lj lb : Int)
    (hnei : ri = rb → li ≠ lb) (hnej : rj = rb → lj ≠ lb) (e1 : ri = rj)
    (e2 : (if ri = rb ∧ li > lb then li - 1 else li) =
      (if rj = rb ∧ lj > lb then lj - 1 else lj)) : li = lj := by
  subst e1
  by_cases e : ri = rb
  · have := hnei e
    simp only [e, true_and] at e2
    split_ifs at e2 <;> omega
  · simpa only [e, false_and, if_false] using e2

theorem SlotsDense.construct (num : Nat) (nProcs : Int) :
    SlotsDense (decomposition.construct num nProcs) := by
  have hr : ∀ i, i < num → (List.replicate num (0 : Int)).getD i 0 = 0 := by
    intro i hi
    simp [List.getD_eq_getElem?_getD, List.getElem?_replicate, hi]
  have hl : ∀ i, i < num → ((List.range num).map Int.ofNat).getD i 0 = (i : Int) := by
    intro i hi
    simp [List.getD_eq_getElem?_getD, List.getElem?_range hi]
  refine ⟨by simp [decomposition.construct], ?_, ?_⟩
  · intro i hi
    simp only [decomposition.construct, List.length_replicate] at hi ⊢
    rw [hr i hi, hl i hi]
    simp only [List.count_replicate_self]
    omega
  · intro i j hi hj _ h
    simp only [decomposition.construct, List.length_replicate] at hi hj h
    rw [hl i hi, hl j hj] at h
    exact_mod_cast h

theorem SlotsDense.sendToProc {d : decomposition} (h : SlotsDense d) (blk : Nat) (t : Int)
    (hb : blk < d.Size) : SlotsDense (d.SendToProc blk (d.Rank blk) t) := by
  obtain ⟨hlen, hbound, hinj⟩ := h
  have hbR : blk < d.rank_.length := hb
  have hbL : blk < d.localPos_.length := by rw [hlen]; exact hb
  have hR := getD_set_int d.rank_ blk t hbR
  have hL := getD_set_int d.localPos_ blk (d.rank_.count t : Int) hbL
  have hC := fun b => count_set_int d.rank_ blk t b hbR
  have hM : ∀ i, i < d.rank_.length →
      (moveDown (d.rank_.set blk t) (d.rank_.getD blk 0) (d.localPos_.getD blk 0) 0
        (d.localPos_.set blk (d.rank_.count t : Int))).getD i 0 =
      if (if i = blk then t else d.rank_.getD i 0) = d.rank_.getD blk 0 ∧
          (if i = blk then (d.rank_.count t : Int) else d.localPos_.getD i 0) >
            d.localPos_.getD blk 0
      then (if i = blk then (d.rank_.count t : Int) else d.localPos_.getD i 0) - 1
      else (if i = blk then (d.rank_.count t : Int) else d.localPos_.getD i 0) := by
    intro i hi
    rw [moveDown_getD _ _ _ 0 _ i (by simpa [hlen] using hi), Nat.zero_add, hR, hL]
  have hbb := hbound blk hbR
  have hne : ∀ i, i < d.rank_.length → i ≠ blk → d.rank_.getD i 0 = d.rank_.getD blk 0 →
      d.localPos_.getD i 0 ≠ d.localPos_.getD blk 0 :=
    fun i hi hib e1 e2 => hib (hinj i blk hi hbR e1 e2)
  refine ⟨?_, ?_, ?_⟩
  · simp [decomposition.SendToProc, moveDown_length, hlen]
  · intro i hi
    simp only [decomposition.SendToProc, decomposition.Rank, decomposition.NumBlocksOnProc,
      List.length_set] at hi ⊢
    rw [hM i hi, hR i, hC]
    by_cases hib : i = blk
    · simp only [if_pos hib, if_true]
      exact slot_bound_self (fun b => d.rank_.count b) t _ _ hbb
    · simp only [if_neg hib]
      exact slot_bound_other (fun b => d.rank_.count b) t _ _ _ _ (hbound i hi) hbb
        (hne i hi hib)
  · intro i j hi hj
    simp only [decomposition.SendToProc, decomposition.Rank, decomposition.NumBlocksOnProc,
      List.length_set] at hi hj ⊢
    rw [hM i hi, hM j hj, hR i, hR j]
    by_cases h1 : i = blk <;> by_cases h2 : j = blk
    · intro _ _; rw [h1, h2]
    · simp only [if_pos h1, if_neg h2]
      intro e1 e2
      exact (slot_inj_self_other (fun b => d.rank_.count b) t _ _ _ _ (hbound j hj) hbb
        (hne j hj h2) e1 e2).elim
    · simp only [if_neg h1, if_pos h2]
      intro e1 e2
      exact (slot_inj_self_other (fun b => d.rank_.count b) t _ _ _ _ (hbound i hi) hbb
        (hne i hi h1) e1.symm e2.symm).elim
    · simp only [if_neg h1, if_neg h2]
      intro e1 e2
      exact hinj i j hi hj e1
        (slot_inj_other_other _ _ _ _ _ _ (hne i hi h1) (hne j hj h2) e1 e2)

theorem getD_append_singleton (l : List Int) (v : Int) (i : Nat) :
    (l ++ [v]).getD i 0 = if i = l.length then v else l.getD i 0 := by
  rcases Nat.lt_trichotomy i l.length with h | h | h
  · rw [List.getD_append _ _ _ _ h, if_neg (by omega)]
  · subst h
    rw [List.getD_append_right _ _ _ _ (le_refl _)]
    simp
  · rw [List.getD_eq_default _ _ (by simp; omega), if_neg (by omega),
      List.getD_eq_default _ _ (by omega)]

theorem count_append_singleton (l : List Int) (v b : Int) :
    (l ++ [v]).count b = l.count b + (if v = b then 1 else 0) := by
  rw [List.count_append, List.count_singleton]
  simp

theorem SlotsDense.split {d : decomposition} (h : SlotsDense d) (low : Nat) (ind : Int)
    (dir : String) (hl : low < d.Size) : SlotsDense (d.Split low ind dir) := by
  obtain ⟨hlen, hbound, hinj⟩ := h
  have hlR : low < d.rank_.length := hl
  have hR := getD_append_singleton d.rank_ (d.rank_.getD low 0)
  have hC := count_append_singleton d.rank_ (d.rank_.getD low 0)
  have hnew : ((d.rank_ ++ [d.rank_.getD low 0]).count
      ((d.rank_ ++ [d.rank_.getD low 0]).getD low 0) : Int) - 1 =
      (d.rank_.count (d.rank_.getD low 0) : Int) := by
    rw [hR low, if_neg (by omega), hC, if_pos rfl]
    push_cast
    ring
  have hL := getD_append_singleton d.localPos_ (d.rank_.count (d.rank_.getD low 0) : Int)
  rw [hlen] at hL
  refine ⟨?_, ?_, ?_⟩
  · simp [decomposition.Split, hlen]
  · intro i hi
    simp only [decomposition.Split, List.length_append, List.length_singleton] at hi ⊢
    rw [hnew, hR i, hL i, hC]
    by_cases hin : i = d.rank_.length
    · simp only [if_pos hin, if_true]
      push_cast
      omega
    · have hb := hbound i (by omega)
      simp only [if_neg hin]
      push_cast
      split_ifs <;> omega
  · intro i j hi hj
    simp only [decomposition.Split, List.length_append, List.length_singleton] at hi hj ⊢
    rw [hnew, hR i, hR j, hL i, hL j]
    by_cases h1 : i = d.rank_.length <;> by_cases h2 : j = d.rank_.length
    · intro _ _; rw [h1, h2]
    · simp only [if_pos h1, if_neg h2]
      intro e1 e2
      have hb := hbound j (by omega)
      rw [← e1] at hb
      omega
    · simp only [if_neg h1, if_pos h2]
      intro e1 e2
      have hb := hbound i (by omega)
      rw [e1] at hb
      omega
    · simp only [if_neg h1, if_neg h2]
      exact hinj i j (by omega) (by omega)

theorem SlotsDense.of_reachable {num : Nat} {nProcs : Int} {d : decomposition}
    (h : Reachable num nProcs d) : SlotsDense d := by
  induction h with
  | init => exact SlotsDense.construct num nProcs
  | send blk fromProc toProc _ hb hr ih =>
    subst hr
    exact ih.sendToProc blk toProc hb
  | split low ind dir _ hl ih => exact ih.split low ind dir hl

theorem count_eq_length_filter_range (a : Int) :
    ∀ l : List Int,
      l.count a = ((List.range l.length).filter (fun i => decide (l.getD i 0 = a))).length
  | [] => rfl
  | x :: xs => by
    rw [List.length_cons, List.range_succ_eq_map, List.filter_cons, List.filter_map,
      List.count_cons, count_eq_length_filter_range a xs]
    have e : ((fun i => decide ((x :: xs).getD i 0 = a)) ∘ Nat.succ) =
        (fun i => decide (xs.getD i 0 = a)) := by
      funext i
      simp
    rw [e]
    by_cases hx : x = a
    · simp [hx]
    · simp [hx]

theorem SlotsDense.slots_perm {d : decomposition} (h : SlotsDense d) (r : Int) :
    List.Perm (d.slotsOn r) ((List.range (d.NumBlocksOnProc r)).map Int.ofNat) := by
  obtain ⟨_, hbound, hinj⟩ := h
  have hlenS : (d.slotsOn r).length = d.NumBlocksOnProc r := by
    simp only [decomposition.slotsOn, decomposition.NumBlocksOnProc, List.length_map,
      decomposition.Size, decomposition.Rank]
    exact (count_eq_length_filter_range r d.rank_).symm
  have hnd : (d.slotsOn r).Nodup := by
    refine List.Nodup.map_on ?_ ((List.nodup_range _).filter _)
    intro x hx y hy hxy
    simp only [List.mem_filter, List.mem_range, decide_eq_true_eq, decomposition.Size,
      decomposition.Rank] at hx hy
    exact hinj x y hx.1 hy.1 (hx.2.trans hy.2.symm) hxy
  have hsub : d.slotsOn r ⊆ (List.range (d.NumBlocksOnProc r)).map Int.ofNat := by
    intro x hx
    simp only [decomposition.slotsOn, List.mem_map, List.mem_filter, List.mem_range,
      decide_eq_true_eq, decomposition.Size, decomposition.Rank,
      decomposition.LocalPosition] at hx
    obtain ⟨b, ⟨hb, hr⟩, rfl⟩ := hx
    have hbb := hbound b hb
    rw [hr] at hbb
    refine List.mem_map.2 ⟨(d.localPos_.getD b 0).toNat, List.mem_range.2 ?_, ?_⟩
    · simp only [decomposition.NumBlocksOnProc]
      omega
    · simp only [Int.ofNat_eq_coe]
      omega
  exact (List.subperm_of_subset hnd hsub).perm_of_length_le (by simp [hlenS])

/-- C1. Local-slot density is an invariant: in every decomposition reachable from
`decomposition(num, nProcs)` by `SendToProc` calls (with `fromProc` the current rank of a
valid block, `toProc` arbitrary) and `Split` calls on a valid block, the local positions of
the blocks of any rank `r` are a permutation of `0, ..., NumBlocksOnProc(r) - 1`: no gap and
no duplicate. -/
theorem local_slot_density (num : Nat) (nProcs : Int) (d : decomposition)
    (h : Reachable num nProcs d) (r : Int) :
    List.Perm (d.slotsOn r) ((List.range (d.NumBlocksOnProc r)).map Int.ofNat) ∧
      (d.slotsOn r).Nodup := by
  have hp := (SlotsDense.of_reachable h).slots_perm r
  refine ⟨hp, hp.nodup_iff.2 ?_⟩
  exact (List.nodup_range _).map (fun a b hab => by simpa using hab)

/-- Witness for C1: three blocks on two processes, block 1 sent to rank 1, block 0 sent to
its own rank, then block 0 split; the slots of rank 0. -/
theorem local_slot_density_witness :
    Reachable 3 2 slotExample ∧
      (List.Perm (slotExample.slotsOn 0)
          ((List.range (slotExample.NumBlocksOnProc 0)).map Int.ofNat) ∧
        (slotExample.slotsOn 0).Nodup) :=
  have hr : Reachable 3 2 slotExample :=
    Reachable.split 0 4 "k"
      (Reachable.send 0 0 0
        (Reachable.send 1 0 1 Reachable.init (by decide) (by decide)) (by decide) (by decide))
      (by decide)
  ⟨hr, local_slot_density 3 2 slotExample hr 0⟩

/-- C2 (evaluation at the failing input). Three local blocks with global ids 1, 5, 3 in
local slots 0, 1, 2: the local positions are `0, 1, 2`, the global ids are pairwise
distinct, and `GetProcBlocks` sends the blocks with global ids `1, 5, 3` in that order,
which is not ascending. -/
theorem GetProcBlocks_not_ascending :
    ([⟨1, 0⟩, ⟨5, 1⟩, ⟨3, 2⟩] : List procBlock).map procBlock.LocalPosition = [0, 1, 2] ∧
      (([⟨1, 0⟩, ⟨5, 1⟩, ⟨3, 2⟩] : List procBlock).map procBlock.GlobalPos).Nodup ∧
      (GetProcBlocks [⟨1, 0⟩, ⟨5, 1⟩, ⟨3, 2⟩]).map procBlock.GlobalPos = [1, 5, 3] ∧
      ¬ ((GetProcBlocks [⟨1, 0⟩, ⟨5, 1⟩, ⟨3, 2⟩]).map procBlock.GlobalPos).Pairwise
        (fun a b => a < b) := by
  decide

/-! ## Load bounds -/

theorem addLoad_length (load : List Int) (r c : Int) :
    (addLoad load r c).length = load.length := by
  unfold addLoad
  split_ifs <;> simp

theorem accumLoads_length (rank : List Int) :
    ∀ (gs : List plot3dBlock) (k : Nat) (load : List Int),
      (accumLoads rank k gs load).length = load.length
  | [], _, _ => rfl
  | g :: gs, k, load => by
    rw [accumLoads, accumLoads_length rank gs (k + 1), addLoad_length]

theorem sum_set_int : ∀ (l : List Int) (i : Nat) (v : Int), i < l.length →
    (l.set i v).sum = l.sum - l.getD i 0 + v
  | [], _, _, h => by simp at h
  | x :: xs, 0, v, _ => by simp [add_comm]
  | x :: xs, i + 1, v, h => by
    have ih := sum_set_int xs i v (by simpa using h)
    simp only [List.set_cons_succ, List.sum_cons, List.getD_cons_succ, ih]
    ring

theorem addLoad_sum (load : List Int) (r c : Int) (h0 : 0 ≤ r) (h1 : r < load.length) :
    (addLoad load r c).sum = load.sum + c := by
  unfold addLoad
  rw [if_pos h0, sum_set_int _ _ _ (by omega)]
  ring

theorem accumLoads_sum (rank : List Int) :
    ∀ (gs : List plot3dBlock) (k : Nat) (load : List Int),
      (∀ i, i < gs.length → 0 ≤ rank.getD (k + i) 0 ∧ rank.getD (k + i) 0 < load.length) →
      (accumLoads rank k gs load).sum = load.sum + totalCells gs
  | [], _, _, _ => by simp [accumLoads, totalCells]
  | g :: gs, k, load, h => by
    have h0 := h 0 (by simp)
    rw [Nat.add_zero] at h0
    rw [accumLoads, accumLoads_sum rank gs (k + 1), addLoad_sum _ _ _ h0.1 h0.2]
    · simp only [totalCells, List.map_cons, List.sum_cons]
      ring
    · intro i hi
      have := h (i + 1) (by simpa using hi)
      rw [addLoad_length]
      have e : k + 1 + i = k + (i + 1) := by omega
      rw [e]
      exact this

theorem maxElementFrom_spec (L : List Int) :
    ∀ (xs : List Int) (i best : Nat) (bv : Int), L.drop i = xs → best < i → i ≤ L.length →
      L.getD best 0 = bv → (∀ j, j < i → L.getD j 0 ≤ bv) → (∀ j, j < best → L.getD j 0 < bv) →
      maxElementFrom best bv i xs < L.length ∧
        (∀ j, j < L.length → L.getD j 0 ≤ L.getD (maxElementFrom best bv i xs) 0) ∧
        (∀ j, j < maxElementFrom best bv i xs →
          L.getD j 0 < L.getD (maxElementFrom best bv i xs) 0)
  | [], i, best, bv, hd, hb, hi, hv, hle, hlt => by
    have : L.length ≤ i := List.drop_eq_nil_iff.1 hd
    have e : i = L.length := by omega
    subst e
    simp only [maxElementFrom]
    rw [hv]
    exact ⟨hb, hle, hlt⟩
  | x :: xs, i, best, bv, hd, hb, hi, hv, hle, hlt => by
    have hil : i < L.length := by
      by_contra hc
      rw [List.drop_eq_nil_iff.2 (by omega)] at hd
      exact List.noConfusion hd
    rw [List.drop_eq_getElem_cons hil] at hd
    injection hd with hx hxs
    have hxi : L.getD i 0 = x := by rw [List.getD_eq_getElem L 0 hil, hx]
    simp only [maxElementFrom]
    split_ifs with hlt2
    · refine maxElementFrom_spec L xs (i + 1) i x hxs (by omega) (by omega) hxi ?_ ?_
      · intro j hj
        rcases Nat.lt_succ_iff_lt_or_eq.1 hj with h | h
        · exact le_of_lt (lt_of_le_of_lt (hle j h) hlt2)
        · rw [h, hxi]
      · intro j hj
        exact lt_of_le_of_lt (hle j hj) hlt2
    · refine maxElementFrom_spec L xs (i + 1) best bv hxs (by omega) (by omega) hv ?_ hlt
      intro j hj
      rcases Nat.lt_succ_iff_lt_or_eq.1 hj with h | h
      · exact hle j h
      · rw [h, hxi]
        exact not_lt.1 hlt2

theorem max_element_spec (L : List Int) (hL : L ≠ []) :
    max_element L < L.length ∧
      (∀ j, j < L.length → L.getD j 0 ≤ L.getD (max_element L) 0) ∧
      (∀ j, j < max_element L → L.getD j 0 < L.getD (max_element L) 0) := by
  cases L with
  | nil => exact absurd rfl hL
  | cons x xs =>
    refine maxElementFrom_spec (x :: xs) xs 1 0 x rfl (by omega) (by simp) rfl ?_ ?_
    · intro j hj
      have : j = 0 := by omega
      subst this
      simp
    · intro j hj
      omega

theorem minElementFrom_spec (L : List Int) :
    ∀ (xs : List Int) (i best : Nat) (bv : Int), L.drop i = xs → best < i → i ≤ L.length →
      L.getD best 0 = bv → (∀ j, j < i → bv ≤ L.getD j 0) → (∀ j, j < best → bv < L.getD j 0) →
      minElementFrom best bv i xs < L.length ∧
        (∀ j, j < L.length → L.getD (minElementFrom best bv i xs) 0 ≤ L.getD j 0) ∧
        (∀ j, j < minElementFrom best bv i xs →
          L.getD (minElementFrom best bv i xs) 0 < L.getD j 0)
  | [], i, best, bv, hd, hb, hi, hv, hle, hlt => by
    have : L.length ≤ i := List.drop_eq_nil_iff.1 hd
    have e : i = L.length := by omega
    subst e
    simp only [minElementFrom]
    rw [hv]
    exact ⟨hb, hle, hlt⟩
  | x :: xs, i, best, bv, hd, hb, hi, hv, hle, hlt => by
    have hil : i < L.length := by
      by_contra hc
      rw [List.drop_eq_nil_iff.2 (by omega)] at hd
      exact List.noConfusion hd
    rw [List.drop_eq_getElem_cons hil] at hd
    injection hd with hx hxs
    have hxi : L.getD i 0 = x := by rw [List.getD_eq_getElem L 0 hil, hx]
    simp only [minElementFrom]
    split_ifs with hlt2
    · refine minElementFrom_spec L xs (i + 1) i x hxs (by omega) (by omega) hxi ?_ ?_
      · intro j hj
        rcases Nat.lt_succ_iff_lt_or_eq.1 hj with h | h
        · exact le_of_lt (lt_of_lt_of_le hlt2 (hle j h))
        · rw [h, hxi]
      · intro j hj
        exact lt_of_lt_of_le hlt2 (hle j hj)
    · refine minElementFrom_spec L xs (i + 1) best bv hxs (by omega) (by omega) hv ?_ hlt
      intro j hj
      rcases Nat.lt_succ_iff_lt_or_eq.1 hj with h | h
      · exact hle j h
      · rw [h, hxi]
        exact not_lt.1 hlt2

theorem min_element_spec (L : List Int) (hL : L ≠ []) :
    min_element L < L.length ∧
      (∀ j, j < L.length → L.getD (min_element L) 0 ≤ L.getD j 0) ∧
      (∀ j, j < min_element L → L.getD (min_element L) 0 < L.getD j 0) := by
  cases L with
  | nil => exact absurd rfl hL
  | cons x xs =>
    refine minElementFrom_spec (x :: xs) xs 1 0 x rfl (by omega) (by simp) rfl ?_ ?_
    · intro j hj
      have : j = 0 := by omega
      subst this
      simp
    · intro j hj
      omega

theorem length_mul_le_sum : ∀ (L : List Int) (m : Int),
    (∀ j, j < L.length → m ≤ L.getD j 0) → (L.length : Int) * m ≤ L.sum
  | [], _, _ => by simp
  | x :: xs, m, h => by
    have h0 := h 0 (by simp)
    have ih := length_mul_le_sum xs m (fun j hj => by
      have := h (j + 1) (by simpa using hj)
      simpa using this)
    simp only [List.getD_cons_zero] at h0
    simp only [List.length_cons, List.sum_cons]
    push_cast
    linarith

theorem sum_le_length_mul : ∀ (L : List Int) (m : Int),
    (∀ j, j < L.length → L.getD j 0 ≤ m) → L.sum ≤ (L.length : Int) * m
  | [], _, _ => by simp
  | x :: xs, m, h => by
    have h0 := h 0 (by simp)
    have ih := sum_le_length_mul xs m (fun j hj => by
      have := h (j + 1) (by simpa using hj)
      simpa using this)
    simp only [List.getD_cons_zero] at h0
    simp only [List.length_cons, List.sum_cons]
    push_cast
    linarith

theorem loadVector_length (d : decomposition) (grid : List plot3dBlock) :
    (d.loadVector grid).length = d.numProcs_.toNat := by
  simp [decomposition.loadVector, accumLoads_length]

theorem loadVector_sum (d : decomposition) (grid : List plot3dBlock)
    (hr : ∀ i, i < d.Size → 0 ≤ d.Rank i ∧ d.Rank i < d.NumProcs)
    (hs : grid.length = d.Size) : (d.loadVector grid).sum = totalCells grid := by
  unfold decomposition.loadVector
  rw [accumLoads_sum]
  · simp
  · intro i hi
    rw [Nat.zero_add, List.length_replicate]
    have := hr i (by omega)
    simp only [decomposition.Rank, decomposition.NumProcs] at this
    omega

/-- C3. Load bounds in exact arithmetic: for a decomposition with at least one process
whose block ranks all lie in `[0, numProcs)` and a grid with one block per decomposition
entry, `IdealLoad` is the sum of the blocks' cell counts divided by the number of
processes, and `MinLoad ≤ IdealLoad ≤ MaxLoad`. -/
theorem load_bounds (d : decomposition) (grid : List plot3dBlock) (hp : 1 ≤ d.NumProcs)
    (hr : ∀ i, i < d.Size → 0 ≤ d.Rank i ∧ d.Rank i < d.NumProcs)
    (hs : grid.length = d.Size) :
    d.IdealLoad grid = (grid.map (fun b => (b.NumCells : ℚ))).sum / (d.NumProcs : ℚ) ∧
      d.MinLoad grid ≤ d.IdealLoad grid ∧ d.IdealLoad grid ≤ d.MaxLoad grid := by
  have hlen := loadVector_length d grid
  have hsum := loadVector_sum d grid hr hs
  have hp0 : 1 ≤ d.numProcs_ := hp
  have hne : d.loadVector grid ≠ [] := by
    intro h
    rw [h] at hlen
    simp only [List.length_nil] at hlen
    omega
  have hmin := (min_element_spec _ hne).2.1
  have hmax := (max_element_spec _ hne).2.1
  have h1 := length_mul_le_sum _ _ hmin
  have h2 := sum_le_length_mul _ _ hmax
  have hcast : ((d.loadVector grid).length : Int) = d.numProcs_ := by
    rw [hlen]
    omega
  rw [hcast, hsum] at h1 h2
  have hq : (0 : ℚ) < (d.numProcs_ : ℚ) := by exact_mod_cast (by omega : 0 < d.numProcs_)
  refine ⟨?_, ?_, ?_⟩
  · simp only [decomposition.IdealLoad, decomposition.NumProcs, totalCells, Int.cast_list_sum,
      List.map_map]
    rfl
  · simp only [decomposition.MinLoad, decomposition.IdealLoad]
    rw [le_div_iff₀ hq]
    exact_mod_cast (by linarith : (d.loadVector grid).getD (min_element (d.loadVector grid)) 0
      * d.numProcs_ ≤ totalCells grid)
  · simp only [decomposition.MaxLoad, decomposition.IdealLoad]
    rw [div_le_iff₀ hq]
    exact_mod_cast (by linarith : totalCells grid ≤
      (d.loadVector grid).getD (max_element (d.loadVector grid)) 0 * d.numProcs_)

/-- Witness for C3: two blocks of 100 and 50 cells, one on each of two processes. -/
theorem load_bounds_witness :
    (1 : Int) ≤ (decomposition.construct 2 2).NumProcs ∧
      (((decomposition.construct 2 2).SendToProc 1 0 1).IdealLoad [⟨11, 11, 2⟩, ⟨6, 11, 2⟩] =
          ([⟨11, 11, 2⟩, ⟨6, 11, 2⟩].map (fun b => (plot3dBlock.NumCells b : ℚ))).sum /
            (((decomposition.construct 2 2).SendToProc 1 0 1).NumProcs : ℚ) ∧
        ((decomposition.construct 2 2).SendToProc 1 0 1).MinLoad [⟨11, 11, 2⟩, ⟨6, 11, 2⟩] ≤
          ((decomposition.construct 2 2).SendToProc 1 0 1).IdealLoad
            [⟨11, 11, 2⟩, ⟨6, 11, 2⟩] ∧
        ((decomposition.construct 2 2).SendToProc 1 0 1).IdealLoad [⟨11, 11, 2⟩, ⟨6, 11, 2⟩] ≤
          ((decomposition.construct 2 2).SendToProc 1 0 1).MaxLoad
            [⟨11, 11, 2⟩, ⟨6, 11, 2⟩]) :=
  ⟨by decide,
    load_bounds ((decomposition.construct 2 2).SendToProc 1 0 1) [⟨11, 11, 2⟩, ⟨6, 11, 2⟩]
      (by decide) (by decide) (by decide)⟩

/-! ## Manual strategy -/

theorem SendToProc_frame (d : decomposition) (blk : Nat) (f t : Int) :
    (d.SendToProc blk f t).parBlock_ = d.parBlock_ ∧
      (d.SendToProc blk f t).splitHistDir_ = d.splitHistDir_ ∧
      (d.SendToProc blk f t).rank_.length = d.rank_.length ∧
      (d.SendToProc blk f t).localPos_.length = d.localPos_.length := by
  simp [decomposition.SendToProc, moveDown_length]

theorem manualSends_succ (n : Nat) (nProcs : Int) (m : Nat) :
    manualSends n nProcs (m + 1) =
      (manualSends n nProcs m).SendToProc (1 + m) ROOTP ((1 + m : Nat) : Int) := by
  simp only [manualSends, List.range'_1_concat, List.foldl_append, List.foldl_cons,
    List.foldl_nil]

theorem manualSends_spec (n : Nat) (nProcs : Int) :
    ∀ m, m + 1 ≤ n →
      (manualSends n nProcs m).rank_.length = n ∧
      (manualSends n nProcs m).localPos_.length = n ∧
      (manualSends n nProcs m).parBlock_ = (List.range n).map Int.ofNat ∧
      (manualSends n nProcs m).splitHistDir_ = [] ∧
      (∀ i, i < n →
        (manualSends n nProcs m).rank_.getD i 0 = if i ≤ m then (i : Int) else 0) ∧
      (∀ i, i < n →
        (manualSends n nProcs m).localPos_.getD i 0 = if i ≤ m then 0 else (i : Int) - m)
  | 0, _ => by
    have hc := SlotsDense.construct n nProcs
    refine ⟨by simp [manualSends, decomposition.construct],
      by simp [manualSends, decomposition.construct], rfl, rfl, ?_, ?_⟩
    · intro i hi
      simp only [manualSends, List.range'_zero, List.foldl_nil, decomposition.construct]
      rw [List.getD_eq_getElem _ _ (by simpa using hi)]
      simp only [List.getElem_replicate]
      split_ifs <;> omega
    · intro i hi
      simp only [manualSends, List.range'_zero, List.foldl_nil, decomposition.construct]
      rw [List.getD_eq_getElem _ _ (by simpa using hi)]
      simp only [List.getElem_map, List.getElem_range, Int.ofNat_eq_coe]
      split_ifs <;> omega
  | m + 1, hm => by
    obtain ⟨hlr, hll, hpar, hsp, hrk, hlp⟩ := manualSends_spec n nProcs m (by omega)
    have hfr := SendToProc_frame (manualSends n nProcs m) (1 + m) ROOTP ((1 + m : Nat) : Int)
    rw [manualSends_succ]
    refine ⟨by rw [hfr.2.2.1, hlr], by rw [hfr.2.2.2, hll], by rw [hfr.1, hpar],
      by rw [hfr.2.1, hsp], ?_, ?_⟩
    · intro i hi
      simp only [decomposition.SendToProc]
      rw [getD_set_int _ _ _ (by omega), hrk i hi]
      split_ifs <;> omega
    · intro i hi
      have hcnt : (manualSends n nProcs m).rank_.count ((1 + m : Nat) : Int) = 0 := by
        rw [List.count_eq_zero]
        intro hmem
        obtain ⟨k, hk, hkv⟩ := List.getElem_of_mem hmem
        have := hrk k (by omega)
        rw [List.getD_eq_getElem _ _ hk, hkv] at this
        split_ifs at this <;> omega
      simp only [decomposition.SendToProc, decomposition.NumBlocksOnProc]
      rw [moveDown_getD _ _ _ 0 _ i (by simp; omega), Nat.zero_add,
        getD_set_int _ _ _ (by omega), getD_set_int _ _ _ (by omega), hcnt, hrk i hi, hlp i hi,
        hlp (1 + m) (by omega)]
      simp only [ROOTP]
      split_ifs <;> omega

/-- C4. Manual strategy result: for a grid of `n ≥ 1` blocks and `numProc = n`,
`ManualDecomposition` returns a decomposition with no split recorded in which every block
`i` is on rank `i`, in local slot 0, and is its own parent. -/
theorem manual_result (grid : List plot3dBlock) (hn : 1 ≤ grid.length) :
    ∃ d, ManualDecomposition grid (grid.length : Int) = some d ∧ d.NumSplits = 0 ∧
      d.Size = grid.length ∧
      ∀ i, i < grid.length →
        d.Rank i = (i : Int) ∧ d.LocalPosition i = 0 ∧ d.ParentBlock i = (i : Int) := by
  obtain ⟨hlr, _, hpar, hsp, hrk, hlp⟩ :=
    manualSends_spec grid.length (grid.length : Int) (grid.length - 1) (by omega)
  refine ⟨manualSends grid.length (grid.length : Int) (grid.length - 1), ?_, ?_, hlr, ?_⟩
  · simp [ManualDecomposition]
  · simp [decomposition.NumSplits, hsp]
  · intro i hi
    refine ⟨?_, ?_, ?_⟩
    · rw [decomposition.Rank, hrk i hi, if_pos (by omega)]
    · rw [decomposition.LocalPosition, hlp i hi, if_pos (by omega)]
    · rw [decomposition.ParentBlock, hpar, List.getD_eq_getElem _ _ (by simpa using hi)]
      simp

/-- Witness for C4: two blocks of 100 and 50 cells on two processes. -/
theorem manual_result_witness :
    1 ≤ ([⟨11, 11, 2⟩, ⟨6, 11, 2⟩] : List plot3dBlock).length ∧
      ∃ d, ManualDecomposition [⟨11, 11, 2⟩, ⟨6, 11, 2⟩]
          (([⟨11, 11, 2⟩, ⟨6, 11, 2⟩] : List plot3dBlock).length : Int) = some d ∧
        d.NumSplits = 0 ∧ d.Size = ([⟨11, 11, 2⟩, ⟨6, 11, 2⟩] : List plot3dBlock).length ∧
        ∀ i, i < ([⟨11, 11, 2⟩, ⟨6, 11, 2⟩] : List plot3dBlock).length →
          d.Rank i = (i : Int) ∧ d.LocalPosition i = 0 ∧ d.ParentBlock i = (i : Int) :=
  ⟨by decide, manual_result [⟨11, 11, 2⟩, ⟨6, 11, 2⟩] (by decide)⟩

/-- C5. `ManualDecomposition` ends in the fatal exit, producing no decomposition, exactly
when the number of grid blocks differs from `numProc`; it returns a decomposition exactly
when they are equal.  The test is the first statement of the function, so no decomposition
exists yet when it fails. -/
theorem manual_fatal_iff (grid : List plot3dBlock) (numProc : Int) :
    (ManualDecomposition grid numProc = none ↔ (grid.length : Int) ≠ numProc) ∧
      ((ManualDecomposition grid numProc).isSome = true ↔ (grid.length : Int) = numProc) := by
  unfold ManualDecomposition
  split_ifs with h
  · simp [h]
  · simp [not_not.1 h]

/-! ## Cubic strategy -/

/-- C6 (counterexample). One block of 10x10x10 cells on 4 processes: it is not the case that
`CubicDecomposition` ends with exactly 4 blocks, every load within 10% of 250 and exactly 3
history entries. -/
theorem cubic_scenario_not_four_blocks :
    ¬ ((CubicDecomposition [⟨11, 11, 11⟩] 4).decomp.Size = 4 ∧
        (∀ r ∈ [(0 : Int), 1, 2, 3],
          withinTenPercent (CubicDecomposition [⟨11, 11, 11⟩] 4).decomp
            (CubicDecomposition [⟨11, 11, 11⟩] 4).grid 250 r) ∧
        (CubicDecomposition [⟨11, 11, 11⟩] 4).decomp.NumSplits = 3) := by
  decide!

/-- C6 (amended). One block of 10x10x10 cells on 4 processes: `CubicDecomposition` ends
after 5 iterations with 6 blocks, a split history of 5 entries, the loop guard false, and
the loads 252, 244, 240, 264 on ranks 0 to 3, each within 10% of 250 cells. -/
theorem cubic_scenario_six_blocks :
    (CubicDecomposition [⟨11, 11, 11⟩] 4).count = 5 ∧
      (CubicDecomposition [⟨11, 11, 11⟩] 4).decomp.Size = 6 ∧
      (CubicDecomposition [⟨11, 11, 11⟩] 4).grid.length = 6 ∧
      (CubicDecomposition [⟨11, 11, 11⟩] 4).decomp.NumSplits = 5 ∧
      (CubicDecomposition [⟨11, 11, 11⟩] 4).decomp.loadVector
        (CubicDecomposition [⟨11, 11, 11⟩] 4).grid = [252, 244, 240, 264] ∧
      (∀ r ∈ [(0 : Int), 1, 2, 3],
        withinTenPercent (CubicDecomposition [⟨11, 11, 11⟩] 4).decomp
          (CubicDecomposition [⟨11, 11, 11⟩] 4).grid 250 r) ∧
      overThreshold
        ((CubicDecomposition [⟨11, 11, 11⟩] 4).decomp.MaxLoad
          (CubicDecomposition [⟨11, 11, 11⟩] 4).grid)
        ((decomposition.construct 1 4).IdealLoad [⟨11, 11, 11⟩]) = false := by
  decide!

theorem Split_sizes (d : decomposition) (low : Nat) (ind : Int) (dir : String) :
    (d.Split low ind dir).NumSplits = d.NumSplits + 1 ∧
      (d.Split low ind dir).Size = d.Size + 1 := by
  simp [decomposition.Split, decomposition.NumSplits, decomposition.Size]

theorem SendToProc_sizes (d : decomposition) (blk : Nat) (f t : Int) :
    (d.SendToProc blk f t).NumSplits = d.NumSplits ∧
      (d.SendToProc blk f t).Size = d.Size := by
  simp [decomposition.SendToProc, decomposition.NumSplits, decomposition.Size]

theorem cubicStep_count (s : cubicState) : (cubicStep s).count = s.count + 1 := by
  simp only [cubicStep]
  split_ifs <;> rfl

theorem cubicStep_sizes (s : cubicState) :
    (cubicStep s).decomp.NumSplits ≤ s.decomp.NumSplits + 1 ∧
      s.decomp.NumSplits ≤ (cubicStep s).decomp.NumSplits ∧
      (cubicStep s).decomp.Size + s.decomp.NumSplits =
        s.decomp.Size + (cubicStep s).decomp.NumSplits := by
  simp only [cubicStep]
  split_ifs
  · rw [(SendToProc_sizes _ _ _ _).1, (SendToProc_sizes _ _ _ _).2]
    refine ⟨?_, ?_, ?_⟩ <;> omega
  · rw [(SendToProc_sizes _ _ _ _).1, (SendToProc_sizes _ _ _ _).2,
      (Split_sizes _ _ _ _).1, (Split_sizes _ _ _ _).2]
    refine ⟨?_, ?_, ?_⟩ <;> omega

theorem cubicIter_count (s : cubicState) :
    ∀ k : Nat, (cubicStep^[k] s).count = s.count + k
  | 0 => by simp
  | k + 1 => by
    rw [Function.iterate_succ_apply', cubicStep_count, cubicIter_count s k]
    push_cast
    ring

theorem cubicIter_sizes (s : cubicState) :
    ∀ k : Nat, (cubicStep^[k] s).decomp.NumSplits ≤ s.decomp.NumSplits + k ∧
      (cubicStep^[k] s).decomp.Size + s.decomp.NumSplits =
        s.decomp.Size + (cubicStep^[k] s).decomp.NumSplits
  | 0 => by simp
  | k + 1 => by
    have ih := cubicIter_sizes s k
    have hs := cubicStep_sizes (cubicStep^[k] s)
    rw [Function.iterate_succ_apply']
    omega

theorem cubicLoop_iterate (ideal : ℚ) :
    ∀ (n : Nat) (s : cubicState), ∃ k, k ≤ n ∧ cubicLoop ideal n s = cubicStep^[k] s ∧
      (∀ j, j < k → overThreshold ((cubicStep^[j] s).decomp.MaxLoad (cubicStep^[j] s).grid)
        ideal = true) ∧
      (k = n ∨ overThreshold ((cubicStep^[k] s).decomp.MaxLoad (cubicStep^[k] s).grid)
        ideal = false)
  | 0, s => ⟨0, le_refl _, rfl, fun j hj => absurd hj (Nat.not_lt_zero j), Or.inl rfl⟩
  | n + 1, s => by
    by_cases hg : overThreshold (s.decomp.MaxLoad s.grid) ideal = true
    · obtain ⟨k, hk, he, hall, hend⟩ := cubicLoop_iterate ideal n (cubicStep s)
      refine ⟨k + 1, by omega, ?_, ?_, ?_⟩
      · rw [cubicLoop, if_pos hg, he, Function.iterate_succ_apply]
      · intro j hj
        cases j with
        | zero => exact hg
        | succ j =>
          rw [Function.iterate_succ_apply]
          exact hall j (by omega)
      · rw [Function.iterate_succ_apply]
        rcases hend with h | h
        · exact Or.inl (by omega)
        · exact Or.inr h
    · refine ⟨0, by omega, ?_, fun j hj => absurd hj (Nat.not_lt_zero j), Or.inr ?_⟩
      · rw [cubicLoop, if_neg hg]
        rfl
      · simpa using hg

/-- C7. Bounded iteration: for `numProc ≥ 1`, `CubicDecomposition` returns (the model is a
total function, the loop being cut off by its own counter) after at most `10 * numProc`
iterations; each iteration records at most one split, so `NumSplits() ≤ count ≤
10 * numProc`, and `Size()` is the initial block count plus `NumSplits()`. -/
theorem cubic_bounded (grid : List plot3dBlock) (numProc : Int) (hp : 1 ≤ numProc) :
    0 ≤ (CubicDecomposition grid numProc).count ∧
      (CubicDecomposition grid numProc).count ≤ 10 * numProc ∧
      ((CubicDecomposition grid numProc).decomp.NumSplits : Int) ≤
        (CubicDecomposition grid numProc).count ∧
      ((CubicDecomposition grid numProc).decomp.NumSplits : Int) ≤ 10 * numProc ∧
      (CubicDecomposition grid numProc).decomp.Size =
        grid.length + (CubicDecomposition grid numProc).decomp.NumSplits ∧
      ((CubicDecomposition grid numProc).decomp.Size : Int) ≤ grid.length + 10 * numProc := by
  obtain ⟨k, hk, he, _, _⟩ := cubicLoop_iterate
    ((decomposition.construct grid.length numProc).IdealLoad grid) (numProc * 10).toNat
    (cubicInit grid numProc)
  have hc := cubicIter_count (cubicInit grid numProc) k
  have hs := cubicIter_sizes (cubicInit grid numProc) k
  have h0 : (cubicInit grid numProc).decomp.NumSplits = 0 := rfl
  have h1 : (cubicInit grid numProc).decomp.Size = grid.length := by
    simp [cubicInit, decomposition.construct, decomposition.Size]
  have h2 : (cubicInit grid numProc).count = 0 := rfl
  simp only [CubicDecomposition, he]
  rw [h0, h1] at hs
  rw [h2] at hc
  omega

/-- Witness for C7: one block of 10x10x10 cells on 4 processes. -/
theorem cubic_bounded_witness :
    (1 : Int) ≤ 4 ∧
      (0 ≤ (CubicDecomposition [⟨11, 11, 11⟩] 4).count ∧
      (CubicDecomposition [⟨11, 11, 11⟩] 4).count ≤ 10 * 4 ∧
      ((CubicDecomposition [⟨11, 11, 11⟩] 4).decomp.NumSplits : Int) ≤
        (CubicDecomposition [⟨11, 11, 11⟩] 4).count ∧
      ((CubicDecomposition [⟨11, 11, 11⟩] 4).decomp.NumSplits : Int) ≤ 10 * 4 ∧
      (CubicDecomposition [⟨11, 11, 11⟩] 4).decomp.Size =
        ([⟨11, 11, 11⟩] : List plot3dBlock).length +
          (CubicDecomposition [⟨11, 11, 11⟩] 4).decomp.NumSplits ∧
      ((CubicDecomposition [⟨11, 11, 11⟩] 4).decomp.Size : Int) ≤
        ([⟨11, 11, 11⟩] : List plot3dBlock).length + 10 * 4) :=
  ⟨by decide, cubic_bounded [⟨11, 11, 11⟩] 4 (by decide)⟩

/-- C8. Early stop: for `numProc ≥ 1` the loop of `CubicDecomposition` runs some number `k`
of iterations, the guard `MaxLoad(grid) / idealLoad > 1.1` holding before each of them; on
return either `k = 10 * numProc` or the guard is false (for a non-zero ideal load:
`MaxLoad(grid) / idealLoad ≤ 1.1`); and when the guard is already false for the initial
all-on-rank-0 assignment, the initial decomposition and grid are returned unchanged. -/
theorem cubic_early_stop (grid : List plot3dBlock) (numProc : Int) (hp : 1 ≤ numProc) :
    ∃ k : Nat,
      (CubicDecomposition grid numProc).count = (k : Int) ∧
      (CubicDecomposition grid numProc).decomp = (cubicStep^[k] (cubicInit grid numProc)).decomp ∧
      (CubicDecomposition grid numProc).grid = (cubicStep^[k] (cubicInit grid numProc)).grid ∧
      (∀ j, j < k →
        overThreshold
          ((cubicStep^[j] (cubicInit grid numProc)).decomp.MaxLoad
            (cubicStep^[j] (cubicInit grid numProc)).grid)
          ((decomposition.construct grid.length numProc).IdealLoad grid) = true) ∧
      ((k : Int) = 10 * numProc ∨
        overThreshold
          ((CubicDecomposition grid numProc).decomp.MaxLoad (CubicDecomposition grid numProc).grid)
          ((decomposition.construct grid.length numProc).IdealLoad grid) = false) ∧
      ((decomposition.construct grid.length numProc).IdealLoad grid ≠ 0 →
        (k : Int) = 10 * numProc ∨
          (CubicDecomposition grid numProc).decomp.MaxLoad (CubicDecomposition grid numProc).grid /
            (decomposition.construct grid.length numProc).IdealLoad grid ≤ 11 / 10) ∧
      (overThreshold
          ((decomposition.construct grid.length numProc).MaxLoad grid)
          ((decomposition.construct grid.length numProc).IdealLoad grid) = false →
        k = 0 ∧
          (CubicDecomposition grid numProc).decomp = decomposition.construct grid.length numProc ∧
          (CubicDecomposition grid numProc).grid = grid) := by
  obtain ⟨k, hk, he, hall, hend⟩ := cubicLoop_iterate
    ((decomposition.construct grid.length numProc).IdealLoad grid) (numProc * 10).toNat
    (cubicInit grid numProc)
  have hc := cubicIter_count (cubicInit grid numProc) k
  have h2 : (cubicInit grid numProc).count = 0 := rfl
  rw [h2, zero_add] at hc
  have hend2 : (k : Int) = 10 * numProc ∨
      overThreshold
        ((cubicStep^[k] (cubicInit grid numProc)).decomp.MaxLoad
          (cubicStep^[k] (cubicInit grid numProc)).grid)
        ((decomposition.construct grid.length numProc).IdealLoad grid) = false := by
    rcases hend with h | h
    · exact Or.inl (by omega)
    · exact Or.inr h
  refine ⟨k, ?_, ?_, ?_, hall, ?_, ?_, ?_⟩
  · simp only [CubicDecomposition, he, hc]
  · simp only [CubicDecomposition, he]
  · simp only [CubicDecomposition, he]
  · simpa only [CubicDecomposition, he] using hend2
  · intro hne
    simp only [CubicDecomposition, he]
    rcases hend2 with h | h
    · exact Or.inl h
    · right
      unfold overThreshold at h
      rw [if_neg hne] at h
      exact not_lt.1 (of_decide_eq_false h)
  · intro h0
    have hk0 : k = 0 := by
      by_contra hne
      have := hall 0 (Nat.pos_of_ne_zero hne)
      simp only [Function.iterate_zero, id_eq] at this
      have e : (cubicInit grid numProc).decomp.MaxLoad (cubicInit grid numProc).grid =
          (decomposition.construct grid.length numProc).MaxLoad grid := rfl
      rw [e, h0] at this
      exact Bool.noConfusion this
    subst hk0
    refine ⟨rfl, ?_, ?_⟩
    · simp only [CubicDecomposition, he]
      rfl
    · simp only [CubicDecomposition, he]
      rfl

/-- Witness for C8: one block of 10x10x10 cells on 4 processes. -/
theorem cubic_early_stop_witness :
    (1 : Int) ≤ 4 ∧
    ∃ k : Nat,
      (CubicDecomposition [⟨11, 11, 11⟩] 4).count = (k : Int) ∧
      (CubicDecomposition [⟨11, 11, 11⟩] 4).decomp =
        (cubicStep^[k] (cubicInit [⟨11, 11, 11⟩] 4)).decomp ∧
      (CubicDecomposition [⟨11, 11, 11⟩] 4).grid =
        (cubicStep^[k] (cubicInit [⟨11, 11, 11⟩] 4)).grid ∧
      (∀ j, j < k →
        overThreshold
          ((cubicStep^[j] (cubicInit [⟨11, 11, 11⟩] 4)).decomp.MaxLoad
            (cubicStep^[j] (cubicInit [⟨11, 11, 11⟩] 4)).grid)
          ((decomposition.construct ([⟨11, 11, 11⟩] : List plot3dBlock).length 4).IdealLoad
            [⟨11, 11, 11⟩]) = true) ∧
      ((k : Int) = 10 * 4 ∨
        overThreshold
          ((CubicDecomposition [⟨11, 11, 11⟩] 4).decomp.MaxLoad
            (CubicDecomposition [⟨11, 11, 11⟩] 4).grid)
          ((decomposition.construct ([⟨11, 11, 11⟩] : List plot3dBlock).length 4).IdealLoad
            [⟨11, 11, 11⟩]) = false) ∧
      ((decomposition.construct ([⟨11, 11, 11⟩] : List plot3dBlock).length 4).IdealLoad
          [⟨11, 11, 11⟩] ≠ 0 →
        (k : Int) = 10 * 4 ∨
          (CubicDecomposition [⟨11, 11, 11⟩] 4).decomp.MaxLoad
              (CubicDecomposition [⟨11, 11, 11⟩] 4).grid /
            (decomposition.construct ([⟨11, 11, 11⟩] : List plot3dBlock).length 4).IdealLoad
              [⟨11, 11, 11⟩] ≤ 11 / 10) ∧
      (overThreshold
          ((decomposition.construct ([⟨11, 11, 11⟩] : List plot3dBlock).length 4).MaxLoad
            [⟨11, 11, 11⟩])
          ((decomposition.construct ([⟨11, 11, 11⟩] : List plot3dBlock).length 4).IdealLoad
            [⟨11, 11, 11⟩]) = false →
        k = 0 ∧
          (CubicDecomposition [⟨11, 11, 11⟩] 4).decomp =
            decomposition.construct ([⟨11, 11, 11⟩] : List plot3dBlock).length 4 ∧
          (CubicDecomposition [⟨11, 11, 11⟩] 4).grid = [⟨11, 11, 11⟩]) :=
  ⟨by decide, cubic_early_stop [⟨11, 11, 11⟩] 4 (by decide)⟩

/-- C9 (evaluation at the failing input). One block of 2x2x2 cells on 2 processes: the loop
stops because the bound is hit (`count = 20 = 10 * numProc`) while the guard
`MaxLoad / idealLoad > 1.1` is still true, a decomposition is returned, and the warning is
not printed.  In general the warning is printed exactly when the final `count` equals
`10 * numProc - 1`. -/
theorem cubic_warning_not_emitted :
    (CubicDecomposition [⟨3, 3, 3⟩] 2).count = 10 * 2 ∧
      overThreshold
        ((CubicDecomposition [⟨3, 3, 3⟩] 2).decomp.MaxLoad (CubicDecomposition [⟨3, 3, 3⟩] 2).grid)
        ((decomposition.construct 1 2).IdealLoad [⟨3, 3, 3⟩]) = true ∧
      (CubicDecomposition [⟨3, 3, 3⟩] 2).decomp.rank_ = [0] ∧
      (CubicDecomposition [⟨3, 3, 3⟩] 2).warned = false ∧
      ∀ (grid : List plot3dBlock) (numProc : Int),
        ((CubicDecomposition grid numProc).warned = true ↔
          (CubicDecomposition grid numProc).count = numProc * 10 - 1) := by
  refine ⟨by decide!, by decide!, by decide!, by decide!, ?_⟩
  intro grid numProc
  simp [CubicDecomposition]

/-- C10 (counterexample). First iteration for one block of 10x10x10 cells on 4 processes:
the split branch is taken (`ind = 2`) for block 0 on the overloaded rank `S = 0`, with
`U = 1` and `newBlk = 1`; afterwards the new upper block is still on `S` and the lower
block is on `U`, so it is not the case that `Rank(newBlk) = U` and `Rank(blk) = S`. -/
theorem cubic_split_upper_not_moved :
    (cubicInit [⟨11, 11, 11⟩] 4).choice.ind = 2 ∧
      (cubicInit [⟨11, 11, 11⟩] 4).choice.blk = 0 ∧
      (cubicInit [⟨11, 11, 11⟩] 4).ol = 0 ∧
      (cubicInit [⟨11, 11, 11⟩] 4).ul = 1 ∧
      (cubicInit [⟨11, 11, 11⟩] 4).decomp.Rank 0 = 0 ∧
      (cubicInit [⟨11, 11, 11⟩] 4).grid.length = 1 ∧
      ¬ ((cubicStep (cubicInit [⟨11, 11, 11⟩] 4)).decomp.Rank 1 = 1 ∧
        (cubicStep (cubicInit [⟨11, 11, 11⟩] 4)).decomp.Rank 0 = 0) := by
  decide!

/-- C10 (amended). In every iteration of `CubicDecomposition` that takes the split branch
(`SendWholeOrSplit` returned `ind ≥ 0` for a valid block `blk` on the overloaded rank `S`,
with `newBlk` the previous block count), after the iteration the lower block `blk`, which
keeps the first `ind` cells, is the one on `U`, and the newly created upper block `newBlk`
is on `S`; the grid holds the lower part at `blk` and the upper part at `newBlk`. -/
theorem cubic_split_moves_lower (s : cubicState) (hsz : s.grid.length = s.decomp.Size)
    (hind : 0 ≤ s.choice.ind) (hblk : s.choice.blk < s.decomp.Size)
    (hrank : s.decomp.Rank s.choice.blk = s.ol) :
    (cubicStep s).decomp.Rank s.choice.blk = s.ul ∧
      (cubicStep s).decomp.Rank s.grid.length = s.ol ∧
      (cubicStep s).decomp.Size = s.grid.length + 1 ∧
      (cubicStep s).decomp.NumSplits = s.decomp.NumSplits + 1 ∧
      (cubicStep s).grid.getD s.choice.blk default =
        ((s.grid.getD s.choice.blk default).Split s.choice.dir s.choice.ind).1 ∧
      (cubicStep s).grid.getD s.grid.length default =
        ((s.grid.getD s.choice.blk default).Split s.choice.dir s.choice.ind).2 := by
  have hlt : ¬ s.choice.ind < 0 := not_lt.2 hind
  have hb : s.choice.blk < s.decomp.rank_.length := hblk
  have hb2 : s.choice.blk < (s.decomp.rank_ ++ [s.decomp.rank_.getD s.choice.blk 0]).length := by
    simp only [List.length_append, List.length_singleton]
    omega
  have hg : s.grid.length = s.decomp.rank_.length := hsz
  have hr : s.decomp.rank_.getD s.choice.blk 0 = s.ol := hrank
  simp only [cubicStep, if_neg hlt]
  refine ⟨?_, ?_, ?_, ?_, ?_, ?_⟩
  · simp only [decomposition.Rank, decomposition.SendToProc, decomposition.Split]
    rw [getD_set_int _ _ _ hb2, if_pos rfl]
  · simp only [decomposition.Rank, decomposition.SendToProc, decomposition.Split]
    rw [getD_set_int _ _ _ hb2, if_neg (by omega), getD_append_singleton, if_pos hg, hr]
  · rw [(SendToProc_sizes _ _ _ _).2, (Split_sizes _ _ _ _).2, hsz]
  · rw [(SendToProc_sizes _ _ _ _).1, (Split_sizes _ _ _ _).1]
  · rw [List.getD_eq_getElem?_getD, List.getElem?_set_self (by simp; omega)]
    rfl
  · rw [List.getD_eq_getElem?_getD, List.getElem?_set_ne (by omega),
      List.getElem?_append_right (le_refl _)]
    simp

/-- Witness for C10 (amended): the first iteration for one block of 10x10x10 cells on 4
processes; block 0 (the lower part, 2 cells thick) goes to rank 1 and the new block 1
stays on rank 0. -/
theorem cubic_split_moves_lower_witness :
    ((cubicInit [⟨11, 11, 11⟩] 4).grid.length = (cubicInit [⟨11, 11, 11⟩] 4).decomp.Size ∧
      0 ≤ (cubicInit [⟨11, 11, 11⟩] 4).choice.ind ∧
      (cubicInit [⟨11, 11, 11⟩] 4).choice.blk < (cubicInit [⟨11, 11, 11⟩] 4).decomp.Size ∧
      (cubicInit [⟨11, 11, 11⟩] 4).decomp.Rank (cubicInit [⟨11, 11, 11⟩] 4).choice.blk =
        (cubicInit [⟨11, 11, 11⟩] 4).ol) ∧
    ((cubicStep (cubicInit [⟨11, 11, 11⟩] 4)).decomp.Rank
          (cubicInit [⟨11, 11, 11⟩] 4).choice.blk = (cubicInit [⟨11, 11, 11⟩] 4).ul ∧
      (cubicStep (cubicInit [⟨11, 11, 11⟩] 4)).decomp.Rank
          (cubicInit [⟨11, 11, 11⟩] 4).grid.length = (cubicInit [⟨11, 11, 11⟩] 4).ol ∧
      (cubicStep (cubicInit [⟨11, 11, 11⟩] 4)).decomp.Size =
        (cubicInit [⟨11, 11, 11⟩] 4).grid.length + 1 ∧
      (cubicStep (cubicInit [⟨11, 11, 11⟩] 4)).decomp.NumSplits =
        (cubicInit [⟨11, 11, 11⟩] 4).decomp.NumSplits + 1 ∧
      (cubicStep (cubicInit [⟨11, 11, 11⟩] 4)).grid.getD
          (cubicInit [⟨11, 11, 11⟩] 4).choice.blk default =
        (((cubicInit [⟨11, 11, 11⟩] 4).grid.getD (cubicInit [⟨11, 11, 11⟩] 4).choice.blk
          default).Split (cubicInit [⟨11, 11, 11⟩] 4).choice.dir
          (cubicInit [⟨11, 11, 11⟩] 4).choice.ind).1 ∧
      (cubicStep (cubicInit [⟨11, 11, 11⟩] 4)).grid.getD
          (cubicInit [⟨11, 11, 11⟩] 4).grid.length default =
        (((cubicInit [⟨11, 11, 11⟩] 4).grid.getD (cubicInit [⟨11, 11, 11⟩] 4).choice.blk
          default).Split (cubicInit [⟨11, 11, 11⟩] 4).choice.dir
          (cubicInit [⟨11, 11, 11⟩] 4).choice.ind).2) :=
  ⟨by decide!,
    cubic_split_moves_lower (cubicInit [⟨11, 11, 11⟩] 4) (by decide) (by decide!) (by decide!)
      (by decide!)⟩

/-! ## Whole block or split -/

theorem wholeBlockScan_spec (rank : List Int) (send : Int) (sl rl ideal sr rr : ℚ) :
    ∀ (gs : List plot3dBlock) (k : Nat),
      (∀ m, wholeBlockScan rank send sl rl ideal sr rr k gs = some m →
        ∃ j, m = k + j ∧ j < gs.length ∧
          (rank.getD (k + j) 0 = send ∧
            moveImproves sl rl ideal sr rr ((gs.getD j default).NumCells : ℚ)) ∧
          ∀ j', j' < j → ¬ (rank.getD (k + j') 0 = send ∧
            moveImproves sl rl ideal sr rr ((gs.getD j' default).NumCells : ℚ))) ∧
      (wholeBlockScan rank send sl rl ideal sr rr k gs = none →
        ∀ j, j < gs.length → ¬ (rank.getD (k + j) 0 = send ∧
          moveImproves sl rl ideal sr rr ((gs.getD j default).NumCells : ℚ)))
  | [], k => by
    refine ⟨fun m h => ?_, fun _ j hj => ?_⟩
    · simp [wholeBlockScan] at h
    · simp at hj
  | g :: gs, k => by
    have ih := wholeBlockScan_spec rank send sl rl ideal sr rr gs (k + 1)
    by_cases hc : rank.getD k 0 = send ∧
        (ratioDouble (roundDouble (sl - (g.NumCells : ℚ))) ideal) < sr ∧ (ratioDouble (roundDouble (rl + (g.NumCells : ℚ))) ideal) < rr
    · refine ⟨fun m h => ?_, fun h => ?_⟩
      · rw [wholeBlockScan, if_pos hc] at h
        injection h with h
        refine ⟨0, by omega, by simp, ?_, fun j' hj' => absurd hj' (Nat.not_lt_zero j')⟩
        simpa [moveImproves] using hc
      · rw [wholeBlockScan, if_pos hc] at h
        exact Option.noConfusion h
    · have hc0 : ¬ (rank.getD (k + 0) 0 = send ∧
          moveImproves sl rl ideal sr rr (((g :: gs).getD 0 default).NumCells : ℚ)) := by
        simpa [moveImproves] using hc
      refine ⟨fun m h => ?_, fun h j hj => ?_⟩
      · rw [wholeBlockScan, if_neg hc] at h
        obtain ⟨j, hm, hj, hq, hmin⟩ := ih.1 m h
        refine ⟨j + 1, by omega, by simpa using hj, ?_, ?_⟩
        · have e : k + (j + 1) = k + 1 + j := by omega
          rw [e]
          simpa using hq
        · intro j' hj'
          cases j' with
          | zero => exact hc0
          | succ j' =>
            have e : k + (j' + 1) = k + 1 + j' := by omega
            rw [e]
            simpa using hmin j' (by omega)
      · rw [wholeBlockScan, if_neg hc] at h
        cases j with
        | zero => exact hc0
        | succ j =>
          have e : k + (j + 1) = k + 1 + j := by omega
          rw [e]
          simpa using ih.2 h j (by simpa using hj)

theorem SendWholeOrSplit_whole (d : decomposition) (grid : List plot3dBlock)
    (send recv : Int) (blk0 ii : Nat)
    (h : wholeBlockScan d.rank_ send (d.ProcLoad grid send) (d.ProcLoad grid recv)
      (d.IdealLoadDouble grid) (d.LoadRatio grid send) (d.LoadRatio grid recv) 0 grid = some ii) :
    d.SendWholeOrSplit grid send recv blk0 = { ind := -1, blk := ii, dir := "none" } := by
  simp only [decomposition.SendWholeOrSplit, h]

theorem SendWholeOrSplit_split (d : decomposition) (grid : List plot3dBlock)
    (send recv : Int) (blk0 : Nat)
    (h : wholeBlockScan d.rank_ send (d.ProcLoad grid send) (d.ProcLoad grid recv)
      (d.IdealLoadDouble grid) (d.LoadRatio grid send) (d.LoadRatio grid recv) 0 grid = none) :
    d.SendWholeOrSplit grid send recv blk0 =
      { ind := splitIndexScan (d.ProcLoad grid send) (d.ProcLoad grid recv) (d.IdealLoadDouble grid)
          ((grid.getD (largestBlockScan d.rank_ send 0 grid blk0 0) default).planeSize
            (grid.getD (largestBlockScan d.rank_ send 0 grid blk0 0) default).longestAxis)
          (splitCandidates
            ((grid.getD (largestBlockScan d.rank_ send 0 grid blk0 0) default).splitLen
              (grid.getD (largestBlockScan d.rank_ send 0 grid blk0 0) default).longestAxis))
          (d.LoadRatio grid send) (d.LoadRatio grid recv) (-1)
        blk := largestBlockScan d.rank_ send 0 grid blk0 0
        dir := (grid.getD (largestBlockScan d.rank_ send 0 grid blk0 0) default).longestAxis } := by
  simp only [decomposition.SendWholeOrSplit, h, plot3dBlock.longestAxis]
  split_ifs <;> simp [plot3dBlock.planeSize, plot3dBlock.splitLen]

theorem wholeBlockScan_none_iff (d : decomposition) (grid : List plot3dBlock)
    (send recv : Int) :
    wholeBlockScan d.rank_ send (d.ProcLoad grid send) (d.ProcLoad grid recv)
        (d.IdealLoadDouble grid) (d.LoadRatio grid send) (d.LoadRatio grid recv) 0 grid = none ↔
      ∀ ii, ¬ d.wholeMoveImproves grid send recv ii := by
  have hs := wholeBlockScan_spec d.rank_ send (d.ProcLoad grid send) (d.ProcLoad grid recv)
    (d.IdealLoadDouble grid) (d.LoadRatio grid send) (d.LoadRatio grid recv) grid 0
  constructor
  · intro h ii hi
    obtain ⟨hlt, hr, hm⟩ := hi
    have := hs.2 h ii hlt
    rw [Nat.zero_add] at this
    exact this ⟨hr, hm⟩
  · intro h
    cases hw : wholeBlockScan d.rank_ send (d.ProcLoad grid send) (d.ProcLoad grid recv)
        (d.IdealLoadDouble grid) (d.LoadRatio grid send) (d.LoadRatio grid recv) 0 grid with
    | none => rfl
    | some m =>
      obtain ⟨j, hm, hj, hq, _⟩ := hs.1 m hw
      rw [Nat.zero_add] at hq
      exact absurd ⟨hj, hq.1, hq.2⟩ (h j)

/-- C11 (counterexample). Blocks of 6, 64, 60 and 20 cells on three processes, blocks 2 and
3 on rank 0 (loads 80, 6, 64, ideal load 50), sender 0 and receiver 1.  With the ratio
`|1 - load / ideal|` taken without rounding, moving block 3 makes both ratios strictly
smaller, and moving block 2 does not: the sender's ratio stays at `3/5`.  `SendWholeOrSplit`
nevertheless sets `blk` to 2: in doubles the sender's current ratio is
`0.6000000000000001` and its ratio after the move is `0.6`. -/
theorem whole_block_preference_exact_tie :
    tieDecomp.wholeMoveImprovesExact tieGridWhole 0 1 3 ∧
      ¬ tieDecomp.wholeMoveImprovesExact tieGridWhole 0 1 2 ∧
      ratioExact (tieDecomp.ProcLoad tieGridWhole 0 - 60) (tieDecomp.IdealLoad tieGridWhole) =
        ratioExact (tieDecomp.ProcLoad tieGridWhole 0) (tieDecomp.IdealLoad tieGridWhole) ∧
      tieDecomp.SendWholeOrSplit tieGridWhole 0 1 0 = { ind := -1, blk := 2, dir := "none" } ∧
      tieDecomp.LoadRatio tieGridWhole 0 = 1351079888211149 / 2 ^ 51 ∧
      tieDecomp.ratioAfter tieGridWhole 0 (-60) = 5404319552844595 / 2 ^ 53 :=
  ⟨by decide!, by decide!, by decide!, by decide!, by decide!, by decide!⟩

/-- C11 (amended). Whole-block preference: if some block of the sending rank is such that
moving all of its cells to the receiving rank makes both load ratios
`fabs(1.0 - load / ideal)`, evaluated in double precision as the source evaluates them,
strictly smaller, then `SendWholeOrSplit` returns `-1`, leaves `dir` at `"none"`, and sets
`blk` to the lowest-indexed such block. -/
theorem whole_block_preference (d : decomposition) (grid : List plot3dBlock)
    (send recv : Int) (blk0 : Nat) (h : ∃ ii, d.wholeMoveImproves grid send recv ii) :
    (d.SendWholeOrSplit grid send recv blk0).ind = -1 ∧
      (d.SendWholeOrSplit grid send recv blk0).dir = "none" ∧
      d.wholeMoveImproves grid send recv (d.SendWholeOrSplit grid send recv blk0).blk ∧
      ∀ j, j < (d.SendWholeOrSplit grid send recv blk0).blk →
        ¬ d.wholeMoveImproves grid send recv j := by
  have hs := wholeBlockScan_spec d.rank_ send (d.ProcLoad grid send) (d.ProcLoad grid recv)
    (d.IdealLoadDouble grid) (d.LoadRatio grid send) (d.LoadRatio grid recv) grid 0
  cases hw : wholeBlockScan d.rank_ send (d.ProcLoad grid send) (d.ProcLoad grid recv)
      (d.IdealLoadDouble grid) (d.LoadRatio grid send) (d.LoadRatio grid recv) 0 grid with
  | none =>
    obtain ⟨ii, hi⟩ := h
    exact absurd hi ((wholeBlockScan_none_iff d grid send recv).1 hw ii)
  | some m =>
    obtain ⟨j, hm, hj, hq, hmin⟩ := hs.1 m hw
    rw [Nat.zero_add] at hm hq
    subst hm
    rw [SendWholeOrSplit_whole d grid send recv blk0 m hw]
    refine ⟨rfl, rfl, ⟨hj, hq.1, hq.2⟩, fun j' hj' hi => ?_⟩
    have := hmin j' hj'
    rw [Nat.zero_add] at this
    exact this ⟨hi.2.1, hi.2.2⟩

/-- Witness for C11 (amended): blocks of 1000 and 100 cells on rank 0 of four processes (ideal load
275); moving block 0 would overload the receiver, moving block 1 improves both ratios. -/
theorem whole_block_preference_witness :
    (∃ ii, (decomposition.construct 2 4).wholeMoveImproves [⟨11, 11, 11⟩, ⟨11, 11, 2⟩] 0 1 ii) ∧
      (((decomposition.construct 2 4).SendWholeOrSplit [⟨11, 11, 11⟩, ⟨11, 11, 2⟩] 0 1 0).ind
          = -1 ∧
        ((decomposition.construct 2 4).SendWholeOrSplit [⟨11, 11, 11⟩, ⟨11, 11, 2⟩] 0 1 0).dir
          = "none" ∧
        (decomposition.construct 2 4).wholeMoveImproves [⟨11, 11, 11⟩, ⟨11, 11, 2⟩] 0 1
          ((decomposition.construct 2 4).SendWholeOrSplit
            [⟨11, 11, 11⟩, ⟨11, 11, 2⟩] 0 1 0).blk ∧
        ∀ j, j < ((decomposition.construct 2 4).SendWholeOrSplit
            [⟨11, 11, 11⟩, ⟨11, 11, 2⟩] 0 1 0).blk →
          ¬ (decomposition.construct 2 4).wholeMoveImproves [⟨11, 11, 11⟩, ⟨11, 11, 2⟩] 0 1 j) :=
  ⟨⟨1, by decide!⟩,
    whole_block_preference (decomposition.construct 2 4) [⟨11, 11, 11⟩, ⟨11, 11, 2⟩] 0 1 0
      ⟨1, by decide!⟩⟩

theorem largestBlockScan_spec (rank : List Int) (send : Int) :
    ∀ (gs : List plot3dBlock) (k blk : Nat) (bSize : Int),
      (largestBlockScan rank send k gs blk bSize = blk ∧
        ∀ j, j < gs.length → rank.getD (k + j) 0 = send →
          (gs.getD j default).NumCells ≤ bSize) ∨
      ∃ j, j < gs.length ∧ largestBlockScan rank send k gs blk bSize = k + j ∧
        rank.getD (k + j) 0 = send ∧ bSize < (gs.getD j default).NumCells ∧
        (∀ j', j' < gs.length → rank.getD (k + j') 0 = send →
          (gs.getD j' default).NumCells ≤ (gs.getD j default).NumCells) ∧
        ∀ j', j' < j → rank.getD (k + j') 0 = send →
          (gs.getD j' default).NumCells < (gs.getD j default).NumCells
  | [], k, blk, bSize => Or.inl ⟨rfl, fun j hj => absurd hj (Nat.not_lt_zero j)⟩
  | g :: gs, k, blk, bSize => by
    have shift : ∀ j, k + (j + 1) = k + 1 + j := fun j => by omega
    by_cases hc : rank.getD k 0 = send ∧ g.NumCells > bSize
    · rw [largestBlockScan, if_pos hc]
      right
      rcases largestBlockScan_spec rank send gs (k + 1) k g.NumCells with ⟨he, hall⟩ | h
      · refine ⟨0, by simp, by rw [he]; rfl, hc.1, by simpa using hc.2, ?_, ?_⟩
        · intro j' hj' hr
          cases j' with
          | zero => simp
          | succ j' =>
            rw [shift] at hr
            simpa using hall j' (by simpa using hj') hr
        · intro j' hj'
          exact absurd hj' (Nat.not_lt_zero j')
      · obtain ⟨j, hj, he, hr, hgt, hmax, hfirst⟩ := h
        refine ⟨j + 1, by simpa using hj, by rw [he]; omega, by rw [shift]; exact hr, ?_, ?_, ?_⟩
        · simp only [List.getD_cons_succ]
          exact lt_trans hc.2 hgt
        · intro j' hj' hr'
          cases j' with
          | zero => simpa using le_of_lt hgt
          | succ j' =>
            rw [shift] at hr'
            simpa using hmax j' (by simpa using hj') hr'
        · intro j' hj' hr'
          cases j' with
          | zero => simpa using hgt
          | succ j' =>
            rw [shift] at hr'
            simpa using hfirst j' (by omega) hr'
    · rw [largestBlockScan, if_neg hc]
      have hhead : rank.getD k 0 = send → g.NumCells ≤ bSize := fun hr =>
        not_lt.1 (fun hlt => hc ⟨hr, hlt⟩)
      rcases largestBlockScan_spec rank send gs (k + 1) blk bSize with ⟨he, hall⟩ | h
      · left
        refine ⟨he, ?_⟩
        intro j' hj' hr
        cases j' with
        | zero => simpa using hhead hr
        | succ j' =>
          rw [shift] at hr
          simpa using hall j' (by simpa using hj') hr
      · obtain ⟨j, hj, he, hr, hgt, hmax, hfirst⟩ := h
        right
        refine ⟨j + 1, by simpa using hj, by rw [he]; omega, by rw [shift]; exact hr,
          by simpa using hgt, ?_, ?_⟩
        · intro j' hj' hr'
          cases j' with
          | zero => simpa using le_of_lt (lt_of_le_of_lt (hhead hr') hgt)
          | succ j' =>
            rw [shift] at hr'
            simpa using hmax j' (by simpa using hj') hr'
        · intro j' hj' hr'
          cases j' with
          | zero => simpa using lt_of_le_of_lt (hhead hr') hgt
          | succ j' =>
            rw [shift] at hr'
            simpa using hfirst j' (by omega) hr'

/-- C12 (counterexample). Blocks of 6, 8, 8 and 8 cells on three processes, blocks 2 and 3
on rank 0 (loads 16, 6, 8, ideal load 10), sender 0 and receiver 1.  With the ratio
`|1 - load / ideal|` taken without rounding no whole-block move makes both ratios strictly
smaller (moving 8 cells leaves the receiver's ratio at `2/5`), and rank 0 holds blocks with
a positive cell count; yet `SendWholeOrSplit` proposes the whole move of block 2 and leaves
`dir` at `"none"`, not at the longest axis `k` of that block: in doubles the receiver's
current ratio is `0.4` and its ratio after the move is `0.3999999999999999`. -/
theorem split_target_selection_exact_tie :
    (∀ ii, ¬ tieDecomp.wholeMoveImprovesExact tieGridEqual 0 1 ii) ∧
      (∃ ii, ii < tieGridEqual.length ∧ tieDecomp.Rank ii = 0 ∧
        0 < (tieGridEqual.getD ii default).NumCells) ∧
      tieDecomp.SendWholeOrSplit tieGridEqual 0 1 0 = { ind := -1, blk := 2, dir := "none" } ∧
      (tieGridEqual.getD 2 default).longestAxis = "k" ∧
      tieDecomp.LoadRatio tieGridEqual 1 = 3602879701896397 / 2 ^ 53 ∧
      tieDecomp.ratioAfter tieGridEqual 1 8 = 900719925474099 / 2 ^ 51 := by
  refine ⟨fun ii h => ?_, ⟨2, by decide⟩, by decide!, by decide, by decide!, by decide!⟩
  have h4 : ii < 4 := h.1
  interval_cases ii
  · exact absurd h (by decide!)
  · exact absurd h (by decide!)
  · exact absurd h (by decide!)
  · exact absurd h (by decide!)

/-- C12 (amended). Split target selection: when no whole-block move improves both ratios,
evaluated in double precision as the source evaluates them, and the
sending rank holds at least one block with a positive cell count, `SendWholeOrSplit` sets
`blk` to a block of the sending rank with the largest cell count among that rank's blocks,
the lowest-indexed one on ties, and sets `dir` to `k` if `NumK ≥ NumJ` and `NumK ≥ NumI`,
else to `j` if `NumJ ≥ NumI`, else to `i`. -/
theorem split_target_selection (d : decomposition) (grid : List plot3dBlock)
    (send recv : Int) (blk0 : Nat) (hno : ∀ ii, ¬ d.wholeMoveImproves grid send recv ii)
    (hpos : ∃ ii, ii < grid.length ∧ d.Rank ii = send ∧ 0 < (grid.getD ii default).NumCells) :
    (d.SendWholeOrSplit grid send recv blk0).blk < grid.length ∧
      d.Rank (d.SendWholeOrSplit grid send recv blk0).blk = send ∧
      (∀ j, j < grid.length → d.Rank j = send →
        (grid.getD j default).NumCells ≤
          (grid.getD (d.SendWholeOrSplit grid send recv blk0).blk default).NumCells) ∧
      (∀ j, j < (d.SendWholeOrSplit grid send recv blk0).blk → d.Rank j = send →
        (grid.getD j default).NumCells <
          (grid.getD (d.SendWholeOrSplit grid send recv blk0).blk default).NumCells) ∧
      (d.SendWholeOrSplit grid send recv blk0).dir =
        (if (grid.getD (d.SendWholeOrSplit grid send recv blk0).blk default).NumK ≥
              (grid.getD (d.SendWholeOrSplit grid send recv blk0).blk default).NumJ ∧
            (grid.getD (d.SendWholeOrSplit grid send recv blk0).blk default).NumK ≥
              (grid.getD (d.SendWholeOrSplit grid send recv blk0).blk default).NumI then "k"
          else if (grid.getD (d.SendWholeOrSplit grid send recv blk0).blk default).NumJ ≥
              (grid.getD (d.SendWholeOrSplit grid send recv blk0).blk default).NumI then "j"
          else "i") := by
  have hw := (wholeBlockScan_none_iff d grid send recv).2 hno
  rw [SendWholeOrSplit_split d grid send recv blk0 hw]
  simp only [plot3dBlock.longestAxis, decomposition.Rank]
  rcases largestBlockScan_spec d.rank_ send grid 0 blk0 0 with ⟨_, hall⟩ | h
  · obtain ⟨ii, hi, hr, hp⟩ := hpos
    have := hall ii hi (by rw [Nat.zero_add]; exact hr)
    omega
  · obtain ⟨j, hj, he, hr, _, hmax, hfirst⟩ := h
    rw [Nat.zero_add] at he hr
    rw [he]
    refine ⟨hj, hr, ?_, ?_, trivial⟩
    · intro j' hj' hr'
      exact hmax j' hj' (by rw [Nat.zero_add]; exact hr')
    · intro j' hj' hr'
      exact hfirst j' hj' (by rw [Nat.zero_add]; exact hr')

/-- Witness for C12 (amended): one block of 10x10x10 cells on rank 0 of four processes; no whole move
improves both ratios, and the block is chosen with direction `k`. -/
theorem split_target_selection_witness :
    ((∀ ii, ¬ (decomposition.construct 1 4).wholeMoveImproves [⟨11, 11, 11⟩] 0 1 ii) ∧
      ∃ ii, ii < ([⟨11, 11, 11⟩] : List plot3dBlock).length ∧
        (decomposition.construct 1 4).Rank ii = 0 ∧
        0 < (([⟨11, 11, 11⟩] : List plot3dBlock).getD ii default).NumCells) ∧
    (((decomposition.construct 1 4).SendWholeOrSplit [⟨11, 11, 11⟩] 0 1 0).blk = 0 ∧
      ((decomposition.construct 1 4).SendWholeOrSplit [⟨11, 11, 11⟩] 0 1 0).dir = "k") :=
  have hno : ∀ ii, ¬ (decomposition.construct 1 4).wholeMoveImproves [⟨11, 11, 11⟩] 0 1 ii :=
    fun ii h => by
      have h0 : ii = 0 := by
        have := h.1
        simpa using this
      subst h0
      exact absurd h (by decide!)
  have hpos : ∃ ii, ii < ([⟨11, 11, 11⟩] : List plot3dBlock).length ∧
      (decomposition.construct 1 4).Rank ii = 0 ∧
      0 < (([⟨11, 11, 11⟩] : List plot3dBlock).getD ii default).NumCells :=
    ⟨0, by decide⟩
  have h := split_target_selection (decomposition.construct 1 4) [⟨11, 11, 11⟩] 0 1 0 hno hpos
  ⟨⟨hno, hpos⟩, by
    have h1 := h.1
    simp only [List.length_singleton] at h1
    omega, by
    rw [h.2.2.2.2]
    decide!⟩

theorem mem_splitCandidates (n j : Int) : j ∈ splitCandidates n ↔ 2 ≤ j ∧ j ≤ n - 3 := by
  simp only [splitCandidates, List.mem_map, List.bind_eq_flatMap, List.mem_flatMap,
    List.mem_range, List.pure_def, List.mem_singleton]
  constructor
  · rintro ⟨k, ⟨a, ha, rfl⟩, rfl⟩
    constructor <;> omega
  · intro h
    refine ⟨j - 2, ⟨(j - 2).toNat, ?_, ?_⟩, ?_⟩ <;> omega

theorem splitIndexScan_spec (sl rl ideal : ℚ) (p : Int) :
    ∀ (cands : List Int) (sr rr : ℚ) (ind : Int),
      (splitIndexScan sl rl ideal p cands sr rr ind = ind ∧
        ∀ j, j ∈ cands → ¬ moveImproves sl rl ideal sr rr ((p * j : Int) : ℚ)) ∨
      (splitIndexScan sl rl ideal p cands sr rr ind ∈ cands ∧
        moveImproves sl rl ideal sr rr
          ((p * splitIndexScan sl rl ideal p cands sr rr ind : Int) : ℚ) ∧
        ∀ j, j ∈ cands → ¬ moveImproves sl rl ideal
          (ratioDouble (roundDouble (sl - ((p * splitIndexScan sl rl ideal p cands sr rr ind : Int) : ℚ))) ideal)
          (ratioDouble (roundDouble (rl + ((p * splitIndexScan sl rl ideal p cands sr rr ind : Int) : ℚ))) ideal)
          ((p * j : Int) : ℚ))
  | [], sr, rr, ind => Or.inl ⟨rfl, fun j hj => absurd hj (List.not_mem_nil j)⟩
  | ii :: rest, sr, rr, ind => by
    by_cases hc : (ratioDouble (roundDouble (sl - ((p * ii : Int) : ℚ))) ideal) < sr ∧
        (ratioDouble (roundDouble (rl + ((p * ii : Int) : ℚ))) ideal) < rr
    · rw [splitIndexScan, if_pos hc]
      right
      rcases splitIndexScan_spec sl rl ideal p rest
          (ratioDouble (roundDouble (sl - ((p * ii : Int) : ℚ))) ideal)
          (ratioDouble (roundDouble (rl + ((p * ii : Int) : ℚ))) ideal) ii with ⟨he, hall⟩ | ⟨hm, himp, hall⟩
      · rw [he]
        refine ⟨List.mem_cons_self _ _, hc, ?_⟩
        intro j hj
        rcases List.mem_cons.1 hj with rfl | hj
        · exact fun h => lt_irrefl _ h.1
        · exact hall j hj
      · refine ⟨List.mem_cons_of_mem _ hm, ⟨lt_trans himp.1 hc.1, lt_trans himp.2 hc.2⟩, ?_⟩
        intro j hj
        rcases List.mem_cons.1 hj with rfl | hj
        · exact fun h => lt_asymm h.1 himp.1
        · exact hall j hj
    · rw [splitIndexScan, if_neg hc]
      rcases splitIndexScan_spec sl rl ideal p rest sr rr ind with ⟨he, hall⟩ | ⟨hm, himp, hall⟩
      · left
        refine ⟨he, ?_⟩
        intro j hj
        rcases List.mem_cons.1 hj with rfl | hj
        · exact hc
        · exact hall j hj
      · right
        refine ⟨List.mem_cons_of_mem _ hm, himp, ?_⟩
        intro j hj
        rcases List.mem_cons.1 hj with rfl | hj
        · exact fun h => hc ⟨lt_trans h.1 himp.1, lt_trans h.2 himp.2⟩
        · exact hall j hj

/-- C13. Minimum split thickness: whenever `SendWholeOrSplit` returns `ind ≥ 0` for block
`blk` along `dir`, with `n` the node count of `blk` along `dir`, `dir` is the longest axis
of `blk` and `2 ≤ ind ≤ n - 3`, so the lower part (`ind` cells) and the upper part
(`n - 1 - ind` cells) are both at least 2 cells thick; a block with fewer than 4 cells
along its longest axis is never split. -/
theorem min_split_thickness (d : decomposition) (grid : List plot3dBlock)
    (send recv : Int) (blk0 : Nat) :
    (0 ≤ (d.SendWholeOrSplit grid send recv blk0).ind →
      (d.SendWholeOrSplit grid send recv blk0).dir =
          (grid.getD (d.SendWholeOrSplit grid send recv blk0).blk default).longestAxis ∧
        2 ≤ (d.SendWholeOrSplit grid send recv blk0).ind ∧
        (d.SendWholeOrSplit grid send recv blk0).ind ≤
          (grid.getD (d.SendWholeOrSplit grid send recv blk0).blk default).splitLen
            (d.SendWholeOrSplit grid send recv blk0).dir - 3 ∧
        2 ≤ (grid.getD (d.SendWholeOrSplit grid send recv blk0).blk default).splitLen
            (d.SendWholeOrSplit grid send recv blk0).dir - 1 -
          (d.SendWholeOrSplit grid send recv blk0).ind) ∧
      ((grid.getD (d.SendWholeOrSplit grid send recv blk0).blk default).splitLen
            (grid.getD (d.SendWholeOrSplit grid send recv blk0).blk default).longestAxis - 1
          < 4 →
        (d.SendWholeOrSplit grid send recv blk0).ind = -1) := by
  cases hw : wholeBlockScan d.rank_ send (d.ProcLoad grid send) (d.ProcLoad grid recv)
      (d.IdealLoadDouble grid) (d.LoadRatio grid send) (d.LoadRatio grid recv) 0 grid with
  | some m =>
    rw [SendWholeOrSplit_whole d grid send recv blk0 m hw]
    refine ⟨fun h => ?_, fun _ => rfl⟩
    simp at h
  | none =>
    rw [SendWholeOrSplit_split d grid send recv blk0 hw]
    simp only
    rcases splitIndexScan_spec (d.ProcLoad grid send) (d.ProcLoad grid recv) (d.IdealLoadDouble grid)
        ((grid.getD (largestBlockScan d.rank_ send 0 grid blk0 0) default).planeSize
          (grid.getD (largestBlockScan d.rank_ send 0 grid blk0 0) default).longestAxis)
        (splitCandidates
          ((grid.getD (largestBlockScan d.rank_ send 0 grid blk0 0) default).splitLen
            (grid.getD (largestBlockScan d.rank_ send 0 grid blk0 0) default).longestAxis))
        (d.LoadRatio grid send) (d.LoadRatio grid recv) (-1) with ⟨he, _⟩ | ⟨hm, _, _⟩
    · rw [he]
      refine ⟨fun h => ?_, fun _ => rfl⟩
      simp at h
    · have hb := (mem_splitCandidates _ _).1 hm
      refine ⟨fun _ => ⟨trivial, hb.1, hb.2, by omega⟩, fun h => ?_⟩
      omega

/-- Witness for C13: one block of 10x10x10 cells on rank 0 of four processes is cut along
`k` at index 2, with 11 nodes along `k`. -/
theorem min_split_thickness_witness :
    0 ≤ ((decomposition.construct 1 4).SendWholeOrSplit [⟨11, 11, 11⟩] 0 1 0).ind ∧
      (((decomposition.construct 1 4).SendWholeOrSplit [⟨11, 11, 11⟩] 0 1 0).dir =
          (([⟨11, 11, 11⟩] : List plot3dBlock).getD
            ((decomposition.construct 1 4).SendWholeOrSplit [⟨11, 11, 11⟩] 0 1 0).blk
            default).longestAxis ∧
        2 ≤ ((decomposition.construct 1 4).SendWholeOrSplit [⟨11, 11, 11⟩] 0 1 0).ind ∧
        ((decomposition.construct 1 4).SendWholeOrSplit [⟨11, 11, 11⟩] 0 1 0).ind ≤
          (([⟨11, 11, 11⟩] : List plot3dBlock).getD
            ((decomposition.construct 1 4).SendWholeOrSplit [⟨11, 11, 11⟩] 0 1 0).blk
            default).splitLen
            ((decomposition.construct 1 4).SendWholeOrSplit [⟨11, 11, 11⟩] 0 1 0).dir - 3 ∧
        2 ≤ (([⟨11, 11, 11⟩] : List plot3dBlock).getD
            ((decomposition.construct 1 4).SendWholeOrSplit [⟨11, 11, 11⟩] 0 1 0).blk
            default).splitLen
            ((decomposition.construct 1 4).SendWholeOrSplit [⟨11, 11, 11⟩] 0 1 0).dir - 1 -
          ((decomposition.construct 1 4).SendWholeOrSplit [⟨11, 11, 11⟩] 0 1 0).ind) :=
  ⟨by decide!,
    (min_split_thickness (decomposition.construct 1 4) [⟨11, 11, 11⟩] 0 1 0).1 (by decide!)⟩

/-- C14 (counterexample). Blocks of 16 (2x2x4), 6 and 8 cells on three processes, block
`ii` on rank `ii` (ideal load 10), sender 0 and receiver 1.  `SendWholeOrSplit` returns
index 2 for block 0 along `k`, a move of 8 cells; with the ratio `|1 - load / ideal|` taken
without rounding that move does not make both ratios strictly smaller, since the receiver's
ratio stays at `2/5`.  In doubles the receiver's current ratio is `0.4` and its ratio after
the move is `0.3999999999999999`. -/
theorem best_split_index_exact_tie :
    tieSplitDecomp.SendWholeOrSplit tieSplitGrid 0 1 0 = { ind := 2, blk := 0, dir := "k" } ∧
      (tieSplitGrid.getD 0 default).planeSize "k" * 2 = 8 ∧
      ¬ tieSplitDecomp.splitImprovesExact tieSplitGrid 0 1 0 "k" 2 ∧
      ratioExact (tieSplitDecomp.ProcLoad tieSplitGrid 1 + 8)
          (tieSplitDecomp.IdealLoad tieSplitGrid) =
        ratioExact (tieSplitDecomp.ProcLoad tieSplitGrid 1)
          (tieSplitDecomp.IdealLoad tieSplitGrid) ∧
      tieSplitDecomp.LoadRatio tieSplitGrid 1 = 3602879701896397 / 2 ^ 53 ∧
      tieSplitDecomp.ratioAfter tieSplitGrid 1 8 = 900719925474099 / 2 ^ 51 :=
  ⟨by decide!, by decide, by decide!, by decide!, by decide!, by decide!⟩

/-- C14 (amended). Best split index: when `SendWholeOrSplit` returns `ind ≥ 0`, sending
`planeSize * ind` cells from the sender to the receiver makes both ratios
`fabs(1.0 - load / ideal)`, evaluated in double precision as the source evaluates them,
strictly smaller than their current values, and `ind` is undominated: no candidate index
`j` with `2 ≤ j ≤ n - 3` makes both ratios strictly smaller than the ratios obtained with
`ind`.  Conversely, if no whole-block move improves both ratios and some candidate index
does, the returned index is `≥ 0`. -/
theorem best_split_index (d : decomposition) (grid : List plot3dBlock) (send recv : Int)
    (blk0 : Nat) (c : sendChoice) (hc : c = d.SendWholeOrSplit grid send recv blk0) :
    (0 ≤ c.ind →
      d.splitImproves grid send recv c.blk c.dir (d.LoadRatio grid send)
          (d.LoadRatio grid recv) c.ind ∧
        ∀ j, 2 ≤ j → j ≤ (grid.getD c.blk default).splitLen c.dir - 3 →
          ¬ d.splitImproves grid send recv c.blk c.dir
            (d.ratioAfter grid send
              (-(((grid.getD c.blk default).planeSize c.dir * c.ind : Int) : ℚ)))
            (d.ratioAfter grid recv
              (((grid.getD c.blk default).planeSize c.dir * c.ind : Int) : ℚ)) j) ∧
      ((∀ ii, ¬ d.wholeMoveImproves grid send recv ii) →
        (∃ j, 2 ≤ j ∧ j ≤ (grid.getD c.blk default).splitLen c.dir - 3 ∧
          d.splitImproves grid send recv c.blk c.dir (d.LoadRatio grid send)
            (d.LoadRatio grid recv) j) →
        0 ≤ c.ind) := by
  subst hc
  cases hw : wholeBlockScan d.rank_ send (d.ProcLoad grid send) (d.ProcLoad grid recv)
      (d.IdealLoadDouble grid) (d.LoadRatio grid send) (d.LoadRatio grid recv) 0 grid with
  | some m =>
    rw [SendWholeOrSplit_whole d grid send recv blk0 m hw]
    refine ⟨fun h => ?_, fun hno _ => ?_⟩
    · simp at h
    · rw [(wholeBlockScan_none_iff d grid send recv).2 hno] at hw
      exact Option.noConfusion hw
  | none =>
    rw [SendWholeOrSplit_split d grid send recv blk0 hw]
    simp only [decomposition.splitImproves, decomposition.ratioAfter, ← sub_eq_add_neg]
    rcases splitIndexScan_spec (d.ProcLoad grid send) (d.ProcLoad grid recv) (d.IdealLoadDouble grid)
        ((grid.getD (largestBlockScan d.rank_ send 0 grid blk0 0) default).planeSize
          (grid.getD (largestBlockScan d.rank_ send 0 grid blk0 0) default).longestAxis)
        (splitCandidates
          ((grid.getD (largestBlockScan d.rank_ send 0 grid blk0 0) default).splitLen
            (grid.getD (largestBlockScan d.rank_ send 0 grid blk0 0) default).longestAxis))
        (d.LoadRatio grid send) (d.LoadRatio grid recv) (-1) with ⟨he, hall⟩ | ⟨hm, himp, hall⟩
    · rw [he]
      refine ⟨fun h => ?_, fun _ hex => ?_⟩
      · simp at h
      · obtain ⟨j, h2, h3, hj⟩ := hex
        exact absurd hj (hall j ((mem_splitCandidates _ _).2 ⟨h2, h3⟩))
    · have hb := (mem_splitCandidates _ _).1 hm
      refine ⟨fun _ => ⟨himp, fun j h2 h3 => hall j ((mem_splitCandidates _ _).2 ⟨h2, h3⟩)⟩,
        fun _ _ => ?_⟩
      omega

/-- Witness for C14 (amended): one block of 10x10x10 cells on rank 0 of four processes; the returned
index 2 improves both ratios and no index from 2 to 8 improves on it. -/
theorem best_split_index_witness :
    cubeChoice = (decomposition.construct 1 4).SendWholeOrSplit [⟨11, 11, 11⟩] 0 1 0 ∧
      0 ≤ cubeChoice.ind ∧
      ((decomposition.construct 1 4).splitImproves [⟨11, 11, 11⟩] 0 1 cubeChoice.blk
          cubeChoice.dir ((decomposition.construct 1 4).LoadRatio [⟨11, 11, 11⟩] 0)
          ((decomposition.construct 1 4).LoadRatio [⟨11, 11, 11⟩] 1) cubeChoice.ind ∧
        ∀ j, 2 ≤ j →
          j ≤ (([⟨11, 11, 11⟩] : List plot3dBlock).getD cubeChoice.blk default).splitLen
            cubeChoice.dir - 3 →
          ¬ (decomposition.construct 1 4).splitImproves [⟨11, 11, 11⟩] 0 1 cubeChoice.blk
            cubeChoice.dir
            ((decomposition.construct 1 4).ratioAfter [⟨11, 11, 11⟩] 0
              (-(((([⟨11, 11, 11⟩] : List plot3dBlock).getD cubeChoice.blk default).planeSize
                cubeChoice.dir * cubeChoice.ind : Int) : ℚ)))
            ((decomposition.construct 1 4).ratioAfter [⟨11, 11, 11⟩] 1
              ((((([⟨11, 11, 11⟩] : List plot3dBlock).getD cubeChoice.blk default).planeSize
                cubeChoice.dir * cubeChoice.ind : Int)) : ℚ)) j) :=
  ⟨rfl, by decide!,
    (best_split_index (decomposition.construct 1 4) [⟨11, 11, 11⟩] 0 1 0 cubeChoice rfl).1
      (by decide!)⟩

theorem smallCube_no_whole_move :
    ∀ ii, ¬ smallCubeInit.decomp.wholeMoveImproves smallCubeInit.grid smallCubeInit.ol
      smallCubeInit.ul ii := by
  intro ii h
  have h0 : ii = 0 := by
    have := h.1
    simpa [smallCubeInit, cubicInit] using this
  subst h0
  exact absurd h (by decide!)

theorem smallCube_no_split_index :
    ∀ j, 2 ≤ j →
      j ≤ (smallCubeInit.grid.getD smallCubeInit.choice.blk default).splitLen
        smallCubeInit.choice.dir - 3 →
      ¬ smallCubeInit.decomp.splitImproves smallCubeInit.grid smallCubeInit.ol
        smallCubeInit.ul smallCubeInit.choice.blk smallCubeInit.choice.dir
        (smallCubeInit.decomp.LoadRatio smallCubeInit.grid smallCubeInit.ol)
        (smallCubeInit.decomp.LoadRatio smallCubeInit.grid smallCubeInit.ul) j := by
  intro j h2 h3
  have e : (smallCubeInit.grid.getD smallCubeInit.choice.blk default).splitLen
      smallCubeInit.choice.dir = 3 := by decide!
  rw [e] at h3
  omega

/-- The run of `CubicDecomposition` for one block of 7x8x9 cells (504 cells) on six
processes: eight iterations, each of them a split.  On entry to the seventh iteration the
loads are 80, 84, 98, 84, 90 and 68 (ideal load 84), the sender is rank 2 and the receiver
rank 5; `SendWholeOrSplit` returns index 2 for block 1 along `k`, a move of 28 cells after
which the sender's ratio is `1/6` without rounding, as it was before the move, and smaller
by one unit in the last place in doubles. -/
theorem cubic_six_processes_run :
    (CubicDecomposition [⟨8, 9, 10⟩] 6).count = 8 ∧
      (CubicDecomposition [⟨8, 9, 10⟩] 6).decomp.NumSplits = 8 ∧
      (cubicStep^[6] (cubicInit [⟨8, 9, 10⟩] 6)).decomp.loadVector
        (cubicStep^[6] (cubicInit [⟨8, 9, 10⟩] 6)).grid = [80, 84, 98, 84, 90, 68] ∧
      (cubicStep^[6] (cubicInit [⟨8, 9, 10⟩] 6)).ol = 2 ∧
      (cubicStep^[6] (cubicInit [⟨8, 9, 10⟩] 6)).ul = 5 ∧
      (cubicStep^[6] (cubicInit [⟨8, 9, 10⟩] 6)).choice = { ind := 2, blk := 1, dir := "k" } ∧
      ratioExact (98 - 28) 84 = ratioExact 98 84 ∧
      ratioDouble (roundDouble (98 - 28)) 84 < ratioDouble 98 84 :=
  ⟨by decide!, by decide!, by decide!, by decide!, by decide!, by decide!, by decide!,
    by decide!⟩

theorem getD_append_singleton_str (l : List String) (v : String) (i : Nat) :
    (l ++ [v]).getD i "" = if i = l.length then v else l.getD i "" := by
  rcases Nat.lt_trichotomy i l.length with h | h | h
  · rw [List.getD_append _ _ _ _ h, if_neg (by omega)]
  · subst h
    rw [List.getD_append_right _ _ _ _ (le_refl _)]
    simp
  · rw [List.getD_eq_default _ _ (by simp; omega), if_neg (by omega),
      List.getD_eq_default _ _ (by omega)]

theorem wellSized_construct (num : Nat) (nProcs : Int) :
    (decomposition.construct num nProcs).WellSized := by
  constructor <;> simp [decomposition.construct]

/-- C16. Split history record: for a decomposition whose vectors have the sizes the class
keeps them at and a valid block `low`, `Split(low, ind, dir)` increases `Size()` and
`NumSplits()` by one, the new last history entry is `(low, Size() before the call, ind,
dir)`, the new block has the rank and the parent of `low`, and every earlier history entry
and every earlier block's rank, parent and local position are unchanged. -/
theorem split_history_record (d : decomposition) (low : Nat) (ind : Int) (dir : String)
    (hw : d.WellSized) (hl : low < d.Size) :
    (d.Split low ind dir).Size = d.Size + 1 ∧
      (d.Split low ind dir).NumSplits = d.NumSplits + 1 ∧
      (d.Split low ind dir).WellSized ∧
      (d.Split low ind dir).SplitHistBlkLower d.NumSplits = (low : Int) ∧
      (d.Split low ind dir).SplitHistBlkUpper d.NumSplits = (d.Size : Int) ∧
      (d.Split low ind dir).SplitHistIndex d.NumSplits = ind ∧
      (d.Split low ind dir).SplitHistDir d.NumSplits = dir ∧
      (d.Split low ind dir).Rank d.Size = d.Rank low ∧
      (d.Split low ind dir).ParentBlock d.Size = d.ParentBlock low ∧
      (d.Split low ind dir).LocalPosition d.Size = (d.NumBlocksOnProc (d.Rank low) : Int) ∧
      (∀ s, s < d.NumSplits →
        (d.Split low ind dir).SplitHistBlkLower s = d.SplitHistBlkLower s ∧
        (d.Split low ind dir).SplitHistBlkUpper s = d.SplitHistBlkUpper s ∧
        (d.Split low ind dir).SplitHistIndex s = d.SplitHistIndex s ∧
        (d.Split low ind dir).SplitHistDir s = d.SplitHistDir s) ∧
      (∀ b, b < d.Size →
        (d.Split low ind dir).Rank b = d.Rank b ∧
        (d.Split low ind dir).ParentBlock b = d.ParentBlock b ∧
        (d.Split low ind dir).LocalPosition b = d.LocalPosition b) := by
  obtain ⟨hpar, hloc, hlo, hup, hix⟩ := hw
  have hnew : ((d.rank_ ++ [d.rank_.getD low 0]).count
      ((d.rank_ ++ [d.rank_.getD low 0]).getD low 0) : Int) - 1 =
      (d.rank_.count (d.rank_.getD low 0) : Int) := by
    have hl2 : low < d.rank_.length := hl
    rw [getD_append_singleton, if_neg (by omega), count_append_singleton, if_pos rfl]
    push_cast
    ring
  simp only [decomposition.Size, decomposition.NumSplits, decomposition.SplitHistBlkLower,
    decomposition.SplitHistBlkUpper, decomposition.SplitHistIndex, decomposition.SplitHistDir,
    decomposition.Rank, decomposition.ParentBlock, decomposition.LocalPosition,
    decomposition.NumBlocksOnProc, decomposition.Split, hnew] at hl ⊢
  simp only [getD_append_singleton, getD_append_singleton_str]
  refine ⟨by simp, by simp, ?_, by rw [hlo, if_pos rfl], by rw [hup, if_pos rfl],
    by rw [hix, if_pos rfl], by rw [if_pos trivial], by rw [if_pos trivial],
    by rw [hpar, if_pos rfl], by rw [hloc, if_pos rfl], ?_, ?_⟩
  · constructor <;> simp [hpar, hloc, hlo, hup, hix]
  · intro s hs
    rw [hlo, hup, hix, if_neg (by omega), if_neg (by omega), if_neg (by omega),
      if_neg (by omega)]
    exact ⟨rfl, rfl, rfl, rfl⟩
  · intro b hb
    rw [hpar, hloc, if_neg (by omega), if_neg (by omega), if_neg (by omega)]
    exact ⟨rfl, rfl, rfl⟩

/-- Witness for C16: three blocks on two processes, block 1 split at index 4 along `k`. -/
theorem split_history_record_witness :
    ((decomposition.construct 3 2).WellSized ∧ 1 < (decomposition.construct 3 2).Size) ∧
      ((decomposition.construct 3 2).Split 1 4 "k").SplitHistBlkUpper
          (decomposition.construct 3 2).NumSplits =
        ((decomposition.construct 3 2).Size : Int) ∧
      ((decomposition.construct 3 2).Split 1 4 "k").Rank (decomposition.construct 3 2).Size =
        (decomposition.construct 3 2).Rank 1 :=
  have h := split_history_record (decomposition.construct 3 2) 1 4 "k"
    (wellSized_construct 3 2) (by decide)
  ⟨⟨wellSized_construct 3 2, by decide⟩, h.2.2.2.2.1, h.2.2.2.2.2.2.2.1⟩

/-! ## Most and least loaded rank -/

theorem addLoad_getD (load : List Int) (r c : Int) (i : Nat) (hi : i < load.length) :
    (addLoad load r c).getD i 0 = load.getD i 0 + (if r = (i : Int) then c else 0) := by
  unfold addLoad
  by_cases h0 : 0 ≤ r
  · rw [if_pos h0]
    by_cases hlt : r.toNat < load.length
    · rw [getD_set_int _ _ _ hlt]
      by_cases hir : i = r.toNat
      · rw [if_pos hir, if_pos (by omega), hir]
      · rw [if_neg hir, if_neg (by omega), add_zero]
    · rw [List.set_eq_of_length_le (by omega), if_neg (by omega), add_zero]
  · rw [if_neg h0, if_neg (by omega), add_zero]

theorem accumLoads_getD (rank : List Int) :
    ∀ (gs : List plot3dBlock) (k : Nat) (load : List Int) (i : Nat), i < load.length →
      (accumLoads rank k gs load).getD i 0 =
        load.getD i 0 + procLoadFrom rank (i : Int) k gs
  | [], _, _, _, _ => by simp [accumLoads, procLoadFrom]
  | g :: gs, k, load, i, hi => by
    rw [accumLoads, accumLoads_getD rank gs (k + 1) _ i (by rw [addLoad_length]; exact hi),
      addLoad_getD _ _ _ _ hi, procLoadFrom]
    ring

theorem loadVector_getD (d : decomposition) (grid : List plot3dBlock) (i : Nat)
    (hi : (i : Int) < d.numProcs_) :
    ((d.loadVector grid).getD i 0 : ℚ) = d.ProcLoad grid (i : Int) := by
  unfold decomposition.loadVector decomposition.ProcLoad
  rw [accumLoads_getD _ _ _ _ _ (by simp; omega)]
  simp [List.getD_eq_getElem?_getD, List.getElem?_replicate, hi]

theorem ideal_between (d : decomposition) (grid : List plot3dBlock) (hp : 1 ≤ d.NumProcs)
    (hr : ∀ i, i < d.Size → 0 ≤ d.Rank i ∧ d.Rank i < d.NumProcs)
    (hs : grid.length = d.Size) :
    d.MinLoad grid ≤ d.IdealLoad grid ∧ d.IdealLoad grid ≤ d.MaxLoad grid := by
  have hlen := loadVector_length d grid
  have hsum := loadVector_sum d grid hr hs
  have hp0 : 1 ≤ d.numProcs_ := hp
  have hne : d.loadVector grid ≠ [] := by
    intro h
    rw [h] at hlen
    simp only [List.length_nil] at hlen
    omega
  have h1 := length_mul_le_sum _ _ (min_element_spec _ hne).2.1
  have h2 := sum_le_length_mul _ _ (max_element_spec _ hne).2.1
  have hcast : ((d.loadVector grid).length : Int) = d.numProcs_ := by
    rw [hlen]
    omega
  rw [hcast, hsum] at h1 h2
  have hq : (0 : ℚ) < (d.numProcs_ : ℚ) := by exact_mod_cast (by omega : 0 < d.numProcs_)
  constructor
  · simp only [decomposition.MinLoad, decomposition.IdealLoad]
    rw [le_div_iff₀ hq]
    exact_mod_cast (by linarith : (d.loadVector grid).getD (min_element (d.loadVector grid)) 0
      * d.numProcs_ ≤ totalCells grid)
  · simp only [decomposition.MaxLoad, decomposition.IdealLoad]
    rw [div_le_iff₀ hq]
    exact_mod_cast (by linarith : totalCells grid ≤
      (d.loadVector grid).getD (max_element (d.loadVector grid)) 0 * d.numProcs_)

/-- C17. Most-loaded and least-loaded rank: for at least one process, ranks in
`[0, numProcs)` and one grid block per decomposition entry, `MostOverloadedProc` returns a
rank in `[0, numProcs)` whose `ProcLoad` equals `MaxLoad`, every lower rank having a
strictly smaller load, and sets `overload = MaxLoad - IdealLoad ≥ 0`; `MostUnderloadedProc`
returns a rank whose `ProcLoad` equals `MinLoad`, every lower rank having a strictly larger
load, and sets `underload = IdealLoad - MinLoad ≥ 0`. -/
theorem most_and_least_loaded (d : decomposition) (grid : List plot3dBlock)
    (hp : 1 ≤ d.NumProcs) (hr : ∀ i, i < d.Size → 0 ≤ d.Rank i ∧ d.Rank i < d.NumProcs)
    (hs : grid.length = d.Size) :
    (0 ≤ (d.MostOverloadedProc grid).1 ∧ (d.MostOverloadedProc grid).1 < d.NumProcs ∧
      d.ProcLoad grid (d.MostOverloadedProc grid).1 = d.MaxLoad grid ∧
      (∀ r : Int, 0 ≤ r → r < (d.MostOverloadedProc grid).1 →
        d.ProcLoad grid r < d.MaxLoad grid) ∧
      (d.MostOverloadedProc grid).2 = d.MaxLoad grid - d.IdealLoad grid ∧
      0 ≤ (d.MostOverloadedProc grid).2) ∧
    (0 ≤ (d.MostUnderloadedProc grid).1 ∧ (d.MostUnderloadedProc grid).1 < d.NumProcs ∧
      d.ProcLoad grid (d.MostUnderloadedProc grid).1 = d.MinLoad grid ∧
      (∀ r : Int, 0 ≤ r → r < (d.MostUnderloadedProc grid).1 →
        d.MinLoad grid < d.ProcLoad grid r) ∧
      (d.MostUnderloadedProc grid).2 = d.IdealLoad grid - d.MinLoad grid ∧
      0 ≤ (d.MostUnderloadedProc grid).2) := by
  have hlen := loadVector_length d grid
  have hp0 : 1 ≤ d.numProcs_ := hp
  have hne : d.loadVector grid ≠ [] := by
    intro h
    rw [h] at hlen
    simp only [List.length_nil] at hlen
    omega
  obtain ⟨hmaxlt, _, hmaxfirst⟩ := max_element_spec _ hne
  obtain ⟨hminlt, _, hminfirst⟩ := min_element_spec _ hne
  obtain ⟨hlo, hhi⟩ := ideal_between d grid hp hr hs
  have hto : ∀ r : Int, 0 ≤ r → ((r.toNat : Nat) : Int) = r := fun r h => Int.toNat_of_nonneg h
  simp only [decomposition.MostOverloadedProc, decomposition.MostUnderloadedProc,
    decomposition.NumProcs]
  refine ⟨⟨by omega, by omega, ?_, ?_, trivial, by linarith⟩,
    ⟨by omega, by omega, ?_, ?_, trivial, by linarith⟩⟩
  · rw [← loadVector_getD d grid _ (by omega)]
    rfl
  · intro r h0 hlt
    have h := hmaxfirst r.toNat (by omega)
    rw [← hto r h0, ← loadVector_getD d grid _ (by omega)]
    simp only [decomposition.MaxLoad]
    exact_mod_cast h
  · rw [← loadVector_getD d grid _ (by omega)]
    rfl
  · intro r h0 hlt
    have h := hminfirst r.toNat (by omega)
    rw [← hto r h0, ← loadVector_getD d grid _ (by omega)]
    simp only [decomposition.MinLoad]
    exact_mod_cast h

/-- Witness for C17: blocks of 100 and 50 cells, one on each of two processes; rank 0 is the
most loaded and rank 1 the least loaded. -/
theorem most_and_least_loaded_witness :
    (1 ≤ ((decomposition.construct 2 2).SendToProc 1 0 1).NumProcs ∧
      ([⟨11, 11, 2⟩, ⟨6, 11, 2⟩] : List plot3dBlock).length =
        ((decomposition.construct 2 2).SendToProc 1 0 1).Size) ∧
      (((decomposition.construct 2 2).SendToProc 1 0 1).MostOverloadedProc
          [⟨11, 11, 2⟩, ⟨6, 11, 2⟩]).1 = 0 ∧
      (((decomposition.construct 2 2).SendToProc 1 0 1).MostUnderloadedProc
          [⟨11, 11, 2⟩, ⟨6, 11, 2⟩]).1 = 1 ∧
      ((decomposition.construct 2 2).SendToProc 1 0 1).ProcLoad [⟨11, 11, 2⟩, ⟨6, 11, 2⟩]
          (((decomposition.construct 2 2).SendToProc 1 0 1).MostOverloadedProc
            [⟨11, 11, 2⟩, ⟨6, 11, 2⟩]).1 =
        ((decomposition.construct 2 2).SendToProc 1 0 1).MaxLoad [⟨11, 11, 2⟩, ⟨6, 11, 2⟩] :=
  ⟨⟨by decide, by decide⟩, by decide, by decide,
    (most_and_least_loaded ((decomposition.construct 2 2).SendToProc 1 0 1)
      [⟨11, 11, 2⟩, ⟨6, 11, 2⟩] (by decide) (by decide) (by decide)).1.2.2.1⟩

/-! ## One process -/

theorem overThreshold_self (t : ℚ) : overThreshold t t = false := by
  unfold overThreshold
  split_ifs with h
  · simp [h]
  · rw [div_self h]
    exact decide_eq_false (by norm_num)

theorem construct_one_guard (grid : List plot3dBlock) :
    overThreshold ((decomposition.construct grid.length 1).MaxLoad grid)
      ((decomposition.construct grid.length 1).IdealLoad grid) = false := by
  have hlen := loadVector_length (decomposition.construct grid.length 1) grid
  have hsum := loadVector_sum (decomposition.construct grid.length 1) grid
    (fun i hi => by
      have hi' : i < grid.length := by
        simpa [decomposition.Size, decomposition.construct] using hi
      simp [decomposition.Rank, decomposition.NumProcs, decomposition.construct,
        List.getD_eq_getElem?_getD, List.getElem?_replicate, hi'])
    (by simp [decomposition.Size, decomposition.construct])
  have h1 : (decomposition.construct grid.length 1).numProcs_.toNat = 1 := rfl
  rw [h1] at hlen
  obtain ⟨a, ha⟩ := List.length_eq_one.1 hlen
  have hmax : (decomposition.construct grid.length 1).MaxLoad grid = (totalCells grid : ℚ) := by
    simp only [decomposition.MaxLoad]
    rw [ha] at hsum ⊢
    simp only [List.sum_cons, List.sum_nil, add_zero] at hsum
    simp [max_element, maxElementFrom, hsum]
  have hideal : (decomposition.construct grid.length 1).IdealLoad grid =
      (totalCells grid : ℚ) := by
    simp [decomposition.IdealLoad, decomposition.construct]
  rw [hmax, hideal]
  exact overThreshold_self _

/-- C18 (counterexample). One block of 10x10x10 cells on one process: `CubicDecomposition`
returns with `count = 0`, not with `count = 10 * numProcs = 10`. -/
theorem cubic_one_process_not_ten :
    (CubicDecomposition [⟨11, 11, 11⟩] 1).count = 0 ∧
      ¬ (CubicDecomposition [⟨11, 11, 11⟩] 1).count = 10 * 1 := by
  decide!

/-- C18 (amended). With `numProcs = 1` the loop guard of `CubicDecomposition` is false on
entry for every grid (the single rank holds all cells, so `MaxLoad` equals the ideal load):
the loop performs no iteration, the iteration bound is not reached, no warning is printed,
and the initial decomposition with all blocks on rank 0 is returned with the grid
unchanged. -/
theorem cubic_one_process (grid : List plot3dBlock) :
    overThreshold ((decomposition.construct grid.length 1).MaxLoad grid)
        ((decomposition.construct grid.length 1).IdealLoad grid) = false ∧
      (CubicDecomposition grid 1).count = 0 ∧
      (CubicDecomposition grid 1).decomp = decomposition.construct grid.length 1 ∧
      (CubicDecomposition grid 1).grid = grid ∧
      (CubicDecomposition grid 1).warned = false := by
  have hg := construct_one_guard grid
  have hloop : cubicLoop ((decomposition.construct grid.length 1).IdealLoad grid)
      ((1 : Int) * 10).toNat (cubicInit grid 1) = cubicInit grid 1 := by
    have e : ((1 : Int) * 10).toNat = 9 + 1 := rfl
    rw [e, cubicLoop]
    have hg' : overThreshold ((cubicInit grid 1).decomp.MaxLoad (cubicInit grid 1).grid)
        ((decomposition.construct grid.length 1).IdealLoad grid) = false := hg
    rw [hg']
    rfl
  refine ⟨hg, ?_, ?_, ?_, ?_⟩
  · simp only [CubicDecomposition, hloop]
    rfl
  · simp only [CubicDecomposition, hloop]
    rfl
  · simp only [CubicDecomposition, hloop]
    rfl
  · simp only [CubicDecomposition, hloop]
    rfl

/-! ## Interblock faces -/

/-- C19. For an interblock whose two boundary ids lie in `1..6` (odd: minimum face, even:
maximum face), `IsLowerLowerOrUpperUpper()` is true exactly when both sides are minimum
faces or both are maximum faces, that is, exactly when the two ids have the same parity. -/
theorem lower_lower_or_upper_upper (ib : interblock)
    (h1 : 1 ≤ ib.BoundaryFirst ∧ ib.BoundaryFirst ≤ 6)
    (h2 : 1 ≤ ib.BoundarySecond ∧ ib.BoundarySecond ≤ 6) :
    (ib.IsLowerLowerOrUpperUpper = true ↔
        (isMinimumFace ib.BoundaryFirst ∧ isMinimumFace ib.BoundarySecond) ∨
          (isMaximumFace ib.BoundaryFirst ∧ isMaximumFace ib.BoundarySecond)) ∧
      (ib.IsLowerLowerOrUpperUpper = true ↔ ib.BoundaryFirst % 2 = ib.BoundarySecond % 2) := by
  obtain ⟨h1a, h1b⟩ := h1
  obtain ⟨h2a, h2b⟩ := h2
  simp only [interblock.BoundaryFirst, interblock.BoundarySecond,
    interblock.IsLowerLowerOrUpperUpper, isMinimumFace, isMaximumFace] at *
  generalize ib.boundary_.1 = a at *
  generalize ib.boundary_.2 = b at *
  interval_cases a <;> interval_cases b <;> decide

/-- Witness for C19: boundaries 1 and 3 are both minimum faces. -/
theorem lower_lower_or_upper_upper_witness :
    ((1 ≤ lowerLowerExample.BoundaryFirst ∧ lowerLowerExample.BoundaryFirst ≤ 6) ∧
      (1 ≤ lowerLowerExample.BoundarySecond ∧ lowerLowerExample.BoundarySecond ≤ 6)) ∧
    ((lowerLowerExample.IsLowerLowerOrUpperUpper = true ↔
        (isMinimumFace lowerLowerExample.BoundaryFirst ∧
            isMinimumFace lowerLowerExample.BoundarySecond) ∨
          (isMaximumFace lowerLowerExample.BoundaryFirst ∧
            isMaximumFace lowerLowerExample.BoundarySecond)) ∧
      (lowerLowerExample.IsLowerLowerOrUpperUpper = true ↔
        lowerLowerExample.BoundaryFirst % 2 = lowerLowerExample.BoundarySecond % 2)) :=
  ⟨⟨by decide, by decide⟩,
    lower_lower_or_upper_upper lowerLowerExample (by decide) (by decide)⟩

/-! ## Split and join of boundary conditions -/

theorem minAlong_withRange (s : boundarySurface) (dir : String) (a b : Int) :
    (s.withRange dir a b).minAlong dir = a := by
  unfold boundarySurface.withRange boundarySurface.minAlong
  split_ifs <;> rfl

theorem maxAlong_withRange (s : boundarySurface) (dir : String) (a b : Int) :
    (s.withRange dir a b).maxAlong dir = b := by
  unfold boundarySurface.withRange boundarySurface.maxAlong
  split_ifs <;> rfl

theorem bcType_withRange (s : boundarySurface) (dir : String) (a b : Int) :
    (s.withRange dir a b).bcType_ = s.bcType_ := by
  unfold boundarySurface.withRange
  split_ifs <;> rfl

theorem withRange_withRange (s : boundarySurface) (dir : String) (a b c e : Int) :
    (s.withRange dir a b).withRange dir c e = s.withRange dir c e := by
  unfold boundarySurface.withRange
  split_ifs <;> rfl

theorem withRange_self (s : boundarySurface) (dir : String) :
    s.withRange dir (s.minAlong dir) (s.maxAlong dir) = s := by
  unfold boundarySurface.withRange boundarySurface.minAlong boundarySurface.maxAlong
  split_ifs <;> rfl

theorem surface_classify (s : boundarySurface) (dir : String) (ind : Int) :
    (s.maxAlong dir ≤ ind ∧ s.lowerPart dir ind = some s ∧ s.upperRest dir ind = none) ∨
    (ind < s.maxAlong dir ∧ ind ≤ s.minAlong dir ∧ s.lowerPart dir ind = none ∧
      s.upperRest dir ind = some s) ∨
    (ind < s.maxAlong dir ∧ s.minAlong dir < ind ∧
      s.lowerPart dir ind = some (s.withRange dir (s.minAlong dir) ind) ∧
      s.upperRest dir ind = some (s.withRange dir ind (s.maxAlong dir))) := by
  unfold boundarySurface.lowerPart boundarySurface.upperRest
  by_cases h1 : s.maxAlong dir ≤ ind
  · left
    simp [h1]
  · by_cases h2 : ind ≤ s.minAlong dir
    · right; left
      simp [h1, h2, not_le.1 h1]
    · right; right
      simp [h1, h2, not_le.1 h1, not_le.1 h2]

theorem upperPart_shift (s : boundarySurface) (dir : String) (ind : Int) :
    (s.upperPart dir ind).map
        (fun u => u.withRange dir (u.minAlong dir + ind) (u.maxAlong dir + ind)) =
      s.upperRest dir ind := by
  unfold boundarySurface.upperPart boundarySurface.upperRest
  split_ifs
  · rfl
  · simp only [Option.map_some', minAlong_withRange, maxAlong_withRange, withRange_withRange,
      sub_add_cancel, withRange_self]
  · simp only [Option.map_some', minAlong_withRange, maxAlong_withRange, withRange_withRange,
      sub_add_cancel, zero_add]

theorem continuedBy_iff (l u : boundarySurface) (dir : String) (ind : Int) :
    l.continuedBy dir ind u = true ↔
      l.minAlong dir < ind ∧ l.maxAlong dir = ind ∧ u.minAlong dir = ind ∧
        ind < u.maxAlong dir ∧ u.withRange dir (l.minAlong dir) (l.maxAlong dir) = l := by
  simp [boundarySurface.continuedBy]

theorem lowerPart_facts (s l : boundarySurface) (dir : String) (ind : Int)
    (h : s.lowerPart dir ind = some l) :
    l.minAlong dir = s.minAlong dir ∧ (l.maxAlong dir = ind → ind ≤ s.maxAlong dir) ∧
      ∀ a b, l.withRange dir a b = s.withRange dir a b := by
  rcases surface_classify s dir ind with ⟨h1, h2, _⟩ | ⟨_, _, h2, _⟩ | ⟨h1, _, h2, _⟩
  · rw [h2] at h
    injection h with h
    subst h
    exact ⟨rfl, fun e => by omega, fun _ _ => rfl⟩
  · rw [h2] at h
    exact Option.noConfusion h
  · rw [h2] at h
    injection h with h
    subst h
    exact ⟨minAlong_withRange _ _ _ _, fun _ => le_of_lt h1,
      fun _ _ => withRange_withRange _ _ _ _ _ _⟩

theorem upperRest_facts (t u : boundarySurface) (dir : String) (ind : Int)
    (h : t.upperRest dir ind = some u) :
    u.maxAlong dir = t.maxAlong dir ∧ ind < t.maxAlong dir ∧
      (u.minAlong dir = ind → t.minAlong dir ≤ ind) ∧
      ∀ a b, u.withRange dir a b = t.withRange dir a b := by
  rcases surface_classify t dir ind with ⟨_, _, h2⟩ | ⟨h1, _, _, h2⟩ | ⟨h1, h3, _, h2⟩
  · rw [h2] at h
    exact Option.noConfusion h
  · rw [h2] at h
    injection h with h
    subst h
    exact ⟨rfl, h1, fun e => by omega, fun _ _ => rfl⟩
  · rw [h2] at h
    injection h with h
    subst h
    exact ⟨maxAlong_withRange _ _ _ _, h1, fun _ => le_of_lt h3,
      fun _ _ => withRange_withRange _ _ _ _ _ _⟩

theorem continued_same (dir : String) (ind : Int) (L : List boundarySurface)
    (hno : noLookalikes dir ind L) (s t l u : boundarySurface) (hs : s ∈ L) (ht : t ∈ L)
    (hl : s.lowerPart dir ind = some l) (hu : t.upperRest dir ind = some u)
    (hc : l.continuedBy dir ind u = true) : s = t := by
  obtain ⟨c1, c2, c3, c4, c5⟩ := (continuedBy_iff l u dir ind).1 hc
  obtain ⟨l1, l2, l3⟩ := lowerPart_facts s l dir ind hl
  obtain ⟨u1, u2, u3, u4⟩ := upperRest_facts t u dir ind hu
  refine hno s hs t ht (by omega) (l2 c2) (u3 c3) u2 ?_
  have := congrArg (fun x => x.withRange dir (s.minAlong dir) (s.maxAlong dir)) c5
  simp only [withRange_withRange, l3, withRange_self] at this
  rw [← u4]
  exact this

theorem mergedWith_lowerPart (dir : String) (ind : Int) (L : List boundarySurface)
    (hno : noLookalikes dir ind L) (s l : boundarySurface) (hs : s ∈ L)
    (hl : s.lowerPart dir ind = some l) :
    l.mergedWith dir ind (L.filterMap (fun t => t.upperRest dir ind)) = s := by
  unfold boundarySurface.mergedWith
  cases hf : (L.filterMap (fun t => t.upperRest dir ind)).find?
      (fun u => l.continuedBy dir ind u) with
  | some u =>
    have hc : l.continuedBy dir ind u = true := List.find?_some hf
    obtain ⟨t, ht, hu⟩ := List.mem_filterMap.1 (List.mem_of_find?_eq_some hf)
    have hst := continued_same dir ind L hno s t l u hs ht hl hu hc
    subst hst
    obtain ⟨l1, _, l3⟩ := lowerPart_facts s l dir ind hl
    obtain ⟨u1, _, _, _⟩ := upperRest_facts s u dir ind hu
    simp only
    rw [l3, l1, u1, withRange_self]
  | none =>
    rcases surface_classify s dir ind with ⟨_, h2, _⟩ | ⟨_, _, h2, _⟩ | ⟨h1, h3, h2, h4⟩
    · rw [h2] at hl
      injection hl with hl
      exact hl.symm
    · rw [h2] at hl
      exact Option.noConfusion hl
    · rw [h2] at hl
      injection hl with hl
      subst hl
      exfalso
      have hmem : s.withRange dir ind (s.maxAlong dir) ∈
          L.filterMap (fun t => t.upperRest dir ind) :=
        List.mem_filterMap.2 ⟨s, hs, h4⟩
      have := List.find?_eq_none.1 hf _ hmem
      apply this
      rw [continuedBy_iff]
      simp only [minAlong_withRange, maxAlong_withRange, withRange_withRange]
      exact ⟨h3, trivial, trivial, h1, trivial⟩

theorem keep_upperRest (dir : String) (ind : Int) (L : List boundarySurface)
    (hno : noLookalikes dir ind L) (t u : boundarySurface) (ht : t ∈ L)
    (hu : t.upperRest dir ind = some u) :
    (!(L.filterMap (fun s => s.lowerPart dir ind)).any (fun l => l.continuedBy dir ind u)) =
      decide (ind ≤ t.minAlong dir) := by
  rcases surface_classify t dir ind with ⟨_, _, h2⟩ | ⟨h1, h3, _, h2⟩ | ⟨h1, h3, h4, h2⟩
  · rw [h2] at hu
    exact Option.noConfusion hu
  · have hfalse : (L.filterMap (fun s => s.lowerPart dir ind)).any
        (fun l => l.continuedBy dir ind u) = false := by
      rw [Bool.eq_false_iff]
      intro hany
      obtain ⟨l, hl, hc⟩ := List.any_eq_true.1 hany
      obtain ⟨s, hs, hsl⟩ := List.mem_filterMap.1 hl
      have hst := continued_same dir ind L hno s t l u hs ht hsl hu hc
      subst hst
      obtain ⟨c1, _, _, _, _⟩ := (continuedBy_iff l u dir ind).1 hc
      obtain ⟨l1, _, _⟩ := lowerPart_facts s l dir ind hsl
      omega
    rw [hfalse]
    simp [h3]
  · have htrue : (L.filterMap (fun s => s.lowerPart dir ind)).any
        (fun l => l.continuedBy dir ind u) = true := by
      rw [h2] at hu
      injection hu with hu
      subst hu
      refine List.any_eq_true.2 ⟨t.withRange dir (t.minAlong dir) ind,
        List.mem_filterMap.2 ⟨t, ht, h4⟩, ?_⟩
      rw [continuedBy_iff]
      simp only [minAlong_withRange, maxAlong_withRange, withRange_withRange]
      exact ⟨h3, trivial, trivial, h1, trivial⟩
    rw [htrue]
    simp [h3]

theorem join_core (dir : String) (ind : Int) (L : List boundarySurface)
    (hno : noLookalikes dir ind L) :
    List.Perm
      ((L.filterMap (fun s => s.lowerPart dir ind)).map
          (fun l => l.mergedWith dir ind (L.filterMap (fun t => t.upperRest dir ind))) ++
        (L.filterMap (fun t => t.upperRest dir ind)).filter
          (fun u => !(L.filterMap (fun s => s.lowerPart dir ind)).any
            (fun l => l.continuedBy dir ind u)))
      L := by
  have hA : (L.filterMap (fun s => s.lowerPart dir ind)).map
      (fun l => l.mergedWith dir ind (L.filterMap (fun t => t.upperRest dir ind))) =
      L.filter (fun s => decide (s.minAlong dir < ind ∨ s.maxAlong dir ≤ ind)) := by
    rw [List.map_filterMap, ← List.filterMap_eq_filter]
    apply List.filterMap_congr
    intro s hs
    rcases surface_classify s dir ind with ⟨h1, h2, _⟩ | ⟨h1, h3, h2, _⟩ | ⟨h1, h3, h2, _⟩
    · rw [h2, Option.map_some', mergedWith_lowerPart dir ind L hno s s hs h2]
      simp [Option.guard, h1]
    · rw [h2]
      simp [Option.guard, not_lt.2 h3, not_le.2 h1]
    · rw [h2, Option.map_some', mergedWith_lowerPart dir ind L hno s _ hs h2]
      simp [Option.guard, h3]
  have hB : (L.filterMap (fun t => t.upperRest dir ind)).filter
      (fun u => !(L.filterMap (fun s => s.lowerPart dir ind)).any
        (fun l => l.continuedBy dir ind u)) =
      L.filter (fun s => !decide (s.minAlong dir < ind ∨ s.maxAlong dir ≤ ind)) := by
    rw [List.filter_filterMap, ← List.filterMap_eq_filter]
    apply List.filterMap_congr
    intro t ht
    rcases surface_classify t dir ind with ⟨h1, _, h2⟩ | ⟨h1, h3, _, h2⟩ | ⟨h1, h3, _, h2⟩
    · rw [h2]
      simp [Option.guard, h1]
    · rw [h2]
      simp only [Option.filter, keep_upperRest dir ind L hno t t ht h2]
      simp [Option.guard, h3, not_lt.2 h3, not_le.2 h1]
    · rw [h2]
      simp only [Option.filter, keep_upperRest dir ind L hno t _ ht h2]
      simp [Option.guard, h3, not_le.2 h3]
  rw [hA, hB]
  exact List.filter_append_perm _ L

theorem upperRest_filterMap (dir : String) (ind : Int) (L : List boundarySurface) :
    (L.filterMap (fun s => s.upperPart dir ind)).map
        (fun u => u.withRange dir (u.minAlong dir + ind) (u.maxAlong dir + ind)) =
      L.filterMap (fun t => t.upperRest dir ind) := by
  rw [List.map_filterMap]
  exact List.filterMap_congr (fun s _ => upperPart_shift s dir ind)

theorem joinFamily_off_axis (dir : String) (ind : Int) (L : List boundarySurface)
    (hno : noLookalikes dir ind L) :
    List.Perm
      (joinFamily dir ind false (L.filterMap (fun s => s.lowerPart dir ind))
        (L.filterMap (fun s => s.upperPart dir ind)))
      L := by
  simp only [joinFamily, Bool.false_eq_true, if_false, upperRest_filterMap]
  exact join_core dir ind L hno

theorem lowerPart_not_internal (dir : String) (ind : Int) (L : List boundarySurface)
    (h0 : ∀ s ∈ L, s.isInternalFace dir ind = false) :
    (L.filterMap (fun s => s.lowerPart dir ind)).filter
        (fun s => !s.isInternalFace dir ind) =
      L.filterMap (fun s => s.lowerPart dir ind) := by
  rw [List.filter_eq_self]
  intro l hl
  obtain ⟨s, hs, hsl⟩ := List.mem_filterMap.1 hl
  rcases surface_classify s dir ind with ⟨_, h2, _⟩ | ⟨_, _, h2, _⟩ | ⟨_, h3, h2, _⟩
  · rw [h2] at hsl
    injection hsl with hsl
    subst hsl
    simpa using h0 _ hs
  · rw [h2] at hsl
    exact Option.noConfusion hsl
  · rw [h2] at hsl
    injection hsl with hsl
    subst hsl
    simp only [boundarySurface.isInternalFace, minAlong_withRange, Bool.not_eq_true',
      decide_eq_false_iff_not]
    intro h
    omega

theorem upperPart_not_internal (dir : String) (ind : Int) (L : List boundarySurface) :
    (L.filterMap (fun s => s.upperPart dir ind)).filter
        (fun s => !s.isInternalFace dir 0) =
      L.filterMap (fun s => s.upperPart dir ind) := by
  rw [List.filter_eq_self]
  intro u hu
  obtain ⟨s, _, hsu⟩ := List.mem_filterMap.1 hu
  have hmax : 0 < u.maxAlong dir := by
    unfold boundarySurface.upperPart at hsu
    split_ifs at hsu with h1 h2
    · injection hsu with hsu
      subst hsu
      rw [maxAlong_withRange]
      omega
    · injection hsu with hsu
      subst hsu
      rw [maxAlong_withRange]
      omega
  simp only [boundarySurface.isInternalFace, Bool.not_eq_true', decide_eq_false_iff_not]
  intro h
  omega

theorem joinFamily_on_axis (dir : String) (ind : Int) (L : List boundarySurface)
    (lo up : boundarySurface) (hlo : lo.isInternalFace dir ind = true)
    (hup : up.isInternalFace dir 0 = true) (h0 : ∀ s ∈ L, s.isInternalFace dir ind = false)
    (hno : noLookalikes dir ind L) :
    List.Perm
      (joinFamily dir ind true (L.filterMap (fun s => s.lowerPart dir ind) ++ [lo])
        ([up] ++ L.filterMap (fun s => s.upperPart dir ind)))
      L := by
  have e1 : (L.filterMap (fun s => s.lowerPart dir ind) ++ [lo]).filter
      (fun s => !s.isInternalFace dir ind) = L.filterMap (fun s => s.lowerPart dir ind) := by
    rw [List.filter_append, lowerPart_not_internal dir ind L h0]
    simp [hlo]
  have e2 : ([up] ++ L.filterMap (fun s => s.upperPart dir ind)).filter
      (fun s => !s.isInternalFace dir 0) = L.filterMap (fun s => s.upperPart dir ind) := by
    rw [List.filter_append, upperPart_not_internal dir ind L]
    simp [hup]
  simp only [joinFamily, if_true, e1, e2, upperRest_filterMap]
  exact join_core dir ind L hno

theorem internalFace_isInternalFace (bc : boundaryConditions) (dir : String) (pos tag : Int) :
    (bc.internalFace dir pos tag).isInternalFace dir pos = true := by
  simp [boundarySurface.isInternalFace, boundaryConditions.internalFace, bcType_withRange,
    minAlong_withRange, maxAlong_withRange]

theorem foldr_max_le (l : List Int) (m : Int) (h0 : 0 ≤ m) (h : ∀ x ∈ l, x ≤ m) :
    l.foldr max 0 ≤ m := by
  induction l with
  | nil => exact h0
  | cons x xs ih =>
    simp only [List.foldr_cons]
    exact max_le (h x (List.mem_cons_self _ _))
      (ih (fun y hy => h y (List.mem_cons_of_mem _ hy)))

theorem le_foldr_max (l : List Int) (x : Int) (h : x ∈ l) : x ≤ l.foldr max 0 := by
  induction l with
  | nil => exact absurd h (List.not_mem_nil x)
  | cons y ys ih =>
    simp only [List.foldr_cons]
    rcases List.mem_cons.1 h with rfl | h
    · exact le_max_left _ _
    · exact le_trans (ih h) (le_max_right _ _)

theorem ofFamilies_families (is js ks : List boundarySurface) :
    (boundaryConditions.ofFamilies is js ks).surfsI = is ∧
      (boundaryConditions.ofFamilies is js ks).surfsJ = js ∧
      (boundaryConditions.ofFamilies is js ks).surfsK = ks := by
  simp [boundaryConditions.ofFamilies, boundaryConditions.surfsI, boundaryConditions.surfsJ,
    boundaryConditions.surfsK, List.append_assoc, List.take_left', List.drop_left',
    List.drop_append]

theorem lowerPart_max_le (s l : boundarySurface) (dir : String) (ind : Int)
    (h : s.lowerPart dir ind = some l) : l.maxAlong dir ≤ ind := by
  rcases surface_classify s dir ind with ⟨h1, h2, _⟩ | ⟨_, _, h2, _⟩ | ⟨_, _, h2, _⟩
  · rw [h2] at h
    injection h with h
    subst h
    exact h1
  · rw [h2] at h
    exact Option.noConfusion h
  · rw [h2] at h
    injection h with h
    subst h
    rw [maxAlong_withRange]

theorem lowerFamily_max_le (bc : boundaryConditions) (dir : String) (ind tag : Int)
    (flag : Bool) (F : List boundarySurface) :
    ∀ s ∈ bc.lowerFamily dir ind tag flag F, s.maxAlong dir ≤ ind := by
  intro s hs
  simp only [boundaryConditions.lowerFamily, List.mem_append, List.mem_filterMap] at hs
  rcases hs with ⟨t, _, ht⟩ | hs
  · exact lowerPart_max_le t s dir ind ht
  · cases flag with
    | false => simp at hs
    | true =>
      simp only [if_true, List.mem_singleton] at hs
      subst hs
      simp [boundaryConditions.internalFace, maxAlong_withRange]

theorem Split_lower_BlockDim (bc : boundaryConditions) (dir : String) (ind tag : Int)
    (hdir : dir = "i" ∨ dir = "j" ∨ dir = "k") (hind : 0 ≤ ind) :
    (bc.Split dir ind tag).1.BlockDim dir = ind := by
  apply le_antisymm
  · apply foldr_max_le _ _ hind
    intro x hx
    obtain ⟨s, hs, rfl⟩ := List.mem_map.1 hx
    simp only [boundaryConditions.Split, boundaryConditions.ofFamilies, List.mem_append] at hs
    rcases hs with (hs | hs) | hs <;> exact lowerFamily_max_le bc dir ind tag _ _ s hs
  · apply le_foldr_max
    refine List.mem_map.2 ⟨bc.internalFace dir ind tag, ?_, ?_⟩
    · simp only [boundaryConditions.Split, boundaryConditions.ofFamilies, List.mem_append,
        boundaryConditions.lowerFamily]
      rcases hdir with h | h | h
      · left; left; right
        simp [h]
      · left; right; right
        simp [h]
      · right; right
        simp [h]
    · simp [boundaryConditions.internalFace, maxAlong_withRange]

theorem joinFamily_round (bc : boundaryConditions) (dir : String) (ind tag : Int)
    (flag : Bool) (F : List boundarySurface) (hno : noLookalikes dir ind F)
    (h0 : flag = true → ∀ s ∈ F, s.isInternalFace dir ind = false) :
    List.Perm
      (joinFamily dir ind flag (bc.lowerFamily dir ind tag flag F)
        (bc.upperFamily dir ind tag flag F))
      F := by
  cases flag with
  | false =>
    simp only [boundaryConditions.lowerFamily, boundaryConditions.upperFamily,
      Bool.false_eq_true, if_false, List.append_nil, List.nil_append]
    exact joinFamily_off_axis dir ind F hno
  | true =>
    simp only [boundaryConditions.lowerFamily, boundaryConditions.upperFamily, if_true]
    exact joinFamily_on_axis dir ind F _ _ (internalFace_isInternalFace bc dir ind tag)
      (internalFace_isInternalFace bc dir 0 tag) (h0 rfl) hno

theorem family_lengths (bc : boundaryConditions) (h : bc.surfs_.length = bc.NumSurfaces) :
    bc.surfsI.length = bc.numSurfI_ ∧ bc.surfsJ.length = bc.numSurfJ_ ∧
      bc.surfsK.length = bc.numSurfK_ := by
  simp only [boundaryConditions.NumSurfaces] at h
  simp only [boundaryConditions.surfsI, boundaryConditions.surfsJ, boundaryConditions.surfsK,
    List.length_take, List.length_drop]
  refine ⟨?_, ?_, ?_⟩ <;> omega

theorem unpackString_packString (s : String) (rest : List Int) :
    unpackString (packString s ++ rest) = some (s, rest) := by
  obtain ⟨data⟩ := s
  have hl : (String.mk data).length = data.length := rfl
  have hlen : (data.map (fun c => (c.toNat : Int))).length = data.length := List.length_map _ _
  have h1 : ¬ ((data.length : Int) < 0 ∨
      (data.map (fun c => (c.toNat : Int)) ++ rest).length < data.length) := by
    rw [List.length_append, hlen]
    omega
  have hback : (data.map (fun c => (c.toNat : Int))).map (fun v => Char.ofNat v.toNat) =
      data := by
    rw [List.map_map]
    conv_rhs => rw [← List.map_id data]
    apply List.map_congr_left
    intro c _
    simp only [Function.comp_apply, Int.toNat_ofNat, Char.ofNat_toNat, id_eq]
  simp only [packString, List.cons_append, unpackString, hl, Int.toNat_ofNat, h1, if_false]
  have ht : (data.map (fun c => (c.toNat : Int)) ++ rest).take data.length =
      data.map (fun c => (c.toNat : Int)) := by
    rw [← hlen, List.take_left']
    rfl
  have hd : (data.map (fun c => (c.toNat : Int)) ++ rest).drop data.length = rest := by
    rw [← hlen, List.drop_left']
    rfl
  rw [ht, hd, hback]

theorem unpack_pack_surface (s : boundarySurface) (rest : List Int) :
    boundarySurface.unpack (s.pack ++ rest) = some (s, rest) := by
  simp only [boundarySurface.unpack, boundarySurface.pack, List.append_assoc,
    unpackString_packString, List.cons_append, List.nil_append]

theorem unpackSurfaces_pack (rest : List Int) :
    ∀ l : List boundarySurface,
      unpackSurfaces l.length (l.flatMap boundarySurface.pack ++ rest) = some (l, rest)
  | [] => by simp [unpackSurfaces]
  | s :: l => by
    simp only [List.length_cons, List.flatMap_cons, List.append_assoc, unpackSurfaces,
      unpack_pack_surface, unpackSurfaces_pack rest l]

/-- C21. Pack/Unpack round trip: for every boundary conditions `bc`, reading with `UnpackBC`
the buffer written by `PackBC` (followed by whatever was packed after it) gives back `bc`
itself: the same `numSurfI_`, `numSurfJ_`, `numSurfK_` and, surface by surface in order, the
same type string, six indices and tag; the reading stops where the writing stopped. -/
theorem pack_unpack_round_trip (bc : boundaryConditions) (rest : List Int) :
    boundaryConditions.UnpackBC (bc.PackBC ++ rest) = some (bc, rest) ∧
      boundaryConditions.UnpackBC bc.PackBC = some (bc, []) := by
  have h : ∀ r, boundaryConditions.UnpackBC (bc.PackBC ++ r) = some (bc, r) := by
    intro r
    have h1 : ¬ ((bc.surfs_.length : Int) < 0 ∨ (bc.numSurfI_ : Int) < 0 ∨
        (bc.numSurfJ_ : Int) < 0 ∨ (bc.numSurfK_ : Int) < 0) := by omega
    simp only [boundaryConditions.PackBC, List.cons_append, List.nil_append,
      boundaryConditions.UnpackBC, h1, if_false, Int.toNat_ofNat, unpackSurfaces_pack]
  refine ⟨h rest, ?_⟩
  have := h []
  rwa [List.append_nil] at this

/-! ## Ghost layers and split thickness -/

theorem ghost_layers_le_two (inp : input) (h : inp.UsingHigherOrderReconstruction = false)
    (n : Int) (hn : inp.NumberGhostLayers = some n) : n ≤ 2 := by
  unfold input.NumberGhostLayers at hn
  rw [h] at hn
  by_cases h1 : inp.UsingConstantReconstruction = true
  · rw [if_pos h1] at hn
    have := Option.some.inj hn
    omega
  · rw [if_neg h1] at hn
    by_cases h2 : inp.UsingMUSCLReconstruction = true
    · rw [if_pos h2] at hn
      have := Option.some.inj hn
      omega
    · rw [if_neg h2] at hn
      simp at hn

/-- C22 (evaluation at the failing input). After `ReadInput` has read
`faceReconstruction: weno`, `NumberGhostLayers()` is 3.  For one block of 4 x 4 x 6 cells on
three processes the first iteration of `CubicDecomposition` has `ol = 0`, `ul = 1`, and
`SendWholeOrSplit` returns the split index 2 along `k`: the lower block is 2 cells thick
(3 nodes along `k`), fewer than the 3 ghost layers. -/
theorem split_thinner_than_ghost_layers :
    wenoInput.bind input.NumberGhostLayers = some 3 ∧
      (cubicInit thinSplitGrid 3).ol = 0 ∧ (cubicInit thinSplitGrid 3).ul = 1 ∧
      (decomposition.construct 1 3).SendWholeOrSplit thinSplitGrid 0 1 0 = ⟨2, 0, "k"⟩ ∧
      (cubicStep (cubicInit thinSplitGrid 3)).grid = [⟨5, 5, 3⟩, ⟨5, 5, 5⟩] ∧
      ((⟨5, 5, 3⟩ : plot3dBlock).NumK - 1 = 2 ∧ (2 : Int) < 3) := by
  decide!


/-! ## SendToProc: placement and frame -/

theorem SendToProc_rank_getD (d : decomposition) (blk : Nat) (f t : Int) (b : Nat)
    (hb : blk < d.Size) :
    (d.SendToProc blk f t).Rank b = if b = blk then t else d.Rank b := by
  simp only [decomposition.SendToProc, decomposition.Rank]
  exact getD_set_int d.rank_ blk t hb b

theorem SendToProc_localPos_getD (d : decomposition) (hlen : d.localPos_.length = d.rank_.length)
    (blk : Nat) (f t : Int) (b : Nat) (hblk : blk < d.Size) (hb : b < d.Size) :
    (d.SendToProc blk f t).LocalPosition b =
      if b = blk then
        (if t = f ∧ (d.NumBlocksOnProc t : Int) > d.LocalPosition blk
          then (d.NumBlocksOnProc t : Int) - 1 else (d.NumBlocksOnProc t : Int))
      else
        (if d.Rank b = f ∧ d.LocalPosition b > d.LocalPosition blk
          then d.LocalPosition b - 1 else d.LocalPosition b) := by
  have hbR : blk < d.rank_.length := hblk
  have hbL : blk < d.localPos_.length := by rw [hlen]; exact hblk
  have hR := getD_set_int d.rank_ blk t hbR
  have hL := getD_set_int d.localPos_ blk (d.rank_.count t : Int) hbL
  have hM := moveDown_getD (d.rank_.set blk t) f (d.localPos_.getD blk 0) 0
    (d.localPos_.set blk (d.rank_.count t : Int)) b
    (by rw [List.length_set, hlen]; exact hb)
  simp only [decomposition.SendToProc, decomposition.LocalPosition, decomposition.Rank,
    decomposition.NumBlocksOnProc]
  rw [hM, Nat.zero_add, hR b, hL b]
  by_cases e : b = blk
  · simp only [e, if_true]
  · simp only [e, if_false]

/-- C23. In a decomposition reached from the constructor, for a valid block `blk` with
`Rank(blk) = fromProc`, after `SendToProc(blk, fromProc, toProc)`: the block has rank
`toProc` and sits in the last local slot of `toProc`
(`LocalPosition(blk) = NumBlocksOnProc(toProc) - 1` in the new state); every other block on
`fromProc` whose local position was above the old position of `blk` moves down by exactly
one, every remaining block keeps its local position, and among the other blocks of any one
rank the order of the local positions is preserved. -/
theorem send_to_proc_placement (num : Nat) (nProcs : Int) (d : decomposition)
    (hr : Reachable num nProcs d) (blk : Nat) (fromProc toProc : Int)
    (hblk : blk < d.Size) (hf : d.Rank blk = fromProc) :
    (d.SendToProc blk fromProc toProc).Rank blk = toProc ∧
      (d.SendToProc blk fromProc toProc).LocalPosition blk =
        ((d.SendToProc blk fromProc toProc).NumBlocksOnProc toProc : Int) - 1 ∧
      (∀ b, b < d.Size → b ≠ blk → d.Rank b = fromProc →
        d.LocalPosition b > d.LocalPosition blk →
        (d.SendToProc blk fromProc toProc).LocalPosition b = d.LocalPosition b - 1) ∧
      (∀ b, b < d.Size → b ≠ blk →
        ¬ (d.Rank b = fromProc ∧ d.LocalPosition b > d.LocalPosition blk) →
        (d.SendToProc blk fromProc toProc).LocalPosition b = d.LocalPosition b) ∧
      (∀ a b, a < d.Size → b < d.Size → a ≠ blk → b ≠ blk → d.Rank a = d.Rank b →
        ((d.SendToProc blk fromProc toProc).LocalPosition a <
            (d.SendToProc blk fromProc toProc).LocalPosition b ↔
          d.LocalPosition a < d.LocalPosition b)) := by
  obtain ⟨hlen, hbound, hinj⟩ := SlotsDense.of_reachable hr
  have hP := fun b hb => SendToProc_localPos_getD d hlen blk fromProc toProc b hblk hb
  have hbb := hbound blk hblk
  have hne : ∀ b, b < d.Size → b ≠ blk → d.Rank b = fromProc →
      d.LocalPosition b ≠ d.LocalPosition blk := by
    intro b hb hbn hrb e
    exact hbn (hinj b blk hb hblk (by
      have h1 : d.rank_.getD b 0 = fromProc := hrb
      have h2 : d.rank_.getD blk 0 = fromProc := hf
      rw [h1, h2]) e)
  refine ⟨?_, ?_, ?_, ?_, ?_⟩
  · rw [SendToProc_rank_getD d blk fromProc toProc blk hblk, if_pos rfl]
  · rw [hP blk hblk, if_pos rfl]
    have hC : (d.SendToProc blk fromProc toProc).NumBlocksOnProc toProc =
        d.rank_.count toProc - (if d.rank_.getD blk 0 = toProc then 1 else 0) + 1 := by
      simp only [decomposition.SendToProc, decomposition.NumBlocksOnProc]
      rw [count_set_int d.rank_ blk toProc toProc hblk, if_pos rfl]
    rw [hC]
    have hf2 : d.rank_.getD blk 0 = fromProc := hf
    have hpos := count_getD_pos d.rank_ blk hblk
    simp only [decomposition.NumBlocksOnProc, decomposition.LocalPosition]
    rw [hf2] at hbb hpos ⊢
    by_cases e : toProc = fromProc
    · subst e
      generalize d.rank_.count toProc = c at *
      generalize d.localPos_.getD blk 0 = p at *
      simp only [true_and, if_true]
      split_ifs <;> omega
    · have e2 : ¬ fromProc = toProc := fun h => e h.symm
      generalize d.rank_.count toProc = c at *
      simp only [e, e2, false_and, if_false]
      omega
  · intro b hb hbn hrb hgt
    rw [hP b hb, if_neg hbn, if_pos ⟨hrb, hgt⟩]
  · intro b hb hbn hn
    rw [hP b hb, if_neg hbn, if_neg hn]
  · intro a b ha hb han hbn hab
    rw [hP a ha, hP b hb, if_neg han, if_neg hbn]
    by_cases e : d.Rank a = fromProc
    · have ea := hne a ha han e
      have eb := hne b hb hbn (hab ▸ e)
      have e' : d.Rank b = fromProc := hab ▸ e
      simp only [e, e', true_and]
      generalize d.LocalPosition a = x at *
      generalize d.LocalPosition b = y at *
      generalize d.LocalPosition blk = z at *
      split_ifs <;> constructor <;> intro h <;> omega
    · have e' : ¬ d.Rank b = fromProc := fun h => e (hab.trans h)
      simp only [e, e', false_and, if_false]

/-- Witness for C23: three blocks on two processes, block 1 already on rank 1; block 0 is
sent from rank 0 to rank 1. -/
theorem send_to_proc_placement_witness :
    Reachable 3 2 ((decomposition.construct 3 2).SendToProc 1 0 1) ∧
      (0 : Nat) < ((decomposition.construct 3 2).SendToProc 1 0 1).Size ∧
      ((decomposition.construct 3 2).SendToProc 1 0 1).Rank 0 = 0 ∧
      (((decomposition.construct 3 2).SendToProc 1 0 1).SendToProc 0 0 1).Rank 0 = 1 ∧
      (((decomposition.construct 3 2).SendToProc 1 0 1).SendToProc 0 0 1).LocalPosition 0 =
        1 ∧
      (((decomposition.construct 3 2).SendToProc 1 0 1).SendToProc 0 0 1).LocalPosition 2 =
        0 :=
  have hr : Reachable 3 2 ((decomposition.construct 3 2).SendToProc 1 0 1) :=
    Reachable.send 1 0 1 Reachable.init (by decide) (by decide)
  have h := send_to_proc_placement 3 2 _ hr 0 0 1 (by decide) (by decide)
  ⟨hr, by decide, by decide, h.1, by decide, by decide⟩

/-- C24. `SendToProc(blk, fromProc, toProc)` changes only local positions and the rank of
`blk`: the rank of every other block, the parent of every block, `Size()`, `NumProcs()`,
`NumSplits()` and the four split history vectors are unchanged. -/
theorem send_to_proc_frame_effect (d : decomposition) (blk : Nat) (fromProc toProc : Int) :
    (∀ b, b ≠ blk → (d.SendToProc blk fromProc toProc).Rank b = d.Rank b) ∧
      (∀ b, (d.SendToProc blk fromProc toProc).ParentBlock b = d.ParentBlock b) ∧
      (d.SendToProc blk fromProc toProc).parBlock_ = d.parBlock_ ∧
      (d.SendToProc blk fromProc toProc).Size = d.Size ∧
      (d.SendToProc blk fromProc toProc).NumProcs = d.NumProcs ∧
      (d.SendToProc blk fromProc toProc).NumSplits = d.NumSplits ∧
      (d.SendToProc blk fromProc toProc).splitHistBlkLow_ = d.splitHistBlkLow_ ∧
      (d.SendToProc blk fromProc toProc).splitHistBlkUp_ = d.splitHistBlkUp_ ∧
      (d.SendToProc blk fromProc toProc).splitHistIndex_ = d.splitHistIndex_ ∧
      (d.SendToProc blk fromProc toProc).splitHistDir_ = d.splitHistDir_ := by
  refine ⟨?_, fun _ => rfl, rfl, ?_, rfl, rfl, rfl, rfl, rfl, rfl⟩
  · intro b hb
    simp only [decomposition.SendToProc, decomposition.Rank, List.getD_eq_getElem?_getD,
      List.getElem?_set]
    have h2 : ¬ blk = b := fun e => hb e.symm
    simp [h2]
  · simp [decomposition.SendToProc, decomposition.Size]

/-- Witness for C24: block 0 of three is sent from rank 0 to rank 1; the rank of block 2
is unchanged. -/
theorem send_to_proc_frame_effect_witness :
    (2 : Nat) ≠ 0 ∧
      ((decomposition.construct 3 2).SendToProc 0 0 1).Rank 2 =
        (decomposition.construct 3 2).Rank 2 :=
  ⟨by decide, (send_to_proc_frame_effect (decomposition.construct 3 2) 0 0 1).1 2 (by decide)⟩

/-! ## Initial configuration -/

theorem construct_getD_rank (num : Nat) (i : Nat) :
    (List.replicate num (0 : Int)).getD i 0 = 0 := by
  simp only [List.getD_eq_getElem?_getD, List.getElem?_replicate]
  split_ifs <;> rfl

theorem construct_getD_range (num : Nat) (i : Nat) (hi : i < num) :
    ((List.range num).map Int.ofNat).getD i 0 = (i : Int) := by
  simp [List.getD_eq_getElem?_getD, List.getElem?_range hi]

/-- C25. The constructor `decomposition(num, nProcs)` gives `Size() = num`,
`NumProcs() = nProcs`, `NumSplits() = 0` with the four split history vectors empty, and for
every block `i < num`: `Rank(i) = 0` (the root process), `ParentBlock(i) = i` and
`LocalPosition(i) = i`. -/
theorem initial_configuration (num : Nat) (nProcs : Int) :
    (decomposition.construct num nProcs).Size = num ∧
      (decomposition.construct num nProcs).NumProcs = nProcs ∧
      (decomposition.construct num nProcs).NumSplits = 0 ∧
      (decomposition.construct num nProcs).splitHistBlkLow_ = [] ∧
      (decomposition.construct num nProcs).splitHistBlkUp_ = [] ∧
      (decomposition.construct num nProcs).splitHistIndex_ = [] ∧
      ∀ i, i < num →
        (decomposition.construct num nProcs).Rank i = 0 ∧
          (decomposition.construct num nProcs).Rank i = ROOTP ∧
          (decomposition.construct num nProcs).ParentBlock i = (i : Int) ∧
          (decomposition.construct num nProcs).LocalPosition i = (i : Int) := by
  refine ⟨by simp [decomposition.construct, decomposition.Size], rfl, rfl, rfl, rfl, rfl, ?_⟩
  intro i hi
  refine ⟨construct_getD_rank num i, construct_getD_rank num i, ?_, ?_⟩
  · exact construct_getD_range num i hi
  · exact construct_getD_range num i hi

/-- Witness for C25: three blocks on two processes, block 2. -/
theorem initial_configuration_witness :
    (2 : Nat) < 3 ∧
      (decomposition.construct 3 2).Rank 2 = 0 ∧
      (decomposition.construct 3 2).Rank 2 = ROOTP ∧
      (decomposition.construct 3 2).ParentBlock 2 = 2 ∧
      (decomposition.construct 3 2).LocalPosition 2 = 2 :=
  ⟨by decide, (initial_configuration 3 2).2.2.2.2.2.2 2 (by decide)⟩

/-! ## Initial-condition lookup -/

theorem head_filter_eq_find (p : icState → Bool) :
    ∀ l : List icState, (l.filter p).head? = l.find? p
  | [] => rfl
  | a :: l => by
    by_cases h : p a = true
    · simp [List.filter, List.find?, h]
    · simp [List.filter, List.find?, h, head_filter_eq_find p l]

theorem getLast_filter_eq_find_reverse (p : icState → Bool) (l : List icState) :
    (l.filter p).getLast? = l.reverse.find? p := by
  rw [List.getLast?_eq_head?_reverse, ← List.filter_reverse, head_filter_eq_find]

theorem find_reverse_cons (p : icState → Bool) (ic : icState) (l : List icState) :
    (ic :: l).reverse.find? p = (l.reverse.find? p).or (if p ic then some ic else none) := by
  rw [List.reverse_cons, List.find?_append]
  by_cases h : p ic = true <;> simp [List.find?, h]

theorem icStateScan_spec (b : Int) (hb : 0 ≤ b) :
    ∀ (l : List icState) (cur : icState) (fe fd : Bool),
      (icStateScan b l cur fe fd).2.1 = (fe || l.any (fun ic => decide (ic.Tag = b))) ∧
      ((icStateScan b l cur fe fd).2.1 = false →
        (icStateScan b l cur fe fd).2.2 = (fd || l.any (fun ic => decide (ic.Tag = -1)))) ∧
      (icStateScan b l cur fe fd).1 =
        match l.reverse.find? (fun ic => decide (ic.Tag = b)) with
        | some ic => ic
        | none =>
          if fe = true then cur
          else match l.reverse.find? (fun ic => decide (ic.Tag = -1)) with
            | some ic => ic
            | none => cur
  | [], cur, fe, fd => by simp [icStateScan]
  | ic :: rest, cur, fe, fd => by
    by_cases h1 : ic.Tag = -1
    · have h2 : ¬ ic.Tag = b := by omega
      have h3 : ¬ (-1 : Int) = b := by omega
      cases fe with
      | false =>
        obtain ⟨i1, i2, i3⟩ := icStateScan_spec b hb rest ic false true
        have e : icStateScan b (ic :: rest) cur false fd = icStateScan b rest ic false true := by
          simp [icStateScan, h1]
        rw [e, find_reverse_cons, find_reverse_cons]
        refine ⟨by simp [i1, h2], fun h => by simp [i2 h, h1], ?_⟩
        rw [i3]
        cases rest.reverse.find? (fun ic => decide (ic.Tag = b)) with
        | some x => simp [h1, h3]
        | none =>
          cases rest.reverse.find? (fun ic => decide (ic.Tag = -1)) with
          | some y => simp [h1, h3]
          | none => simp [h1, h3]
      | true =>
        obtain ⟨i1, i2, i3⟩ := icStateScan_spec b hb rest cur true fd
        have e : icStateScan b (ic :: rest) cur true fd = icStateScan b rest cur true fd := by
          simp [icStateScan, h2]
        rw [e, find_reverse_cons]
        refine ⟨by simp [i1], fun h => by simp [i1] at h, ?_⟩
        rw [i3]
        simp [h2]
    · by_cases h2 : ic.Tag = b
      · obtain ⟨i1, i2, i3⟩ := icStateScan_spec b hb rest ic true fd
        have h3 : ¬ b = -1 := by omega
        have e : icStateScan b (ic :: rest) cur fe fd = icStateScan b rest ic true fd := by
          simp [icStateScan, h2, h3]
        rw [e, find_reverse_cons]
        refine ⟨by simp [i1, h2], fun h => by simp [i1] at h, ?_⟩
        rw [i3]
        cases rest.reverse.find? (fun ic => decide (ic.Tag = b)) with
        | some x => simp [h2]
        | none => simp [h2]
      · obtain ⟨i1, i2, i3⟩ := icStateScan_spec b hb rest cur fe fd
        have e : icStateScan b (ic :: rest) cur fe fd = icStateScan b rest cur fe fd := by
          simp [icStateScan, h1, h2]
        rw [e, find_reverse_cons, find_reverse_cons]
        refine ⟨by simp [i1, h2], fun h => by simp [i2 h, h1], ?_⟩
        rw [i3]
        simp [h1, h2]

/-- C26. Exact match trumps default: for every list of initial-condition states and every
block id `b ≥ 0`, `ICStateForBlock(b)` returns the last state of the list with `Tag() = b`
when there is one, wherever the default states (`Tag() = -1`) stand; otherwise it returns
the last default state; and it ends the run (`none`) exactly when the list holds neither a
state tagged `b` nor a default state. -/
theorem ic_state_lookup (inp : input) (b : Int) (hb : 0 ≤ b) :
    inp.ICStateForBlock b =
        (match (inp.ics_.filter (fun ic => decide (ic.Tag = b))).getLast? with
        | some ic => some ic
        | none => (inp.ics_.filter (fun ic => decide (ic.Tag = -1))).getLast?) ∧
      (inp.ICStateForBlock b = none ↔ ∀ ic ∈ inp.ics_, ic.Tag ≠ b ∧ ic.Tag ≠ -1) := by
  obtain ⟨i1, i2, i3⟩ := icStateScan_spec b hb inp.ics_ default false false
  have key : inp.ICStateForBlock b =
      (match (inp.ics_.filter (fun ic => decide (ic.Tag = b))).getLast? with
      | some ic => some ic
      | none => (inp.ics_.filter (fun ic => decide (ic.Tag = -1))).getLast?) := by
    rw [getLast_filter_eq_find_reverse, getLast_filter_eq_find_reverse]
    unfold input.ICStateForBlock
    rcases hs : icStateScan b inp.ics_ default false false with ⟨cur, fe, fd⟩
    rw [hs] at i1 i2 i3
    simp only at i1 i2 i3 ⊢
    cases hx : inp.ics_.reverse.find? (fun ic => decide (ic.Tag = b)) with
    | some x =>
      have hfe : fe = true := by
        rw [i1]
        have := List.mem_of_find?_eq_some hx
        have hp := List.find?_some hx
        simp only [Bool.false_or, List.any_eq_true]
        exact ⟨x, by simpa using this, hp⟩
      rw [hx] at i3
      simp [hfe, i3]
    | none =>
      have hfe : fe = false := by
        rw [i1]
        simp only [Bool.false_or, List.any_eq_false]
        intro x hxm
        have := List.find?_eq_none.1 hx x (by simpa using hxm)
        simpa using this
      rw [hx] at i3
      simp only [Bool.false_eq_true, if_false] at i3
      cases hy : inp.ics_.reverse.find? (fun ic => decide (ic.Tag = -1)) with
      | some y =>
        have hfd : fd = true := by
          rw [i2 hfe]
          have := List.mem_of_find?_eq_some hy
          have hp := List.find?_some hy
          simp only [Bool.false_or, List.any_eq_true]
          exact ⟨y, by simpa using this, hp⟩
        rw [hy] at i3
        simp [hfe, hfd, i3]
      | none =>
        have hfd : fd = false := by
          rw [i2 hfe]
          simp only [Bool.false_or, List.any_eq_false]
          intro x hxm
          have := List.find?_eq_none.1 hy x (by simpa using hxm)
          simpa using this
        simp [hfe, hfd]
  refine ⟨key, ?_⟩
  rw [key, getLast_filter_eq_find_reverse, getLast_filter_eq_find_reverse]
  cases hx : inp.ics_.reverse.find? (fun ic => decide (ic.Tag = b)) with
  | some x =>
    have := List.mem_of_find?_eq_some hx
    have hp := List.find?_some hx
    simp only [false_iff, reduceCtorEq]
    intro h
    exact (h x (by simpa using this)).1 (by simpa using hp)
  | none =>
    simp only
    rw [List.find?_eq_none]
    have h0 := List.find?_eq_none.1 hx
    constructor
    · intro h ic hic
      exact ⟨by simpa using h0 ic (by simpa using hic), by simpa using h ic (by simpa using hic)⟩
    · intro h ic hic
      simpa using (h ic (by simpa using hic)).2

/-- Witness for C26: a default state after the state of block 2 does not take its place. -/
theorem ic_state_lookup_witness :
    (0 : Int) ≤ 2 ∧
      ({ input.construct "a.inp" "none" with
          ics_ := [⟨-1, [1]⟩, ⟨2, [2]⟩, ⟨2, [3]⟩, ⟨-1, [4]⟩] }).ICStateForBlock 2 =
        some ⟨2, [3]⟩ :=
  ⟨by decide, (ic_state_lookup { input.construct "a.inp" "none" with
      ics_ := [⟨-1, [1]⟩, ⟨2, [2]⟩, ⟨2, [3]⟩, ⟨-1, [4]⟩] } 2 (by decide)).1.trans (by decide)⟩

/-! ## Sanity checks of the input -/

/-- C27. `CheckTurbulenceModel` returns normally exactly when `equationSet_ = "rans"` is
equivalent to `turbModel_ ≠ "none"`; it ends the run both for the RANS equations without a
model and for a model given with another equation set; and when it returns the object is
unchanged. -/
theorem turbulence_model_check (inp : input) :
    (inp.CheckTurbulenceModel.isSome = true ↔
        (inp.equationSet_ = "rans" ↔ inp.turbModel_ ≠ "none")) ∧
      (inp.equationSet_ = "rans" ∧ inp.turbModel_ = "none" → inp.CheckTurbulenceModel = none) ∧
      (inp.equationSet_ ≠ "rans" ∧ inp.turbModel_ ≠ "none" → inp.CheckTurbulenceModel = none) ∧
      ∀ out, inp.CheckTurbulenceModel = some out → out = inp := by
  unfold input.CheckTurbulenceModel
  by_cases h1 : inp.equationSet_ = "rans" <;> by_cases h2 : inp.turbModel_ = "none" <;>
    simp [h1, h2]

/-- Witness for C27: the RANS equations without a turbulence model end the run. -/
theorem turbulence_model_check_witness :
    (({ input.construct "a.inp" "none" with equationSet_ := "rans" }).equationSet_ = "rans" ∧
        ({ input.construct "a.inp" "none" with equationSet_ := "rans" }).turbModel_ =
          "none") ∧
      ({ input.construct "a.inp" "none" with equationSet_ := "rans" }).CheckTurbulenceModel =
        none :=
  ⟨by decide, (turbulence_model_check
    { input.construct "a.inp" "none" with equationSet_ := "rans" }).2.1 (by decide)⟩

/-- The truncated remainder by a positive number is zero exactly for its multiples. -/
theorem tmod_eq_zero_iff_dvd (a f : Int) : a.tmod f = 0 ↔ f ∣ a :=
  ⟨Int.dvd_of_tmod_eq_zero, Int.tmod_eq_zero_of_dvd⟩

/-- C29. Restart schedule: with `restartFrequency_ = 0`, the value the constructor sets,
`WriteRestart(nn)` is false for every `nn` and takes no remainder (the result is defined
although the divisor would be zero); with `restartFrequency_ = f > 0` it is defined and
true exactly when `nn + 1` is a multiple of `f`. -/
theorem restart_schedule (inp : input) (nn : Int) (name resName : String) :
    (input.construct name resName).restartFrequency_ = 0 ∧
      (input.construct name resName).WriteRestart nn = some false ∧
      (inp.restartFrequency_ = 0 → inp.WriteRestart nn = some false) ∧
      (inp.restartFrequency_ = 0 → intRem (nn + 1) inp.restartFrequency_ = none) ∧
      (0 < inp.restartFrequency_ →
        inp.WriteRestart nn = some (decide (inp.restartFrequency_ ∣ nn + 1))) := by
  refine ⟨rfl, rfl, ?_, ?_, ?_⟩
  · intro h
    simp [input.WriteRestart, h]
  · intro h
    simp [intRem, h]
  · intro h
    have h0 : inp.restartFrequency_ ≠ 0 := by omega
    simp only [input.WriteRestart, intRem, h0, if_false, Option.map_some',
      tmod_eq_zero_iff_dvd]

/-- Witness for C29: a restart every 5 iterations is written after iteration `nn = 9`;
with the frequency left at 0 none is written. -/
theorem restart_schedule_witness :
    ((0 : Int) <
          ({ input.construct "a.inp" "none" with restartFrequency_ := 5 }).restartFrequency_ ∧
        ({ input.construct "a.inp" "none" with restartFrequency_ := 5 }).WriteRestart 9 =
          some true) ∧
      ((input.construct "a.inp" "none").restartFrequency_ = 0 ∧
        (input.construct "a.inp" "none").WriteRestart 9 = some false) :=
  ⟨⟨by decide,
      ((restart_schedule { input.construct "a.inp" "none" with restartFrequency_ := 5 } 9
        "a.inp" "none").2.2.2.2 (by decide)).trans (by decide)⟩,
    by decide,
    (restart_schedule (input.construct "a.inp" "none") 9 "a.inp" "none").2.2.1 (by decide)⟩

/-! ## Output variables -/

theorem checkOutputLoop_some (inp : input) :
    ∀ (l : List String) (out : input), inp.checkOutputLoop l = some out → out = inp
  | [], out, h => by simpa [input.checkOutputLoop] using h.symm
  | var :: rest, out, h => by
    unfold input.checkOutputLoop at h
    split_ifs at h
    exact checkOutputLoop_some inp rest out h

theorem checkOutputLoop_isSome (inp : input) :
    ∀ l : List String, (inp.checkOutputLoop l = some inp ↔
      ∀ var ∈ l, inp.erasesVariable var = false)
  | [] => by simp [input.checkOutputLoop]
  | var :: rest => by
    unfold input.checkOutputLoop
    by_cases h : inp.erasesVariable var = true
    · simp [h]
    · simp [h, checkOutputLoop_isSome inp rest]

theorem CheckOutputVariables_rans (inp : input) (h : inp.equationSet_ = "rans") :
    inp.CheckOutputVariables = some inp := by
  unfold input.CheckOutputVariables
  rw [checkOutputLoop_isSome]
  intro var _
  simp [input.erasesVariable, input.IsTurbulent, h]

/-- C28 (evaluation at the failing input). For an inviscid run that asks for the output
variables `density` and `tke`, the loop body of `CheckOutputVariables` erases `tke` from the
set the loop is iterating over, so the behaviour of the call is undefined: no result set is
guaranteed. -/
theorem check_output_variables_undefined :
    eulerWithTke.IsTurbulent = false ∧ eulerWithTke.erasesVariable "density" = false ∧
      eulerWithTke.erasesVariable "tke" = true ∧ eulerWithTke.CheckOutputVariables = none := by
  decide


/-! ## Viscous CFL coefficient -/

/-- C30 (evaluation at the failing inputs). Starting from the constructor defaults,
`ReadInput` on the single line `faceReconstruction: tok` leaves `kappa_` at `-2` for
`constant`, `weno` and `wenoZ` alike, so `ViscousCFLCoefficient()` is 2 for `weno` and
`wenoZ`; it is 4 for `central`, 2 for `constant` and 1 for `upwind`, `fromm`, `quick` and
`thirdOrder`. -/
theorem viscous_cfl_weno :
    (wenoInput.map input.Kappa = some (-2) ∧
        wenoInput.map input.ViscousCFLCoefficient = some 2) ∧
      ((input.construct "a.inp" "none").ReadFaceReconstructionLine "wenoZ").map
          input.ViscousCFLCoefficient = some 2 ∧
      acceptedReconstructions.map (fun tok =>
          ((input.construct "a.inp" "none").ReadFaceReconstructionLine tok).map
            input.ViscousCFLCoefficient) =
        [some 1, some 1, some 1, some 4, some 1, some 2, some 2, some 2] := by
  decide!

/-! ## Simulation name root -/

theorem substrTo_findChar (c : Char) :
    ∀ s : List Char, substrTo s (findChar c s) = s.takeWhile (fun x => decide (x ≠ c))
  | [] => rfl
  | x :: xs => by
    have ih := substrTo_findChar c xs
    by_cases h : x = c
    · simp [findChar, substrTo, h]
    · simp only [findChar, h, if_false, List.takeWhile_cons, ne_eq, not_false_eq_true,
        decide_True, if_true]
      cases hf : findChar c xs with
      | none =>
        rw [hf] at ih
        simp only [substrTo] at ih
        simp only [substrTo, Option.map_none']
        rw [← ih]
      | some k =>
        rw [hf] at ih
        simp only [substrTo] at ih
        simp only [substrTo, Option.map_some', List.take_succ_cons]
        rw [← ih]

theorem SimNameRoot_no_dot (inp : input) (h : '.' ∉ inp.simName_.data) :
    inp.SimNameRoot = inp.simName_ := by
  unfold input.SimNameRoot
  rw [substrTo_findChar]
  have : inp.simName_.data.takeWhile (fun x => decide (x ≠ '.')) = inp.simName_.data := by
    rw [List.takeWhile_eq_self_iff]
    intro x hx
    have : x ≠ '.' := fun e => h (e ▸ hx)
    simpa using this
  rw [this]

/-- C31 (evaluation at the failing inputs). `SimNameRoot()` cuts the simulation name at its
first `.`: for `sim.v2.inp` it returns `sim`, not `sim.v2`, and for `./myInput.inp` it
returns the empty string, not `./myInput`.  For `myInput.inp` it returns `myInput`, and a
name without `.` is returned unchanged. -/
theorem sim_name_root_first_dot :
    (input.construct "sim.v2.inp" "none").SimNameRoot = "sim" ∧
      (input.construct "sim.v2.inp" "none").SimNameRoot ≠ "sim.v2" ∧
      (input.construct "./myInput.inp" "none").SimNameRoot = "" ∧
      (input.construct "myInput.inp" "none").SimNameRoot = "myInput" ∧
      (input.construct "myInput" "none").SimNameRoot = "myInput" := by
  decide

/-! ## Line trimming of the first parser -/

/-- C32 (evaluation at the failing inputs). For the line `dt: 0.1  # step`, `trim` returns
`dt: 0.1` followed by the two blanks that stood before the comment character, on a
platform with a 64-bit `size_t` and on one with a 32-bit `size_t`: the result has trailing
whitespace.  For a line of blanks only, and for the empty line, the test
`sBegin == string::npos` fails on a platform with a 64-bit `size_t` (`sBegin` is an
`unsigned int`) and `substr` throws `std::out_of_range`; with a 32-bit `size_t` the result
is the empty string.  Lines without a comment and comment lines are trimmed as
intended. -/
theorem trim_keeps_blanks_before_comment :
    (trim 64 "  dt: 0.1  # step" " \t" = some "dt: 0.1  " ∧
        trim 32 "  dt: 0.1  # step" " \t" = some "dt: 0.1  " ∧
        ("dt: 0.1  " : String).data.getLast? = some ' ') ∧
      (trim 64 "   " " \t" = none ∧ trim 64 "" " \t" = none ∧
        trim 32 "   " " \t" = some "" ∧ trim 32 "" " \t" = some "") ∧
      (trim 64 "  dt: 0.1 \t " " \t" = some "dt: 0.1" ∧
        trim 64 " \t # step" " \t" = some "" ∧ trim 64 "# step" " \t" = some "") := by
  decide

/-! ## Every local block is sent once -/

theorem minGlobalScan_range (lb : List procBlock) :
    ∀ (rest : List Int) (jj m : Nat),
      minGlobalScan lb jj rest m = m ∨
        (jj ≤ minGlobalScan lb jj rest m ∧ minGlobalScan lb jj rest m < jj + rest.length)
  | [], _, _ => Or.inl rfl
  | p :: rest, jj, m => by
    unfold minGlobalScan
    split_ifs
    · rcases minGlobalScan_range lb rest (jj + 1) jj with h | h
      · exact Or.inr (by rw [h]; simp)
      · exact Or.inr (by simp only [List.length_cons]; omega)
    · rcases minGlobalScan_range lb rest (jj + 1) m with h | h
      · exact Or.inl h
      · exact Or.inr (by simp only [List.length_cons]; omega)

theorem minGlobalScan_lt (lb : List procBlock) (lp : List Int) (h : lp ≠ []) :
    minGlobalScan lb 0 lp 0 < lp.length := by
  have hpos : 0 < lp.length := List.length_pos.2 h
  rcases minGlobalScan_range lb lp 0 0 with e | e
  · rw [e]; exact hpos
  · omega

theorem minGlobalScanChecked_eq (lb : List procBlock) :
    ∀ (rest : List Int) (jj m : Nat),
      (∀ p ∈ rest, 0 ≤ p ∧ p.toNat < lb.length) → (rest ≠ [] → m < lb.length) →
      jj + rest.length ≤ lb.length →
      minGlobalScanChecked lb jj rest m = some (minGlobalScan lb jj rest m)
  | [], _, _, _, _, _ => rfl
  | p :: rest, jj, m, hv, hm, hj => by
    have hp := hv p (List.mem_cons_self _ _)
    have hm2 := hm (List.cons_ne_nil _ _)
    have hv2 : ∀ q ∈ rest, 0 ≤ q ∧ q.toNat < lb.length :=
      fun q hq => hv q (List.mem_cons_of_mem _ hq)
    simp only [List.length_cons] at hj
    unfold minGlobalScanChecked minGlobalScan
    rw [if_pos ⟨hp.1, hp.2, hm2⟩]
    split_ifs
    · exact minGlobalScanChecked_eq lb rest (jj + 1) jj hv2 (fun _ => by omega) (by omega)
    · exact minGlobalScanChecked_eq lb rest (jj + 1) m hv2 (fun _ => hm2) (by omega)

theorem perm_cons_eraseIdx_int : ∀ (l : List Int) (m : Nat), m < l.length →
    l.Perm (l.getD m 0 :: l.eraseIdx m)
  | [], _, h => by simp at h
  | a :: l, 0, _ => by simp
  | a :: l, m + 1, h => by
    have ih := perm_cons_eraseIdx_int l m (by simpa using h)
    simp only [List.getD_cons_succ, List.eraseIdx_cons_succ]
    exact (List.Perm.cons a ih).trans (List.Perm.swap _ _ _)

theorem sendLoop_length (lb : List procBlock) :
    ∀ (k : Nat) (lp : List Int), (sendLoop lb k lp).length = k
  | 0, _ => rfl
  | k + 1, lp => by simp [sendLoop, sendLoop_length lb k]

theorem sendLoop_perm (lb : List procBlock) :
    ∀ (k : Nat) (lp : List Int), lp.length = k →
      (sendLoop lb k lp).Perm (lp.map (fun p => lb.getD p.toNat default))
  | 0, lp, h => by
    rw [List.length_eq_zero.1 h]
    exact List.Perm.refl _
  | k + 1, lp, h => by
    have hne : lp ≠ [] := by
      intro e
      rw [e] at h
      simp at h
    have hm := minGlobalScan_lt lb lp hne
    have hp := perm_cons_eraseIdx_int lp (minGlobalScan lb 0 lp 0) hm
    have hlen : (lp.eraseIdx (minGlobalScan lb 0 lp 0)).length = k := by
      rw [List.length_eraseIdx_of_lt hm]
      omega
    have ih := sendLoop_perm lb k (lp.eraseIdx (minGlobalScan lb 0 lp 0)) hlen
    have hp2 := (hp.map (fun p : Int => lb.getD p.toNat default)).symm
    rw [List.map_cons] at hp2
    simp only [sendLoop]
    exact (List.Perm.cons _ ih).trans hp2

theorem sendLoopChecked_eq (lb : List procBlock) :
    ∀ (k : Nat) (lp : List Int), lp.length = k → lp.length ≤ lb.length →
      (∀ p ∈ lp, 0 ≤ p ∧ p.toNat < lb.length) →
      sendLoopChecked lb k lp = some (sendLoop lb k lp)
  | 0, _, _, _, _ => rfl
  | k + 1, lp, h, hle, hv => by
    have hne : lp ≠ [] := by
      intro e
      rw [e] at h
      simp at h
    have hm := minGlobalScan_lt lb lp hne
    have hscan := minGlobalScanChecked_eq lb lp 0 0 hv (fun _ => by omega) (by omega)
    have hmem : lp.getD (minGlobalScan lb 0 lp 0) 0 ∈ lp := by
      rw [List.getD_eq_getElem _ _ hm]
      exact List.getElem_mem hm
    have hval := hv _ hmem
    have hlen : (lp.eraseIdx (minGlobalScan lb 0 lp 0)).length = k := by
      rw [List.length_eraseIdx_of_lt hm]
      omega
    have ih := sendLoopChecked_eq lb k (lp.eraseIdx (minGlobalScan lb 0 lp 0)) hlen
      (by omega) (fun p hp => hv p (List.mem_of_mem_eraseIdx hp))
    simp only [sendLoopChecked, sendLoop, hscan]
    rw [if_pos ⟨hm, hval.1, hval.2⟩, ih]
    rfl

theorem map_getD_range (lb : List procBlock) :
    (List.range lb.length).map (fun i => lb.getD i default) = lb := by
  apply List.ext_getElem
  · simp
  · intro i h1 h2
    simp only [List.getElem_map, List.getElem_range]
    exact List.getD_eq_getElem _ _ h2

/-- C33. Every local block is sent exactly once: for local blocks whose `LocalPosition()`
values are a permutation of `0, ..., n - 1`, the non-root branch of `GetProcBlocks` makes
exactly `n` sends, the blocks sent are a permutation of the local blocks (none is sent
twice, none is left out), and every subscript of `localBlocks` and of `localPos` used on
the way is in range (the run with checked subscripts gives the same sends). -/
theorem every_block_sent_once (localBlocks : List procBlock)
    (hperm : (localBlocks.map procBlock.LocalPosition).Perm
      ((List.range localBlocks.length).map Int.ofNat)) :
    (GetProcBlocks localBlocks).length = localBlocks.length ∧
      (GetProcBlocks localBlocks).Perm localBlocks ∧
      GetProcBlocksChecked localBlocks = some (GetProcBlocks localBlocks) := by
  have hv : ∀ p ∈ localBlocks.map procBlock.LocalPosition,
      0 ≤ p ∧ p.toNat < localBlocks.length := by
    intro p hp
    have := hperm.subset hp
    simp only [List.mem_map, List.mem_range] at this
    obtain ⟨i, hi, rfl⟩ := this
    simp only [Int.ofNat_eq_coe, Int.toNat_ofNat]
    omega
  refine ⟨sendLoop_length _ _ _, ?_, ?_⟩
  · have h1 := sendLoop_perm localBlocks localBlocks.length
      (localBlocks.map procBlock.LocalPosition) (by simp)
    have h2 := hperm.map (fun p : Int => localBlocks.getD p.toNat default)
    have h3 : ((List.range localBlocks.length).map Int.ofNat).map
        (fun p : Int => localBlocks.getD p.toNat default) = localBlocks := by
      rw [List.map_map]
      exact map_getD_range localBlocks
    rw [h3] at h2
    exact h1.trans h2
  · exact sendLoopChecked_eq localBlocks localBlocks.length _ (by simp) (by simp) hv

/-- Witness for C33: three local blocks with global ids 1, 5, 3 stored in the local slots
2, 0, 1. -/
theorem every_block_sent_once_witness :
    (([⟨1, 2⟩, ⟨5, 0⟩, ⟨3, 1⟩] : List procBlock).map procBlock.LocalPosition).Perm
        ((List.range ([⟨1, 2⟩, ⟨5, 0⟩, ⟨3, 1⟩] : List procBlock).length).map Int.ofNat) ∧
      (GetProcBlocks [⟨1, 2⟩, ⟨5, 0⟩, ⟨3, 1⟩]).length = 3 ∧
      (GetProcBlocks [⟨1, 2⟩, ⟨5, 0⟩, ⟨3, 1⟩]).Perm [⟨1, 2⟩, ⟨5, 0⟩, ⟨3, 1⟩] :=
  have hp : (([⟨1, 2⟩, ⟨5, 0⟩, ⟨3, 1⟩] : List procBlock).map procBlock.LocalPosition).Perm
      ((List.range ([⟨1, 2⟩, ⟨5, 0⟩, ⟨3, 1⟩] : List procBlock).length).map Int.ofNat) := by
    decide
  ⟨hp, (every_block_sent_once _ hp).1, (every_block_sent_once _ hp).2.1⟩

/-! ## Rank-range safety -/

theorem RanksIn_construct (num : Nat) (nProcs numProc : Int) (hp : 1 ≤ numProc) :
    (decomposition.construct num nProcs).RanksIn numProc := by
  intro i _
  simp only [decomposition.Rank, decomposition.construct]
  rw [construct_getD_rank]
  omega

theorem RanksIn_sendToProc (d : decomposition) (numProc : Int) (h : d.RanksIn numProc)
    (blk : Nat) (f t : Int) (ht : 0 ≤ t ∧ t < numProc) :
    (d.SendToProc blk f t).RanksIn numProc := by
  intro i hi
  have hi2 : i < d.Size := by simpa [decomposition.SendToProc, decomposition.Size] using hi
  by_cases hb : blk < d.Size
  · rw [SendToProc_rank_getD d blk f t i hb]
    split_ifs
    · exact ht
    · exact h i hi2
  · have e : d.rank_.set blk t = d.rank_ :=
      List.set_eq_of_length_le (by simpa [decomposition.Size] using hb)
    simp only [decomposition.SendToProc, decomposition.Rank, e]
    exact h i hi2

theorem RanksIn_split (d : decomposition) (numProc : Int) (hp : 1 ≤ numProc)
    (h : d.RanksIn numProc) (low : Nat) (ind : Int) (dir : String) :
    (d.Split low ind dir).RanksIn numProc := by
  intro i hi
  simp only [decomposition.Split, decomposition.Size, List.length_append,
    List.length_singleton] at hi
  simp only [decomposition.Split, decomposition.Rank]
  rw [getD_append_singleton]
  split_ifs
  · by_cases hl : low < d.Size
    · exact h low hl
    · rw [List.getD_eq_default _ _ (by simpa [decomposition.Size] using hl)]
      omega
  · exact h i (by simp only [decomposition.Size]; omega)

theorem min_element_lt (d : decomposition) (grid : List plot3dBlock) (hp : 1 ≤ d.NumProcs) :
    (0 : Int) ≤ (min_element (d.loadVector grid) : Int) ∧
      (min_element (d.loadVector grid) : Int) < d.NumProcs := by
  have hlen := loadVector_length d grid
  have hne : d.loadVector grid ≠ [] := by
    intro e
    rw [e] at hlen
    simp only [decomposition.NumProcs, List.length_nil] at hp hlen
    omega
  have := (min_element_spec _ hne).1
  simp only [decomposition.NumProcs] at hp ⊢
  omega

theorem max_element_lt (d : decomposition) (grid : List plot3dBlock) (hp : 1 ≤ d.NumProcs) :
    (0 : Int) ≤ (max_element (d.loadVector grid) : Int) ∧
      (max_element (d.loadVector grid) : Int) < d.NumProcs := by
  have hlen := loadVector_length d grid
  have hne : d.loadVector grid ≠ [] := by
    intro e
    rw [e] at hlen
    simp only [decomposition.NumProcs, List.length_nil] at hp hlen
    omega
  have := (max_element_spec _ hne).1
  simp only [decomposition.NumProcs] at hp ⊢
  omega

theorem manualSends_numProcs (n : Nat) (nProcs : Int) :
    ∀ m : Nat, (manualSends n nProcs m).NumProcs = nProcs
  | 0 => rfl
  | m + 1 => by
    rw [manualSends_succ]
    exact manualSends_numProcs n nProcs m

theorem RankSafe_init (grid : List plot3dBlock) (numProc : Int) (hp : 1 ≤ numProc) :
    (cubicInit grid numProc).RankSafe numProc :=
  ⟨by simp [cubicInit, decomposition.construct, decomposition.Size], rfl,
    RanksIn_construct _ _ _ hp⟩

theorem RankSafe_step (s : cubicState) (numProc : Int) (hp : 1 ≤ numProc)
    (h : s.RankSafe numProc) :
    (cubicStep s).RankSafe numProc ∧
      (s.decomp.Split s.choice.blk s.choice.ind s.choice.dir).RanksIn numProc := by
  obtain ⟨h1, h2, h3⟩ := h
  have hul : 0 ≤ s.ul ∧ s.ul < numProc := by
    have := min_element_lt s.decomp s.grid (by rw [h2]; exact hp)
    rw [h2] at this
    exact this
  have hsplit := RanksIn_split s.decomp numProc hp h3 s.choice.blk s.choice.ind s.choice.dir
  refine ⟨?_, hsplit⟩
  unfold cubicStep
  split_ifs
  · exact ⟨by rw [(SendToProc_sizes _ _ _ _).2]; exact h1, h2,
      RanksIn_sendToProc _ _ h3 _ _ _ hul⟩
  · refine ⟨?_, h2, RanksIn_sendToProc _ _ hsplit _ _ _ hul⟩
    rw [(SendToProc_sizes _ _ _ _).2, (Split_sizes _ _ _ _).2, h1]
    simp

theorem RankSafe_iterate (grid : List plot3dBlock) (numProc : Int) (hp : 1 ≤ numProc) :
    ∀ k : Nat, (cubicStep^[k] (cubicInit grid numProc)).RankSafe numProc
  | 0 => RankSafe_init grid numProc hp
  | k + 1 => by
    rw [Function.iterate_succ_apply']
    exact (RankSafe_step _ numProc hp (RankSafe_iterate grid numProc hp k)).1

/-- C34. Rank-range safety for `numProc ≥ 1`.  At the top of every pass of the loop of
`CubicDecomposition` (where `MaxLoad`, `MostOverloadedProc`, `MostUnderloadedProc` and
`SendWholeOrSplit` are called) and when the loop has ended (where `MaxLoad`,
`MostOverloadedProc` and `MostUnderloadedProc` are called again), `Size()` equals
`grid.size()`, the load vector has `numProc` entries, the two chosen ranks `ol` and `ul`
are in `[0, numProc)`, and every block `ii < grid.size()` has an entry in `rank_` with
`0 ≤ rank_[ii] < numProc`: every access `rank_[ii]` and `load[rank_[ii]]` is in bounds.
The same holds between the `Split` and the `SendToProc` of a pass, and for every state of
`ManualDecomposition`. -/
theorem rank_range_safety (grid : List plot3dBlock) (numProc : Int) (hp : 1 ≤ numProc) :
    (∀ k : Nat,
      (cubicStep^[k] (cubicInit grid numProc)).decomp.Size =
          (cubicStep^[k] (cubicInit grid numProc)).grid.length ∧
        ((cubicStep^[k] (cubicInit grid numProc)).decomp.loadVector
          (cubicStep^[k] (cubicInit grid numProc)).grid).length = numProc.toNat ∧
        (0 ≤ (cubicStep^[k] (cubicInit grid numProc)).ol ∧
          (cubicStep^[k] (cubicInit grid numProc)).ol < numProc) ∧
        (0 ≤ (cubicStep^[k] (cubicInit grid numProc)).ul ∧
          (cubicStep^[k] (cubicInit grid numProc)).ul < numProc) ∧
        (∀ ii, ii < (cubicStep^[k] (cubicInit grid numProc)).grid.length →
          ii < (cubicStep^[k] (cubicInit grid numProc)).decomp.rank_.length ∧
            0 ≤ (cubicStep^[k] (cubicInit grid numProc)).decomp.Rank ii ∧
            (cubicStep^[k] (cubicInit grid numProc)).decomp.Rank ii < numProc) ∧
        ((cubicStep^[k] (cubicInit grid numProc)).decomp.Split
          (cubicStep^[k] (cubicInit grid numProc)).choice.blk
          (cubicStep^[k] (cubicInit grid numProc)).choice.ind
          (cubicStep^[k] (cubicInit grid numProc)).choice.dir).RanksIn numProc) ∧
      (∃ k : Nat,
        (CubicDecomposition grid numProc).decomp =
            (cubicStep^[k] (cubicInit grid numProc)).decomp ∧
          (CubicDecomposition grid numProc).grid =
            (cubicStep^[k] (cubicInit grid numProc)).grid) ∧
      ((ManualDecomposition grid numProc).isSome = true →
        ∀ m, m < grid.length →
          (manualSends grid.length numProc m).Size = grid.length ∧
            ((manualSends grid.length numProc m).loadVector grid).length = numProc.toNat ∧
            ∀ ii, ii < grid.length →
              0 ≤ (manualSends grid.length numProc m).Rank ii ∧
                (manualSends grid.length numProc m).Rank ii < numProc) := by
  refine ⟨?_, ?_, ?_⟩
  · intro k
    have hs := RankSafe_iterate grid numProc hp k
    have hstep := (RankSafe_step _ numProc hp hs).2
    obtain ⟨h1, h2, h3⟩ := hs
    have hp2 : 1 ≤ (cubicStep^[k] (cubicInit grid numProc)).decomp.NumProcs := by
      rw [h2]; exact hp
    refine ⟨h1, ?_, ?_, ?_, ?_, hstep⟩
    · rw [loadVector_length]
      simp only [decomposition.NumProcs] at h2
      rw [h2]
    · have := max_element_lt _ (cubicStep^[k] (cubicInit grid numProc)).grid hp2
      rw [h2] at this
      exact this
    · have := min_element_lt _ (cubicStep^[k] (cubicInit grid numProc)).grid hp2
      rw [h2] at this
      exact this
    · intro ii hii
      have hii2 : ii < (cubicStep^[k] (cubicInit grid numProc)).decomp.Size := by
        rw [h1]; exact hii
      exact ⟨hii2, h3 ii hii2⟩
  · obtain ⟨k, _, he, _, _⟩ := cubicLoop_iterate
      ((decomposition.construct grid.length numProc).IdealLoad grid) (numProc * 10).toNat
      (cubicInit grid numProc)
    refine ⟨k, ?_, ?_⟩
    · simp only [CubicDecomposition]
      rw [he]
    · simp only [CubicDecomposition]
      rw [he]
  · intro hsome m hm
    have hn : (grid.length : Int) = numProc := by
      by_contra hne
      simp [ManualDecomposition, hne] at hsome
    obtain ⟨hlr, _, _, _, hrk, _⟩ := manualSends_spec grid.length numProc m (by omega)
    refine ⟨hlr, ?_, ?_⟩
    · rw [loadVector_length]
      have := manualSends_numProcs grid.length numProc m
      simp only [decomposition.NumProcs] at this
      rw [this]
    intro ii hii
    rw [decomposition.Rank, hrk ii hii]
    split_ifs <;> omega

/-- Witness for C34: one block of 10x10x10 cells on four processes, after two passes of the
loop of `CubicDecomposition`. -/
theorem rank_range_safety_witness :
    (1 : Int) ≤ 4 ∧
      (cubicStep^[2] (cubicInit [⟨11, 11, 11⟩] 4)).decomp.Size =
        (cubicStep^[2] (cubicInit [⟨11, 11, 11⟩] 4)).grid.length ∧
      (cubicStep^[2] (cubicInit [⟨11, 11, 11⟩] 4)).decomp.rank_ = [1, 2, 0] :=
  ⟨by decide, ((rank_range_safety [⟨11, 11, 11⟩] 4 (by decide)).1 2).1, by decide!⟩

/-! ## Size, history and parent invariants -/

theorem historyInv_construct (num : Nat) (nProcs : Int) :
    HistoryInv num (decomposition.construct num nProcs) := by
  refine ⟨by simp [decomposition.construct], by simp [decomposition.construct],
    by simp [decomposition.construct], rfl, rfl, rfl, ?_, ?_, ?_, ?_, ?_⟩
  · intro s hs
    simp [decomposition.construct] at hs
  · intro s hs
    simp [decomposition.construct] at hs
  · intro b hb
    have hb2 : b < num := by simpa [decomposition.construct] using hb
    simp only [decomposition.construct]
    rw [construct_getD_range num b hb2]
    omega
  · intro b hb
    exact construct_getD_range num b hb
  · intro s hs
    simp [decomposition.construct] at hs

theorem historyInv_sendToProc {num : Nat} {d : decomposition} (h : HistoryInv num d)
    (blk : Nat) (f t : Int) : HistoryInv num (d.SendToProc blk f t) := by
  obtain ⟨h1, h2, h3, h4, h5, h6, h7, h8, h9, h10, h11⟩ := h
  have hr : (d.SendToProc blk f t).rank_.length = d.rank_.length := by
    simp [decomposition.SendToProc]
  have hl : (d.SendToProc blk f t).localPos_.length = d.localPos_.length := by
    simp [decomposition.SendToProc, moveDown_length]
  exact ⟨by rw [hr]; exact h1, by rw [hr, hl]; exact h2, by rw [hr]; exact h3, h4, h5, h6, h7,
    h8, fun b hb => h9 b (by rw [← hr]; exact hb), h10, h11⟩

theorem historyInv_split {num : Nat} {d : decomposition} (h : HistoryInv num d)
    (low : Nat) (ind : Int) (dir : String) (hl : low < d.Size) :
    HistoryInv num (d.Split low ind dir) := by
  obtain ⟨h1, h2, h3, h4, h5, h6, h7, h8, h9, h10, h11⟩ := h
  have hl2 : low < d.rank_.length := hl
  refine ⟨?_, ?_, ?_, ?_, ?_, ?_, ?_, ?_, ?_, ?_, ?_⟩
  · simp [decomposition.Split, h1]
  · simp [decomposition.Split, h2]
  · simp only [decomposition.Split, List.length_append, List.length_singleton]
    omega
  · simp [decomposition.Split, h4]
  · simp [decomposition.Split, h5]
  · simp [decomposition.Split, h6]
  · intro s hs
    simp only [decomposition.Split, List.length_append, List.length_singleton] at hs ⊢
    rw [getD_append_singleton, h5]
    split_ifs with e
    · subst e
      rw [h3]
    · exact h7 s (by omega)
  · intro s hs
    simp only [decomposition.Split, List.length_append, List.length_singleton] at hs ⊢
    rw [getD_append_singleton, h4]
    split_ifs with e
    · subst e
      constructor <;> omega
    · exact h8 s (by omega)
  · intro b hb
    simp only [decomposition.Split, List.length_append, List.length_singleton] at hb ⊢
    rw [getD_append_singleton, h1]
    split_ifs with e
    · exact h9 low hl2
    · exact h9 b (by omega)
  · intro b hb
    simp only [decomposition.Split]
    rw [getD_append_singleton, h1, if_neg (by omega)]
    exact h10 b hb
  · intro s hs
    simp only [decomposition.Split, List.length_append, List.length_singleton] at hs ⊢
    rw [getD_append_singleton d.splitHistBlkUp_, getD_append_singleton d.splitHistBlkLow_,
      h4, h5]
    by_cases e : s = d.splitHistDir_.length
    · rw [if_pos e, if_pos e, getD_append_singleton, getD_append_singleton, h1]
      simp only [Int.toNat_ofNat, if_true]
      rw [if_neg (by omega)]
    · have hs2 : s < d.splitHistDir_.length := by omega
      have hu := h7 s hs2
      have hlw := h8 s hs2
      rw [if_neg e, if_neg e, getD_append_singleton, getD_append_singleton, h1,
        if_neg (by omega), if_neg (by omega)]
      exact h11 s hs2

theorem historyInv_of_reachable {num : Nat} {nProcs : Int} {d : decomposition}
    (h : Reachable num nProcs d) : HistoryInv num d := by
  induction h with
  | init => exact historyInv_construct num nProcs
  | send blk f t _ _ _ ih => exact historyInv_sendToProc ih blk f t
  | split low ind dir _ hl ih => exact historyInv_split ih low ind dir hl

/-- C35. Size and history invariant: in every decomposition reached from
`decomposition(num, nProcs)` by `SendToProc` and `Split` calls, the rank, parent and
local-position vectors all have length `Size() = num + NumSplits()`, the four split history
vectors all have length `NumSplits()`, and for every split `s` the upper block is
`num + s` and the lower block is a block with a smaller index. -/
theorem size_history_invariant (num : Nat) (nProcs : Int) (d : decomposition)
    (h : Reachable num nProcs d) :
    d.rank_.length = d.Size ∧ d.parBlock_.length = d.Size ∧ d.localPos_.length = d.Size ∧
      d.Size = num + d.NumSplits ∧
      d.splitHistBlkLow_.length = d.NumSplits ∧ d.splitHistBlkUp_.length = d.NumSplits ∧
      d.splitHistIndex_.length = d.NumSplits ∧ d.splitHistDir_.length = d.NumSplits ∧
      ∀ s, s < d.NumSplits →
        d.SplitHistBlkUpper s = (num : Int) + (s : Int) ∧
          0 ≤ d.SplitHistBlkLower s ∧ d.SplitHistBlkLower s < d.SplitHistBlkUpper s := by
  have hi := historyInv_of_reachable h
  refine ⟨rfl, hi.parLen, hi.posLen, hi.size, hi.lowLen, hi.upLen, hi.indLen, rfl, ?_⟩
  intro s hs
  have hu := hi.upper s hs
  have hl := hi.lower s hs
  simp only [decomposition.SplitHistBlkUpper, decomposition.SplitHistBlkLower]
  rw [hu]
  push_cast at hl ⊢
  exact ⟨rfl, hl.1, hl.2⟩

/-- Witness for C35: three blocks on two processes, block 1 sent to rank 1, block 0 sent to
its own rank, then block 0 split. -/
theorem size_history_invariant_witness :
    Reachable 3 2 slotExample ∧ slotExample.Size = 3 + slotExample.NumSplits ∧
      slotExample.SplitHistBlkUpper 0 = 3 ∧ slotExample.SplitHistBlkLower 0 = 0 :=
  have hr : Reachable 3 2 slotExample :=
    Reachable.split 0 4 "k"
      (Reachable.send 0 0 0
        (Reachable.send 1 0 1 Reachable.init (by decide) (by decide)) (by decide) (by decide))
      (by decide)
  ⟨hr, (size_history_invariant 3 2 slotExample hr).2.2.2.1, by decide, by decide⟩

/-- C36. Parent tracking: in every decomposition reached from `decomposition(num, nProcs)`
by `SendToProc` and `Split` calls (the block given to `Split` being a valid block), the
parent of every block is an original block id in `[0, num)`, an original block is its own
parent, and for every split the upper block has the parent of the lower block. -/
theorem parent_tracking (num : Nat) (nProcs : Int) (d : decomposition)
    (h : Reachable num nProcs d) :
    (∀ b, b < d.Size → 0 ≤ d.ParentBlock b ∧ d.ParentBlock b < (num : Int)) ∧
      (∀ b, b < num → d.ParentBlock b = (b : Int)) ∧
      (∀ s, s < d.NumSplits →
        d.ParentBlock (d.SplitHistBlkUpper s).toNat =
          d.ParentBlock (d.SplitHistBlkLower s).toNat) := by
  have hi := historyInv_of_reachable h
  exact ⟨hi.parRange, hi.parOrig, hi.parSplit⟩

/-- Witness for C36: in the decomposition of the witness for C35, block 3, made by the
split of block 0, has parent 0. -/
theorem parent_tracking_witness :
    Reachable 3 2 slotExample ∧ (3 : Nat) < slotExample.Size ∧
      (0 ≤ slotExample.ParentBlock 3 ∧ slotExample.ParentBlock 3 < ((3 : Nat) : Int)) ∧
      slotExample.ParentBlock 3 = 0 :=
  have hr : Reachable 3 2 slotExample :=
    Reachable.split 0 4 "k"
      (Reachable.send 0 0 0
        (Reachable.send 1 0 1 Reachable.init (by decide) (by decide)) (by decide) (by decide))
      (by decide)
  ⟨hr, by decide, (parent_tracking 3 2 slotExample hr).1 3 (by decide), by decide⟩

/-! ## Ghost layers on accepted input -/

theorem readFaceReconstruction_stores (inp out : input) (tok : String)
    (h : inp.readFaceReconstruction tok = some out) :
    tok ∈ acceptedReconstructions ∧ out.faceReconstruction_ = tok := by
  unfold input.readFaceReconstruction at h
  unfold acceptedReconstructions
  split_ifs at h with h1 h2 h3 h4 h5 h6
  · cases h; exact ⟨by simp [h1], rfl⟩
  · cases h; exact ⟨by simp [h2], rfl⟩
  · cases h; exact ⟨by simp [h3], rfl⟩
  · cases h; exact ⟨by simp [h4], rfl⟩
  · cases h; exact ⟨by simp [h5], rfl⟩
  · cases h
    refine ⟨?_, rfl⟩
    rcases h6 with e | e | e <;> simp [e]

/-- C37. The ghost-layer count is total on accepted input: whenever the `faceReconstruction`
branch of `ReadInput` stores a value without ending the run, the value is one of `constant`,
`upwind`, `fromm`, `quick`, `central`, `thirdOrder`, `weno`, `wenoZ`, and `NumberGhostLayers()`
then returns without reaching its fatal branch: 1 for `constant`, 2 for the five MUSCL
schemes and 3 for `weno` and `wenoZ`.  Each of the eight values is stored. -/
theorem ghost_layers_total (inp : input) (tok : String) :
    (∀ out, inp.readFaceReconstruction tok = some out →
      tok ∈ acceptedReconstructions ∧ out.FaceReconstruction = tok ∧
        out.NumberGhostLayers =
          some (if tok = "constant" then 1
            else if tok = "weno" ∨ tok = "wenoZ" then 3 else 2)) ∧
      (tok ∈ acceptedReconstructions → (inp.readFaceReconstruction tok).isSome = true) := by
  constructor
  · intro out h
    obtain ⟨hm, hf⟩ := readFaceReconstruction_stores inp out tok h
    refine ⟨hm, hf, ?_⟩
    simp only [input.NumberGhostLayers, input.UsingConstantReconstruction,
      input.UsingMUSCLReconstruction, input.UsingHigherOrderReconstruction, hf]
    simp only [acceptedReconstructions, List.mem_cons, List.mem_singleton, List.mem_nil_iff,
      or_false] at hm
    rcases hm with e | e | e | e | e | e | e | e <;> subst e <;> decide
  · intro hm
    simp only [acceptedReconstructions, List.mem_cons, List.mem_singleton, List.mem_nil_iff,
      or_false] at hm
    rcases hm with e | e | e | e | e | e | e | e <;> subst e <;>
      simp [input.readFaceReconstruction]

/-- Witness for C37: `weno` read from the constructor defaults gives 3 ghost layers. -/
theorem ghost_layers_total_witness :
    (input.construct "a.inp" "none").readFaceReconstruction "weno" =
        some { input.construct "a.inp" "none" with faceReconstruction_ := "weno" } ∧
      ({ input.construct "a.inp" "none" with
          faceReconstruction_ := "weno" }).NumberGhostLayers = some 3 :=
  ⟨by decide!,
    ((ghost_layers_total (input.construct "a.inp" "none") "weno").1 _ (by decide!)).2.2.trans
      (by decide)⟩

end Aither
